import Mathlib

/-!
Shallow embedding of the wxJSON reader (`src/jsonreader.cpp`) and proofs about
the claims of its specification.

Conventions of the embedding:
* the input stream is a `List Nat` of bytes; `ReadChar`, `PeekChar` return an
  `Int` where `-1` denotes EOF, exactly as the C functions do;
* `wxString` values built from UTF-8 buffers are kept as their byte lists;
  diagnostic messages are Lean `String`s, formatted as the C `Printf` calls do;
* machine integers (`wxUint64`) are `Nat` with explicit `% 2^64` at every
  operation that can wrap, `wxInt64` results are `Int` obtained by the usual
  two's-complement reinterpretation;
* functions that loop on the stream take an explicit `fuel` argument; the
  top-level `parse` supplies a fuel that is large enough for its input.
-/

namespace WxJSON

/-- Parser/tolerance flag bits. Modelled from the spec (section 6.1): the numeric
values live in the header `jsonreader.h`, which is not part of `src/`; only the
fact that the bits are distinct powers of two matters to the code. -/
def wxJSONREADER_ALLOW_COMMENTS : Nat := 1

/-- Modelled from the spec: CASE flag bit (mixed-case literals tolerated). -/
def wxJSONREADER_CASE : Nat := 2

/-- Modelled from the spec: MISSING flag bit (missing/mismatched closers tolerated). -/
def wxJSONREADER_MISSING : Nat := 4

/-- Modelled from the spec: MULTISTRING flag bit (adjacent strings concatenated). -/
def wxJSONREADER_MULTISTRING : Nat := 8

/-- Modelled from the spec: COMMENTS_AFTER flag bit. -/
def wxJSONREADER_COMMENTS_AFTER : Nat := 16

/-- Modelled from the spec: STORE_COMMENTS flag bit. -/
def wxJSONREADER_STORE_COMMENTS : Nat := 32

/-- Modelled from the spec: NOUTF8_STREAM flag bit. -/
def wxJSONREADER_NOUTF8_STREAM : Nat := 64

/-- Modelled from the spec: MEMORYBUFF flag bit. -/
def wxJSONREADER_MEMORYBUFF : Nat := 128

/-- Modelled from the spec: the STRICT preset is 0. -/
def wxJSONREADER_STRICT : Nat := 0

/-- Modelled from the spec: TOLERANT = ALLOW_COMMENTS or CASE or MISSING or MULTISTRING. -/
def wxJSONREADER_TOLERANT : Nat :=
  wxJSONREADER_ALLOW_COMMENTS ||| wxJSONREADER_CASE |||
  wxJSONREADER_MISSING ||| wxJSONREADER_MULTISTRING

/-- Reader state: the data members of `wxJSONReader` plus the not-yet-consumed
input bytes of the `wxInputStream`.  `m_peekChar` is carried by the source but
never used with the stream backend (the stream has its own peek), so it is
omitted; `m_noUtf8` is `false` in Unicode builds, which is the build embedded
here. -/
structure RState where
  flags : Nat
  maxErrors : Nat
  input : List Nat
  lineNo : Nat
  colNo : Nat
  level : Nat
  depth : Nat
  errors : List String
  warnings : List String
  comment : List Nat
  commentLine : Int
deriving Repr

/-- Embeds `wxJSONReader::ReadChar` (src/jsonreader.cpp:448): one byte from the
stream with CR+LF collapsing and line/column bookkeeping; `-1` on EOF, also when
a CR is the last byte of the stream (the source peeks after a CR and returns
`-1` when the peek fails). -/
def readChar (st : RState) : Int × RState :=
  match st.input with
  | [] => (-1, st)
  | b :: rest =>
    if b = 13 then
      let st1 := { st with input := rest, colNo := 1 }
      match rest with
      | [] => (-1, st1)
      | b2 :: rest2 =>
        if b2 = 10 then
          (10, { st1 with input := rest2, lineNo := st1.lineNo + 1, colNo := 1 })
        else
          (13, { st1 with colNo := st1.colNo + 1 })
    else if b = 10 then
      (10, { st with input := rest, lineNo := st.lineNo + 1, colNo := 1 })
    else
      ((b : Int), { st with input := rest, colNo := st.colNo + 1 })

/-- Embeds `wxJSONReader::PeekChar` (src/jsonreader.cpp:490). -/
def peekChar (st : RState) : Int :=
  match st.input with
  | [] => -1
  | b :: _ => (b : Int)

/-- Embeds `wxJSONReader::SkipWhiteSpace` (src/jsonreader.cpp:864): reads until
the first character that is not space, LF or TAB. -/
def skipWhiteSpace (fuel : Nat) (st : RState) : Int × RState :=
  match fuel with
  | 0 => (-2, st)
  | fuel + 1 =>
    let (ch, st) := readChar st
    if ch < 0 then (ch, st)
    else if ch = 32 || ch = 10 || ch = 9 then skipWhiteSpace fuel st
    else (ch, st)

/-- The sentinel appended to `m_errors` when the error list is full
(src/jsonreader.cpp:792). -/
def errorSentinel : String := "ERROR: too many error messages - ignoring further errors"

/-- The sentinel appended to `m_warnings` when the warning list is full
(src/jsonreader.cpp:852). -/
def warningSentinel : String := "Error: too many warning messages - ignoring further warnings"

/-- The `Printf` format of an error message (src/jsonreader.cpp:784). -/
def formatError (line col : Nat) (msg : String) : String :=
  "Error: line " ++ toString line ++ ", col " ++ toString col ++ " - " ++ msg

/-- The `Printf` format of a warning message (src/jsonreader.cpp:845). -/
def formatWarning (line col : Nat) (msg : String) : String :=
  "Warning: line " ++ toString line ++ ", col " ++ toString col ++ " - " ++ msg

/-- Embeds `wxJSONReader::AddError` (src/jsonreader.cpp:780): append a formatted
error while the list is below `m_maxErrors`, append the sentinel when it is
exactly at the bound, drop the message otherwise. -/
def addError (msg : String) (st : RState) : RState :=
  let err := formatError st.lineNo st.colNo msg
  if st.errors.length < st.maxErrors then { st with errors := st.errors ++ [err] }
  else if st.errors.length = st.maxErrors then { st with errors := st.errors ++ [errorSentinel] }
  else st

/-- Embeds `wxJSONReader::AddWarning` (src/jsonreader.cpp:834): a warning whose
`type` bit is not present in `m_flags` is routed to `AddError`; otherwise it is
formatted and appended to the bounded warning list. -/
def addWarning (type : Nat) (msg : String) (st : RState) : RState :=
  if type ≠ 0 && type &&& st.flags = 0 then addError msg st
  else
    let w := formatWarning st.lineNo st.colNo msg
    if st.warnings.length < st.maxErrors then { st with warnings := st.warnings ++ [w] }
    else if st.warnings.length = st.maxErrors then { st with warnings := st.warnings ++ [warningSentinel] }
    else st

end WxJSON

namespace WxJSON

/-- Position of an attached comment. Modelled from the spec (section 3.1):
`wxJSONVALUE_COMMENT_BEFORE` / `INLINE` / `AFTER`. -/
inductive CommentPos where
  | before
  | inline
  | after
deriving Repr, DecidableEq

mutual
/-- Payload of a `wxJSONValue`. Modelled from the spec (section 3.1): the value
container is an external collaborator; this type realises exactly the
capability set the parser uses (the kinds of section 3.1, keys as byte
strings). -/
inductive JData : Type where
  | invalid : JData
  | jnull : JData
  | jbool : Bool → JData
  | jint : Int → JData
  | juint : Nat → JData
  | jdouble : List Nat → JData
  | jstring : List Nat → JData
  | jmembuff : List Nat → JData
  | jobject : List (List Nat × JValue) → JData
  | jarray : List JValue → JData

/-- A `wxJSONValue`: payload plus the line-number attribute (set by
`SetLineNo`, `-1` when unset) and the list of attached comments. Modelled from
the spec (section 3.1). -/
inductive JValue : Type where
  | mk : JData → Int → List (List Nat × CommentPos) → JValue
end

/-- The type tags of `wxJSONTYPE_*`. Modelled from the spec (section 3.1). -/
inductive JKind : Type where
  | invalid
  | jnull
  | jbool
  | jint
  | juint
  | jdouble
  | jstring
  | jmembuff
  | jobject
  | jarray
deriving Repr, DecidableEq

def JData.kind : JData → JKind
  | .invalid => .invalid
  | .jnull => .jnull
  | .jbool _ => .jbool
  | .jint _ => .jint
  | .juint _ => .juint
  | .jdouble _ => .jdouble
  | .jstring _ => .jstring
  | .jmembuff _ => .jmembuff
  | .jobject _ => .jobject
  | .jarray _ => .jarray

/-- The fresh payload a `SetType` call installs for each kind. Modelled from
the spec (section 3.1). -/
def JKind.defaultData : JKind → JData
  | .invalid => .invalid
  | .jnull => .jnull
  | .jbool => .jbool false
  | .jint => .jint 0
  | .juint => .juint 0
  | .jdouble => .jdouble []
  | .jstring => .jstring []
  | .jmembuff => .jmembuff []
  | .jobject => .jobject []
  | .jarray => .jarray []

def JValue.data : JValue → JData
  | .mk d _ _ => d

def JValue.lineNo : JValue → Int
  | .mk _ l _ => l

def JValue.comments : JValue → List (List Nat × CommentPos)
  | .mk _ _ c => c

def JValue.kind (v : JValue) : JKind := v.data.kind

/-- Modelled from the spec: `wxJSONValue::SetLineNo`. -/
def JValue.setLineNo : JValue → Int → JValue
  | .mk d _ c, l => .mk d l c

/-- Modelled from the spec: `wxJSONValue::AddComment` appends one comment with
its position. -/
def JValue.addComment : JValue → List Nat → CommentPos → JValue
  | .mk d l c, t, p => .mk d l (c ++ [(t, p)])

/-- Modelled from the spec: `wxJSONValue::ClearComments`. -/
def JValue.clearComments : JValue → JValue
  | .mk d l _ => .mk d l []

/-- Modelled from the spec: `wxJSONValue::SetType` keeps the value untouched
when the type does not change and otherwise replaces the payload with a fresh
one of the new type; the line number and the attached comments are separate
attributes and survive (`StoreValue` calls `ClearComments` explicitly after
`SetType( wxJSONTYPE_INVALID )`, and comments attached to the root before
`Parse` sets its type are documented to survive, src/jsonreader.cpp:46). -/
def JValue.setType (v : JValue) (k : JKind) : JValue :=
  if v.kind = k then v else .mk k.defaultData v.lineNo v.comments

/-- A freshly constructed `wxJSONValue( wxJSONTYPE_INVALID )`. -/
def JValue.freshInvalid : JValue := .mk .invalid (-1) []

/-- Modelled from the spec: assignment `val = x` replaces the value wholesale
(a fresh value of the payload, with unset line number and no comments). -/
def JValue.assign (_v : JValue) (d : JData) : JValue := .mk d (-1) []

def JValue.isValid (v : JValue) : Bool := v.kind ≠ .invalid
def JValue.isObject (v : JValue) : Bool := v.kind = .jobject
def JValue.isArray (v : JValue) : Bool := v.kind = .jarray
def JValue.isString (v : JValue) : Bool := v.kind = .jstring
def JValue.isMemoryBuff (v : JValue) : Bool := v.kind = .jmembuff

/-- Modelled from the spec: `AsString` of a string value yields its text. -/
def JValue.asString (v : JValue) : List Nat :=
  match v.data with
  | .jstring s => s
  | _ => []

/-- Modelled from the spec: `Cat` concatenates text onto a string value in
place (attributes are kept). -/
def JValue.catString : JValue → List Nat → JValue
  | .mk (.jstring s) l c, t => .mk (.jstring (s ++ t)) l c
  | v, _ => v

/-- Modelled from the spec: `Cat` concatenates bytes onto a memory-buffer value
in place. -/
def JValue.catMemBuff : JValue → List Nat → JValue
  | .mk (.jmembuff s) l c, t => .mk (.jmembuff (s ++ t)) l c
  | v, _ => v

/-- Modelled from the spec: `parent[key] = value` updates the entry with that
key, appending a new entry when the key is absent. -/
def objInsert (entries : List (List Nat × JValue)) (k : List Nat) (v : JValue) :
    List (List Nat × JValue) :=
  match entries with
  | [] => [(k, v)]
  | (k0, v0) :: rest =>
    if k0 = k then (k0, v) :: rest else (k0, v0) :: objInsert rest k v

/-- Lookup of an object entry by key. -/
def objLookup (entries : List (List Nat × JValue)) (k : List Nat) : Option JValue :=
  match entries with
  | [] => none
  | (k0, v0) :: rest => if k0 = k then some v0 else objLookup rest k

/-- Modelled from the spec: apply `f` to the entry with key `k`. -/
def objUpdate (entries : List (List Nat × JValue)) (k : List Nat) (f : JValue → JValue) :
    List (List Nat × JValue) :=
  match entries with
  | [] => []
  | (k0, v0) :: rest =>
    if k0 = k then (k0, f v0) :: rest else (k0, v0) :: objUpdate rest k f

/-- Modelled from the spec: apply `f` to the last element of a list (the target
of `arr->Last()`). -/
def listUpdateLast (items : List JValue) (f : JValue → JValue) : List JValue :=
  match items with
  | [] => []
  | v :: rest =>
    match rest with
    | [] => [f v]
    | r :: rs => v :: listUpdateLast (r :: rs) f

/-- Dereference helpers for the three comment cursors. -/
def JValue.objChild (v : JValue) (k : List Nat) : Option JValue :=
  match v.data with
  | .jobject entries => objLookup entries k
  | _ => none

def JValue.arrLast (v : JValue) : Option JValue :=
  match v.data with
  | .jarray items => items.getLast?
  | _ => none

/-- Insert into an object value (`parent[key] = value`). -/
def JValue.insertKey (v : JValue) (k : List Nat) (c : JValue) : JValue :=
  match v with
  | .mk (.jobject entries) l cs => .mk (.jobject (objInsert entries k c)) l cs
  | _ => v

/-- Modelled from the spec: `parent.Append(value)` on an array value. -/
def JValue.appendItem (v : JValue) (c : JValue) : JValue :=
  match v with
  | .mk (.jarray items) l cs => .mk (.jarray (items ++ [c])) l cs
  | _ => v

/-- Apply `f` to the object child with key `k`. -/
def JValue.updateChild (v : JValue) (k : List Nat) (f : JValue → JValue) : JValue :=
  match v with
  | .mk (.jobject entries) l cs => .mk (.jobject (objUpdate entries k f)) l cs
  | _ => v

/-- Apply `f` to the last array element. -/
def JValue.updateLast (v : JValue) (f : JValue → JValue) : JValue :=
  match v with
  | .mk (.jarray items) l cs => .mk (.jarray (listUpdateLast items f)) l cs
  | _ => v

end WxJSON

namespace WxJSON

/-- Render a byte string as a Lean string (used where the C code splices a
`wxString` into a `Printf` format). -/
def bstr (bs : List Nat) : String :=
  String.mk (bs.map Char.ofNat)

def msgNoStart : String := "Cannot find a start object/array character"
def msgBraceNoName : String := "\x27\x7b\x27 is not allowed here (\x27name\x27 is missing"
def msgBraceAfterValue : String := "\x27\x7b\x27 cannot follow a \x27value\x27"
def msgBraceAfterValueArr : String := "\x27\x7b\x27 cannot follow a \x27value\x27 in JSON array"
def msgCloseArrayWithBrace : String :=
  "Trying to close an array using the \x27\x7d\x27 (close-object) char"
def msgBracketNoName : String := "\x27[\x27 is not allowed here (\x27name\x27 is missing"
def msgBracketAfterValueText : String := "\x27[\x27 cannot follow a \x27value\x27 text"
def msgBracketAfterValue : String := "\x27[\x27 cannot follow a \x27value\x27"
def msgCloseObjectWithBracket : String :=
  "Trying to close an object using the \x27]\x27 (close-array) char"
def msgMissingCloseArray : String := "\x27]\x27 missing at end of file"
def msgMissingCloseObject : String := "\x27\x7d\x27 missing at end of file"
def msgKeyOrValueMissing : String := "key or value is missing for JSON value"
def msgObjValueMissing : String :=
  "cannot store the value: \x27value\x27 is missing for JSON object type"
def msgObjKeyMissing : String :=
  "cannot store the value: \x27key\x27 is missing for JSON object type"
def msgArrValueMissing : String :=
  "cannot store the item: \x27value\x27 is missing for JSON array type"
def msgArrKey (k : List Nat) : String :=
  "cannot store the item: \x27key\x27 (\x27" ++ bstr k ++ "\x27) is not permitted in JSON array type"
def commentWarnText : String :=
  "Comments may be tolerated in JSON text but they are not part of JSON syntax"
def msgStraySlash : String := "Strange \x27/\x27 (did you want to insert a comment?)"
def msgUnknownEscape (c : Int) : String :=
  "Unknow escaped character \x27\\" ++ String.singleton (Char.ofNat c.toNat) ++ "\x27"
def msgInvalidUES : String := "Invalid Unicode Escaped Sequence"
def msgUtf8Invalid : String := "String value: the UTF-8 stream is invalid"
def msgMultiline : String := "Multiline strings are not allowed by JSON syntax"
def msgStringAfterValue (s : List Nat) : String :=
  "String value \x27" ++ bstr s ++ "\x27 cannot follow another value"
def msgColonOnlyObjects : String := "\x27:\x27 can only used in object\x27s values"
def msgColonNotString : String :=
  "\x27:\x27 follows a value which is not of type \x27string\x27"
def msgColonKeyPresent : String :=
  "\x27:\x27 not allowed where a \x27name\x27 string was already available"
def msgValueAfterValue (s : List Nat) : String :=
  "Value \x27" ++ bstr s ++ "\x27 cannot follow a value: \x27,\x27 or \x27:\x27 missing?"
def msgNullLower : String := "the \x27null\x27 literal must be lowercase"
def msgTrueLower : String := "the \x27true\x27 literal must be lowercase"
def msgFalseLower : String := "the \x27false\x27 literal must be lowercase"
def msgBadLiteral (s : List Nat) : String :=
  "Literal \x27" ++ bstr s ++ "\x27 is incorrect (did you forget quotes?)"
def msgMembuffWarn : String := "the \x27memory buffer\x27 type is not valid JSON text"
def msgMembuffDigits (n : Nat) : String :=
  "the \x27memory buffer\x27 type contains " ++ toString n ++ " invalid digits"
def msgMembuffAfterValue : String := "Memory buffer value cannot follow another value"
def msgCommentAfter : String := "Cannot find a value for storing the comment (flag AFTER)"
def msgCommentBefore : String := "Cannot find a value for storing the comment (flag BEFORE)"

/-- Target of `m_current` during a `DoRead` frame: null, the frame parent, or
the frame-local pending value. -/
inductive CTag where
  | cnone
  | cparent
  | cvalue
deriving Repr, DecidableEq

/-- Target of `m_next` during a `DoRead` frame: null or the frame-local
pending value. -/
inductive NTag where
  | nnone
  | nvalue
deriving Repr, DecidableEq

/-- Target of `m_lastStored`: null, a child of the frame parent (by key or the
last appended array item), or - after an inner frame returned - a child of the
frame-local pending value. -/
inductive LRef where
  | lnone
  | pobj : List Nat → LRef
  | parr : LRef
  | vobj : List Nat → LRef
  | varr : LRef
deriving Repr, DecidableEq

/-- The three comment cursors of a `DoRead` frame. -/
structure FCur where
  cur : CTag
  nxt : NTag
  last : LRef
deriving Repr, DecidableEq

/-- Result of `StoreValue`: updated parent, the reset pending value, the new
`m_lastStored` target and the reader state (diagnostics). After `StoreValue`
the other cursors are `m_current = 0`, `m_next = &value`. -/
structure SVOut where
  parent : JValue
  value : JValue
  last : LRef
  st : RState

/-- Embeds `wxJSONReader::StoreValue` (src/jsonreader.cpp:704). `ch` is the
triggering character (`,`, `}`, `]`, or the EOF `-1`). -/
def storeValue (ch : Int) (key : List Nat) (value parent : JValue) (st : RState) : SVOut :=
  let value := value.setLineNo (-1)
  let resetV := (JValue.setType value .invalid).clearComments
  if ¬value.isValid && key = [] then
    if ch = 125 || ch = 93 then
      { parent := parent, value := resetV, last := .lnone, st := st }
    else
      { parent := parent, value := resetV, last := .lnone, st := addError msgKeyOrValueMissing st }
  else if parent.isObject then
    if ¬value.isValid then
      { parent := parent, value := resetV, last := .lnone, st := addError msgObjValueMissing st }
    else if key = [] then
      { parent := parent, value := resetV, last := .lnone, st := addError msgObjKeyMissing st }
    else
      let parent := (parent.insertKey key value).updateChild key (fun c => c.setLineNo st.lineNo)
      { parent := parent, value := resetV, last := .pobj key, st := st }
  else if parent.isArray then
    let st := if ¬value.isValid then addError msgArrValueMissing st else st
    let st := if key ≠ [] then addError (msgArrKey key) st else st
    let parent := (parent.appendItem value).updateLast (fun c => c.setLineNo st.lineNo)
    { parent := parent, value := resetV, last := .parr, st := st }
  else
    { parent := parent, value := resetV, last := .lnone, st := st }

/-- What `StoreComment` sees of `m_current`: its line number, whether it is the
same object as the `parent` argument, and whether it holds a valid value. -/
structure CurView where
  line : Int
  isParent : Bool
  valid : Bool
deriving Repr, DecidableEq

/-- The decision `StoreComment` takes (which value receives the comment at
which position, or which error is emitted). -/
inductive SCAction where
  | discarded
  | inlineCurrent
  | inlineNext
  | inlineLast
  | afterCurrent
  | afterLast
  | beforeNext
  | errorAfter
  | errorBefore
deriving Repr, DecidableEq

/-- Embeds the decision logic of `wxJSONReader::StoreComment`
(src/jsonreader.cpp:1469): without STORE_COMMENTS the comment is discarded;
otherwise the first of `m_current`, `m_next`, `m_lastStored` whose line equals
`m_commentLine` receives it inline; otherwise with COMMENTS_AFTER the comment
goes after `m_current` (an error when `m_current` is the parent or invalid),
after `m_lastStored` only when `m_current` is null, and an error when both are
null; without COMMENTS_AFTER it goes before `m_next`, an error when `m_next`
is null. -/
def storeCommentAction (flags : Nat) (commentLine : Int)
    (current : Option CurView) (next lastStored : Option Int) : SCAction :=
  if flags &&& wxJSONREADER_STORE_COMMENTS = 0 then .discarded
  else if (current.map CurView.line) = some commentLine then
    .inlineCurrent
  else if next = some commentLine then .inlineNext
  else if lastStored = some commentLine then .inlineLast
  else if flags &&& wxJSONREADER_COMMENTS_AFTER ≠ 0 then
    match current with
    | some c => if c.isParent || ¬c.valid then .errorAfter else .afterCurrent
    | none =>
      match lastStored with
      | some _ => .afterLast
      | none => .errorAfter
  else
    match next with
    | some _ => .beforeNext
    | none => .errorBefore

/-- Embeds `wxJSONReader::StoreComment` as called from a `DoRead` frame (the
`parent` argument of the C call is the frame parent, never null there): build
the cursor views, take the decision, apply it to the frame values, clear
`m_comment`. -/
def storeCommentFrame (st : RState) (parent value : JValue) (fc : FCur) :
    RState × JValue × JValue :=
  let cv : Option CurView :=
    match fc.cur with
    | .cnone => none
    | .cparent => some ⟨parent.lineNo, true, parent.isValid⟩
    | .cvalue => some ⟨value.lineNo, false, value.isValid⟩
  let nv : Option Int :=
    match fc.nxt with
    | .nnone => none
    | .nvalue => some value.lineNo
  let lsChild : Option JValue :=
    match fc.last with
    | .lnone => none
    | .pobj k => parent.objChild k
    | .parr => parent.arrLast
    | .vobj k => value.objChild k
    | .varr => value.arrLast
  let act := storeCommentAction st.flags st.commentLine cv nv (lsChild.map JValue.lineNo)
  let text := st.comment
  let out : RState × JValue × JValue :=
    match act with
    | .discarded => (st, parent, value)
    | .inlineCurrent =>
      match fc.cur with
      | .cparent => (st, parent.addComment text .inline, value)
      | .cvalue => (st, parent, value.addComment text .inline)
      | .cnone => (st, parent, value)
    | .inlineNext => (st, parent, value.addComment text .inline)
    | .inlineLast =>
      match fc.last with
      | .pobj k => (st, parent.updateChild k (fun c => c.addComment text .inline), value)
      | .parr => (st, parent.updateLast (fun c => c.addComment text .inline), value)
      | .vobj k => (st, parent, value.updateChild k (fun c => c.addComment text .inline))
      | .varr => (st, parent, value.updateLast (fun c => c.addComment text .inline))
      | .lnone => (st, parent, value)
    | .afterCurrent =>
      match fc.cur with
      | .cparent => (st, parent.addComment text .after, value)
      | .cvalue => (st, parent, value.addComment text .after)
      | .cnone => (st, parent, value)
    | .afterLast =>
      match fc.last with
      | .pobj k => (st, parent.updateChild k (fun c => c.addComment text .after), value)
      | .parr => (st, parent.updateLast (fun c => c.addComment text .after), value)
      | .vobj k => (st, parent, value.updateChild k (fun c => c.addComment text .after))
      | .varr => (st, parent, value.updateLast (fun c => c.addComment text .after))
      | .lnone => (st, parent, value)
    | .beforeNext => (st, parent, value.addComment text .before)
    | .errorAfter => (addError msgCommentAfter st, parent, value)
    | .errorBefore => (addError msgCommentBefore st, parent, value)
  ({ out.1 with comment := [] }, out.2.1, out.2.2)

/-- Embeds `wxJSONReader::StoreComment` as called from `GetStart` with a null
`parent`: there `m_current = 0`, `m_next` is the root value, `m_lastStored = 0`
(set by `Parse`, src/jsonreader.cpp:334). -/
def storeCommentRoot (st : RState) (root : JValue) : RState × JValue :=
  let act := storeCommentAction st.flags st.commentLine none (some root.lineNo) none
  let text := st.comment
  let out : RState × JValue :=
    match act with
    | .inlineNext => (st, root.addComment text .inline)
    | .beforeNext => (st, root.addComment text .before)
    | .errorAfter => (addError msgCommentAfter st, root)
    | .errorBefore => (addError msgCommentBefore st, root)
    | _ => (st, root)
  ({ out.1 with comment := [] }, out.2)

end WxJSON

namespace WxJSON

/-- The `(unsigned char)` cast of a stream result (`-1` becomes `0xFF`). -/
def byteOf (ch : Int) : Nat := (ch % 256).toNat

/-- Bytes of a Lean string literal (used for the texts the C code appends to
byte buffers). -/
def strBytes (s : String) : List Nat := s.data.map Char.toNat

/-- Body loop of the C++-style (`//`) comment branch of `SkipComment`
(src/jsonreader.cpp:913): processes the current character, then reads the
next; stops at LF, at a lone CR (where it peeks without consuming and returns
the peeked character), or at EOF. -/
def lineCommentLoop (fuel : Nat) (st : RState) (ch : Int) (buf : List Nat) :
    Int × RState × List Nat :=
  match fuel with
  | 0 => (-2, st, buf)
  | fuel + 1 =>
    if ch < 0 then (ch, st, buf)
    else if ch = 10 then (ch, st, buf)
    else if ch = 13 then
      let p := peekChar st
      if p = 10 then
        let (c2, st) := readChar st
        (c2, st, buf)
      else (p, st, buf)
    else
      let buf := buf ++ [byteOf ch]
      let (c2, st) := readChar st
      lineCommentLoop fuel st c2 buf

/-- Body loop of the C-style (`/*`) comment branch of `SkipComment`
(src/jsonreader.cpp:938): on a `*` it peeks; a following `/` closes the
comment (both characters are consumed, `*/` is appended, and the next
character is read and returned); otherwise the peeked character replaces `ch`
and is appended before being read (and appended) again, exactly as the source
does. -/
def blockCommentLoop (fuel : Nat) (st : RState) (ch : Int) (buf : List Nat) :
    Int × RState × List Nat :=
  match fuel with
  | 0 => (-2, st, buf)
  | fuel + 1 =>
    if ch < 0 then (ch, st, buf)
    else if ch = 42 then
      let p := peekChar st
      if p = 47 then
        let (_, st) := readChar st
        let (c2, st) := readChar st
        (c2, st, buf ++ [42, 47])
      else
        let buf := buf ++ [byteOf p]
        let (c2, st) := readChar st
        blockCommentLoop fuel st c2 buf
    else
      let buf := buf ++ [byteOf ch]
      let (c2, st) := readChar st
      blockCommentLoop fuel st c2 buf

/-- The discard loop of the stray-slash branch of `SkipComment`
(src/jsonreader.cpp:964): reads until `*` followed by `/` or a LF or EOF. -/
def strayLoop (fuel : Nat) (st : RState) (ch : Int) : Int × RState :=
  match fuel with
  | 0 => (-2, st)
  | fuel + 1 =>
    if ch < 0 then (ch, st)
    else
      let (c2, st) := readChar st
      if c2 = 42 && peekChar st = 47 then (c2, st)
      else if c2 = 10 then (c2, st)
      else strayLoop fuel st c2

/-- Embeds `wxJSONReader::SkipComment` (src/jsonreader.cpp:891). The string
literal at src/jsonreader.cpp:911 is truncated in the source file (the line
ends right after its opening quote); the two-byte text `//` appended there is
modelled from the spec (section 4.B: accumulates `"//"` plus body) and from
the symmetric `/*` branch at line 937. `m_comment` is set to the accumulated
bytes (`wxString::FromUTF8`); the stray-slash branch leaves `m_comment` and
`m_commentLine` untouched. -/
def skipComment (fuel : Nat) (st : RState) : Int × RState :=
  let (ch, st) := readChar st
  if ch < 0 then (-1, st)
  else if ch = 47 then
    let st := addWarning wxJSONREADER_ALLOW_COMMENTS commentWarnText st
    let st := { st with commentLine := (st.lineNo : Int) }
    let (ch2, st, buf) := lineCommentLoop fuel st ch [47, 47]
    (ch2, { st with comment := buf })
  else if ch = 42 then
    let st := addWarning wxJSONREADER_ALLOW_COMMENTS commentWarnText st
    let st := { st with commentLine := (st.lineNo : Int) }
    let (ch2, st, buf) := blockCommentLoop fuel st ch [47, 42]
    (ch2, { st with comment := buf })
  else
    let st := addError msgStraySlash st
    let (_, st2) :=
      let (c2, st1) := strayLoop fuel st ch
      (c2, st1)
    readChar st2

/-- Embeds `wxJSONReader::ReadUES` (src/jsonreader.cpp:1377): reads exactly
four bytes; on EOF before the fourth byte it returns `-1` (with no buffer),
otherwise `0` with the four bytes. -/
def readUES (st : RState) : Int × RState × List Nat :=
  let (c1, st) := readChar st
  if c1 < 0 then (c1, st, []) else
  let (c2, st) := readChar st
  if c2 < 0 then (c2, st, []) else
  let (c3, st) := readChar st
  if c3 < 0 then (c3, st, []) else
  let (c4, st) := readChar st
  if c4 < 0 then (c4, st, []) else
  (0, st, [byteOf c1, byteOf c2, byteOf c3, byteOf c4])

def isScanWs (b : Nat) : Bool := b = 32 || (9 ≤ b && b ≤ 13)

def hexVal (b : Nat) : Option Nat :=
  if 48 ≤ b && b ≤ 57 then some (b - 48)
  else if 97 ≤ b && b ≤ 102 then some (b - 87)
  else if 65 ≤ b && b ≤ 70 then some (b - 55)
  else none

/-- Maximal run of hexadecimal digits at the front of a byte list. -/
def takeHexRun : List Nat → List Nat
  | [] => []
  | b :: r =>
    match hexVal b with
    | some _ => b :: takeHexRun r
    | none => []

def hexListVal (ds : List Nat) : Nat :=
  ds.foldl (fun a b => a * 16 + ((hexVal b).getD 0)) 0

/-- Modelled from the spec: the C library conversion `sscanf( buf, "%lx", &l )`
used by `AppendUES` (src/jsonreader.cpp:1423) on a 64-bit platform - skip
whitespace, accept an optional sign, an optional `0x`/`0X`, then the maximal
run of hex digits (a lone `0` of `0x` counts); fails (returns no conversion)
when no digit is found; the value is taken modulo `2^64`, negated values wrap
as `unsigned long`. -/
def sscanfLx (buf : List Nat) : Option Nat :=
  let rest := buf.dropWhile isScanWs
  let neg : Bool := rest.head? = some 45
  let rest := if rest.head? = some 43 || rest.head? = some 45 then rest.tail else rest
  let digits : List Nat :=
    if rest.head? = some 48 && (rest.tail.head? = some 120 || rest.tail.head? = some 88) then
      match takeHexRun rest.tail.tail with
      | [] => [48]
      | ds => ds
    else takeHexRun rest
  if digits = [] then none
  else
    let v := hexListVal digits % 18446744073709551616
    some (if neg then (18446744073709551616 - v) % 18446744073709551616 else v)

/-- Modelled from the spec: the UTF-8 encoding of one code unit as produced by
`wxConvUTF8.FromWChar` on a single wide character (section 4.C; a `\uD8XX`
code unit is encoded individually). Fails for values that are no valid
`wchar_t` code points, where the source conversion fails (and the following
`wxASSERT` fires). -/
def utf8Encode (n : Nat) : Option (List Nat) :=
  if n < 128 then some [n]
  else if n < 2048 then some [192 + n / 64, 128 + n % 64]
  else if n < 65536 then some [224 + n / 4096, 128 + (n / 64) % 64, 128 + n % 64]
  else if n < 1114112 then
    some [240 + n / 262144, 128 + (n / 4096) % 64, 128 + (n / 64) % 64, 128 + n % 64]
  else none

/-- Embeds `wxJSONReader::AppendUES` (src/jsonreader.cpp:1419): convert the
four-byte buffer with `sscanf %lx`; when the conversion finds no number, emit
"Invalid Unicode Escaped Sequence" and append nothing; otherwise cast to
`wchar_t` (truncation modulo `2^32`) and append the UTF-8 encoding. -/
def appendUES (buff : List Nat) (ues : List Nat) (st : RState) : List Nat × RState :=
  match sscanfLx ues with
  | none => (buff, addError msgInvalidUES st)
  | some l =>
    let w := l % 4294967296
    match utf8Encode w with
    | some bs => (buff ++ bs, st)
    | none => (buff, st)

def isContB (b : Nat) : Bool := 128 ≤ b && b ≤ 191

/-- Modelled from the spec: the UTF-8 validation performed by
`wxConvUTF8.ToWChar( 0, 0, buf, len )` in `ReadString`
(src/jsonreader.cpp:1091): standard UTF-8 sequence structure. -/
def utf8ValidF (fuel : Nat) (l : List Nat) : Bool :=
  match fuel with
  | 0 => false
  | fuel + 1 =>
    match l with
    | [] => true
    | b :: rest =>
      if b ≤ 127 then utf8ValidF fuel rest
      else if 194 ≤ b && b ≤ 223 then
        match rest with
        | b2 :: r => isContB b2 && utf8ValidF fuel r
        | [] => false
      else if b = 224 then
        match rest with
        | b2 :: b3 :: r => (160 ≤ b2 && b2 ≤ 191) && isContB b3 && utf8ValidF fuel r
        | _ => false
      else if 225 ≤ b && b ≤ 239 then
        match rest with
        | b2 :: b3 :: r => isContB b2 && isContB b3 && utf8ValidF fuel r
        | _ => false
      else if b = 240 then
        match rest with
        | b2 :: b3 :: b4 :: r =>
          (144 ≤ b2 && b2 ≤ 191) && isContB b3 && isContB b4 && utf8ValidF fuel r
        | _ => false
      else if 241 ≤ b && b ≤ 243 then
        match rest with
        | b2 :: b3 :: b4 :: r => isContB b2 && isContB b3 && isContB b4 && utf8ValidF fuel r
        | _ => false
      else if b = 244 then
        match rest with
        | b2 :: b3 :: b4 :: r =>
          (128 ≤ b2 && b2 ≤ 143) && isContB b3 && isContB b4 && utf8ValidF fuel r
        | _ => false
      else false

def utf8Valid (l : List Nat) : Bool := utf8ValidF (l.length + 1) l

/-- Scan loop of `ReadString` (src/jsonreader.cpp:1035). The fourth component
is `true` when the source `return ch;` inside the `\u` case fired (EOF while
reading the four hex bytes), which aborts `ReadString` without storing
anything. Note the faithful quirks: an EOF read in the plain-character branch
appends the byte `0xFF` (the `(unsigned char)` cast of `-1`) before the loop
condition stops the scan. -/
def readStringLoop (fuel : Nat) (st : RState) (buff : List Nat) :
    Int × RState × List Nat × Bool :=
  match fuel with
  | 0 => (-2, st, buff, false)
  | fuel + 1 =>
    let (ch, st) := readChar st
    let c := byteOf ch
    if ch = 92 then
      let (ch2, st) := readChar st
      if ch2 = 117 then
        let (r, st, ues) := readUES st
        if r < 0 then (r, st, buff, true)
        else
          let (buff, st) := appendUES buff ues st
          readStringLoop fuel st buff
      else
        let escByte : Option Nat :=
          if ch2 = 116 then some 9
          else if ch2 = 110 then some 10
          else if ch2 = 98 then some 8
          else if ch2 = 114 then some 13
          else if ch2 = 34 then some 34
          else if ch2 = 92 then some 92
          else if ch2 = 47 then some 47
          else if ch2 = 102 then some 12
          else none
        match escByte with
        | some b => readStringLoop fuel st (buff ++ [b])
        | none =>
          if ch2 < 0 then (ch2, st, buff, false)
          else readStringLoop fuel (addError (msgUnknownEscape ch2) st) buff
    else if ch = 34 then (34, st, buff, false)
    else
      let buff := buff ++ [c]
      if ch < 0 then (ch, st, buff, false)
      else readStringLoop fuel st buff

/-- Embeds `wxJSONReader::ReadString` (src/jsonreader.cpp:1027) in the Unicode
build (`m_noUtf8 = false`): scan the quoted text, validate the UTF-8 buffer
(on failure report and store the placeholder text), then assign to an invalid
value, concatenate onto a string value with a MULTISTRING warning, or report
an error for any other valid value; set the line number and read the
character after the closing quote. -/
def readString (fuel : Nat) (st : RState) (val : JValue) : Int × RState × JValue :=
  let (ch, st, buff, aborted) := readStringLoop fuel st []
  if aborted then (ch, st, val)
  else
    let conv : RState × List Nat :=
      if utf8Valid buff then (st, buff)
      else (addError msgUtf8Invalid st, strBytes "<UTF-8 stream not valid>")
    let st := conv.1
    let s := conv.2
    let assigned : RState × JValue :=
      if ¬val.isValid then (st, val.assign (.jstring s))
      else if val.isString then
        (addWarning wxJSONREADER_MULTISTRING msgMultiline st, val.catString s)
      else (addError (msgStringAfterValue s) st, val)
    let st := assigned.1
    let val := (assigned.2).setLineNo (st.lineNo : Int)
    if ch ≥ 0 then
      let (ch2, st) := readChar st
      (ch2, st, val)
    else (ch, st, val)

end WxJSON

namespace WxJSON

/-- The token terminators of `ReadToken` (src/jsonreader.cpp:1167). -/
def isTokenEnd (ch : Int) : Bool :=
  ch = 32 || ch = 44 || ch = 58 || ch = 91 || ch = 93 || ch = 123 || ch = 125 ||
  ch = 9 || ch = 10 || ch = 13 || ch = 8

/-- Embeds `wxJSONReader::ReadToken` (src/jsonreader.cpp:1162): accumulate
bytes beginning with the seed character `ch` until a terminator or EOF. -/
def readToken (fuel : Nat) (st : RState) (ch : Int) (acc : List Nat) :
    Int × RState × List Nat :=
  match fuel with
  | 0 => (-2, st, acc)
  | fuel + 1 =>
    if ch < 0 then (ch, st, acc)
    else if isTokenEnd ch then (ch, st, acc)
    else
      let acc := acc ++ [byteOf ch]
      let (c2, st) := readChar st
      readToken fuel st c2 acc

def uLongMaxDigits : List Nat := strBytes "18446744073709551615"

def isDigitB (b : Nat) : Bool := 48 ≤ b && b ≤ 57

/-- The lexicographic pre-check loop of `DoStrto_ll`
(src/jsonreader.cpp:1888): compare the leading digits (all but the last one)
against the decimal expansion of `2^64 - 1`; reject on a non-digit or a digit
above the bound, stop accepting on a digit below it. -/
def lexLoop : List Nat → List Nat → Bool
  | [], _ => true
  | c :: cs, m :: ms =>
    if ¬isDigitB c then false
    else if c > m then false
    else if c < m then true
    else lexLoop cs ms
  | _ :: _, [] => true

/-- The accumulation loop of `DoStrto_ll` (src/jsonreader.cpp:1905), from the
last digit towards the first: `temp1 += ch * power10[exponent]` in `wxUint64`
arithmetic, which wraps modulo `2^64`. The digit list is passed reversed. -/
def accumLoop : List Nat → Nat → Nat → Option Nat
  | [], _, acc => some acc
  | c :: cs, e, acc =>
    if ¬isDigitB c then none
    else accumLoop cs (e + 1) ((acc + (c - 48) * 10 ^ e) % 18446744073709551616)

/-- Embeds `wxJSONReader::DoStrto_ll` (src/jsonreader.cpp:1836): decimal-only
conversion to `wxUint64` with an optional leading sign (returned as the second
component, `32` when absent), a length cap of 20 digits, and - only for the
maximal length - the lexicographic pre-check of `lexLoop`. -/
def doStrto_ll (str : List Nat) : Option (Nat × Nat) :=
  match str with
  | [] => some (0, 32)
  | c :: rest =>
    let signed := c = 43 || c = 45
    let sign := if signed then c else 32
    let maxDigits := if signed then 21 else 20
    let body := if signed then rest else str
    let strLen := str.length
    if strLen > maxDigits then none
    else if strLen = maxDigits && ¬lexLoop (body.take (body.length - 1)) uLongMaxDigits then
      none
    else (accumLoop body.reverse 0 0).map (fun v => (v, sign))

/-- Two's-complement reinterpretation of a `wxUint64` bit pattern as `wxInt64`. -/
def toInt64 (n : Nat) : Int :=
  if n < 9223372036854775808 then (n : Int) else (n : Int) - 18446744073709551616

/-- Embeds `wxJSONReader::Strtoll` (src/jsonreader.cpp:1780): run
`DoStrto_ll`; with a minus sign the magnitude may not exceed `2^63`
(`LLONG_MAX + 1`) and the result is `ui64 * -1` reinterpreted as signed;
otherwise the magnitude may not exceed `2^63 - 1`. -/
def strtoll (str : List Nat) : Option Int :=
  match doStrto_ll str with
  | none => none
  | some (u, sign) =>
    if sign = 45 then
      if u > 9223372036854775808 then none
      else some (toInt64 ((18446744073709551616 - u) % 18446744073709551616))
    else
      if u > 9223372036854775807 then none
      else some ((u : Int))

/-- Embeds `wxJSONReader::Strtoull` (src/jsonreader.cpp:1815): `DoStrto_ll`,
failing when the literal carried a minus sign. -/
def strtoull (str : List Nat) : Option Nat :=
  match doStrto_ll str with
  | none => none
  | some (u, sign) => if sign = 45 then none else some u

/-- Leading run of decimal digits. -/
def spanDigits : List Nat → List Nat × List Nat
  | [] => ([], [])
  | b :: r =>
    if isDigitB b then
      let (d, rest) := spanDigits r
      (b :: d, rest)
    else ([], b :: r)

/-- Modelled from the spec: the external `wxString::ToDouble` used as the last
rung of the numeric ladder (section 4.D) - the whole string must be a decimal
floating literal: optional sign, digits with an optional fraction part, and an
optional exponent. -/
def toDoubleOk (s : List Nat) : Bool :=
  let s1 :=
    match s with
    | b :: r => if b = 43 || b = 45 then r else s
    | [] => []
  let ipr := spanDigits s1
  let r1 := ipr.2
  let hasDot : Bool := match r1 with | 46 :: _ => true | _ => false
  let fr : List Nat × List Nat :=
    match r1 with
    | 46 :: r => spanDigits r
    | _ => ([], r1)
  let r2 := if hasDot then fr.2 else r1
  if ipr.1 = [] && (¬hasDot || fr.1 = []) then false
  else
    match r2 with
    | [] => true
    | e :: r3 =>
      if e = 101 || e = 69 then
        let r4 :=
          match r3 with
          | b :: r => if b = 43 || b = 45 then r else r3
          | [] => []
        let ed := spanDigits r4
        ed.1 ≠ [] && ed.2 = []
      else false

def nullBytes : List Nat := strBytes "null"
def trueBytes : List Nat := strBytes "true"
def falseBytes : List Nat := strBytes "false"

def toLowerB (b : Nat) : Nat := if 65 ≤ b && b ≤ 90 then b + 32 else b

/-- Modelled from the spec: the case-insensitive comparison
`wxString::CmpNoCase` on ASCII literals (section 4.D). -/
def cmpNoCaseEq (a b : List Nat) : Bool := a.map toLowerB = b.map toLowerB

/-- Embeds `wxJSONReader::ReadValue` (src/jsonreader.cpp:1221): read the token
seeded by `ch`; reject when a value is already pending; recognise
`null`/`true`/`false` exactly or case-insensitively (with a CASE warning);
otherwise drive the numeric ladder - signed unless the seed is `+`, then
unsigned unless the seed is `-`, then double - and report an incorrect
literal when every rung fails or the seed is no digit or sign. -/
def readValue (fuel : Nat) (st : RState) (ch : Int) (val : JValue) :
    Int × RState × JValue :=
  let (nextCh, st, s) := readToken fuel st ch []
  if val.isValid then
    (nextCh, addError (msgValueAfterValue s) st, val)
  else if s = nullBytes then (nextCh, st, val.assign .jnull)
  else if cmpNoCaseEq s nullBytes then
    (nextCh, addWarning wxJSONREADER_CASE msgNullLower st, val.assign .jnull)
  else if s = trueBytes then (nextCh, st, val.assign (.jbool true))
  else if cmpNoCaseEq s trueBytes then
    (nextCh, addWarning wxJSONREADER_CASE msgTrueLower st, val.assign (.jbool true))
  else if s = falseBytes then (nextCh, st, val.assign (.jbool false))
  else if cmpNoCaseEq s falseBytes then
    (nextCh, addWarning wxJSONREADER_CASE msgFalseLower st, val.assign (.jbool false))
  else if ¬((48 ≤ ch && ch ≤ 57) || ch = 43 || ch = 45) then
    (nextCh, addError (msgBadLiteral s) st, val)
  else
    let tSigned := ch ≠ 43
    let tUnsigned := ch ≠ 45
    match (if tSigned then strtoll s else none) with
    | some i => (nextCh, st, val.assign (.jint i))
    | none =>
      match (if tUnsigned then strtoull s else none) with
      | some u => (nextCh, st, val.assign (.juint u))
      | none =>
        if toDoubleOk s then (nextCh, st, val.assign (.jdouble s))
        else (nextCh, addError (msgBadLiteral s) st, val)

/-- Subtraction on `unsigned char` (wraps modulo 256; `b ≤ 256`). -/
def ucSub (a b : Nat) : Nat := (a + 256 - b) % 256

/-- Scan loop of `ReadMemoryBuff` (src/jsonreader.cpp:1689): byte pairs until
the closing quote or EOF; each byte is decoded with the `c - '0'` trick, a
further `- 7` when the result exceeds 9; a decoded digit above 15 counts an
error, otherwise the pair is appended as one byte. -/
def membuffLoop (fuel : Nat) (st : RState) (buff : List Nat) (errs : Nat) :
    Int × RState × List Nat × Nat :=
  match fuel with
  | 0 => (-2, st, buff, errs)
  | fuel + 1 =>
    let (ch, st) := readChar st
    if ch < 0 then (ch, st, buff, errs)
    else if ch = 39 then (ch, st, buff, errs)
    else
      let c1 := byteOf ch
      let (ch2, st) := readChar st
      if ch2 < 0 then (ch2, st, buff, errs)
      else
        let c2 := byteOf ch2
        let d1 := ucSub c1 48
        let d2 := ucSub c2 48
        let d1 := if d1 > 9 then d1 - 7 else d1
        let d2 := if d2 > 9 then d2 - 7 else d2
        if d1 > 15 then membuffLoop fuel st buff (errs + 1)
        else if d2 > 15 then membuffLoop fuel st buff (errs + 1)
        else membuffLoop fuel st (buff ++ [d1 * 16 + d2]) errs

/-- Embeds `wxJSONReader::ReadMemoryBuff` (src/jsonreader.cpp:1679): emit the
MEMORYBUFF warning, scan the hex pairs, report the invalid-digit count once,
then assign/concatenate/reject against the pending value as `ReadString`
does. -/
def readMemoryBuff (fuel : Nat) (st : RState) (val : JValue) :
    Int × RState × JValue :=
  let st := addWarning wxJSONREADER_MEMORYBUFF msgMembuffWarn st
  let (ch, st, buff, errs) := membuffLoop fuel st [] 0
  let st := if errs > 0 then addError (msgMembuffDigits errs) st else st
  let stval : RState × JValue :=
    if ¬val.isValid then (st, val.assign (.jmembuff buff))
    else if val.isMemoryBuff then (st, val.catMemBuff buff)
    else (addError msgMembuffAfterValue st, val)
  let st := stval.1
  let val := stval.2.setLineNo (st.lineNo : Int)
  if ch ≥ 0 then
    let (ch2, st) := readChar st
    (ch2, st, val)
  else (ch, st, val)

end WxJSON

namespace WxJSON

/-- Result of one `DoRead` frame: the returned character, the reader state,
the (updated) parent the frame was given, and the cursor targets the frame
leaves behind, expressed relative to the finished frame. -/
structure FrameOut where
  ch : Int
  st : RState
  parent : JValue
  fc : FCur

/-- Translate the cursors a finished inner frame leaves behind into the caller
frame: the callee parent is the caller pending value; pointers into the callee
locals are dead (the callee `value` is a destroyed stack local; such a pointer
is only ever overwritten before any use, so it is mapped to null). -/
def liftCur (fc : FCur) : FCur :=
  { cur :=
      match fc.cur with
      | .cparent => .cvalue
      | _ => .cnone
  , nxt := .nnone
  , last :=
      match fc.last with
      | .pobj k => .vobj k
      | .parr => .varr
      | _ => .lnone }

mutual
/-- Embeds `wxJSONReader::DoRead` (src/jsonreader.cpp:523): frame entry -
raise `m_level`/`m_depth`, create the invalid pending value, point `m_next` at
it and `m_current` at the parent (stamping the parent with the current line),
then run the dispatch loop starting from `ch = 0`. -/
def doRead (fuel : Nat) (st : RState) (parent : JValue) : FrameOut :=
  match fuel with
  | 0 => ⟨-2, st, parent, ⟨.cnone, .nnone, .lnone⟩⟩
  | fuel + 1 =>
    let st := { st with level := st.level + 1, depth := max st.depth (st.level + 1) }
    let parent := parent.setLineNo (st.lineNo : Int)
    doReadLoop fuel st parent JValue.freshInvalid [] ⟨.cparent, .nvalue, .lnone⟩ 0

/-- The dispatch loop of `wxJSONReader::DoRead` (src/jsonreader.cpp:542), one
constructor per `switch` case. A `ch` below `-1` is the out-of-fuel marker of
this embedding and is propagated unchanged. -/
def doReadLoop (fuel : Nat) (st : RState) (parent value : JValue) (key : List Nat)
    (fc : FCur) (ch : Int) : FrameOut :=
  match fuel with
  | 0 => ⟨-2, st, parent, fc⟩
  | fuel + 1 =>
    if ch < -1 then ⟨ch, st, parent, fc⟩
    else if ch < 0 then
      let st :=
        if parent.isArray then addWarning wxJSONREADER_MISSING msgMissingCloseArray st
        else if parent.isObject then addWarning wxJSONREADER_MISSING msgMissingCloseObject st
        else st
      let sv := storeValue ch key value parent st
      let st := { sv.st with level := sv.st.level - 1 }
      ⟨ch, st, sv.parent, ⟨.cnone, .nvalue, sv.last⟩⟩
    else if ch = 0 then
      let (c, st) := readChar st
      doReadLoop fuel st parent value key fc c
    else if ch = 32 || ch = 9 || ch = 10 || ch = 13 then
      let (c, st) := skipWhiteSpace fuel st
      doReadLoop fuel st parent value key fc c
    else if ch = 47 then
      let (c, st) := skipComment fuel st
      let scf := storeCommentFrame st parent value fc
      doReadLoop fuel scf.1 scf.2.1 scf.2.2 key fc c
    else if ch = 123 then
      let st :=
        if parent.isObject then
          let st := if key = [] then addError msgBraceNoName st else st
          if value.isValid then addError msgBraceAfterValue st else st
        else if parent.isArray then
          if value.isValid then addError msgBraceAfterValueArr st else st
        else st
      let value := value.setType .jobject
      let out := doRead fuel st value
      doReadLoop fuel out.st parent out.parent key (liftCur out.fc) out.ch
    else if ch = 125 then
      let st :=
        if ¬parent.isObject then addWarning wxJSONREADER_MISSING msgCloseArrayWithBrace st
        else st
      let sv := storeValue 125 key value parent st
      let parent := sv.parent.setLineNo (sv.st.lineNo : Int)
      let (c, st) := readChar sv.st
      ⟨c, st, parent, ⟨.cparent, .nnone, sv.last⟩⟩
    else if ch = 91 then
      let st :=
        if parent.isObject then
          let st := if key = [] then addError msgBracketNoName st else st
          if value.isValid then addError msgBracketAfterValueText st else st
        else if parent.isArray then
          if value.isValid then addError msgBracketAfterValue st else st
        else st
      let value := value.setType .jarray
      let out := doRead fuel st value
      doReadLoop fuel out.st parent out.parent key (liftCur out.fc) out.ch
    else if ch = 93 then
      let st :=
        if ¬parent.isArray then addWarning wxJSONREADER_MISSING msgCloseObjectWithBracket st
        else st
      let sv := storeValue 93 key value parent st
      let parent := sv.parent.setLineNo (sv.st.lineNo : Int)
      ⟨0, sv.st, parent, ⟨.cparent, .nnone, sv.last⟩⟩
    else if ch = 44 then
      let sv := storeValue 44 key value parent st
      let (c, st) := readChar sv.st
      doReadLoop fuel st sv.parent sv.value [] ⟨.cnone, .nvalue, sv.last⟩ c
    else if ch = 34 then
      let out := readString fuel st value
      doReadLoop fuel out.2.1 parent out.2.2 key ⟨.cvalue, .nnone, fc.last⟩ out.1
    else if ch = 39 then
      let out := readMemoryBuff fuel st value
      doReadLoop fuel out.2.1 parent out.2.2 key ⟨.cvalue, .nnone, fc.last⟩ out.1
    else if ch = 58 then
      let value := value.setLineNo (st.lineNo : Int)
      let skv : RState × List Nat × JValue :=
        if ¬parent.isObject then (addError msgColonOnlyObjects st, key, value)
        else if ¬value.isString then (addError msgColonNotString st, key, value)
        else if key ≠ [] then (addError msgColonKeyPresent st, key, value)
        else (st, value.asString, value.setType .invalid)
      let (c, st) := readChar skv.1
      doReadLoop fuel st parent skv.2.2 skv.2.1 ⟨.cvalue, .nnone, fc.last⟩ c
    else
      let value := value.setLineNo (st.lineNo : Int)
      let out := readValue fuel st ch value
      doReadLoop fuel out.2.1 parent out.2.2 key ⟨.cvalue, .nnone, fc.last⟩ out.1
end

/-- Embeds `wxJSONReader::GetStart` (src/jsonreader.cpp:369): skip bytes until
`{` or `[`; a `/` runs the comment scanner and `StoreComment( 0 )` (whose
`m_next` is the root, per `Parse`); EOF yields the negative character. -/
def getStart (fuel : Nat) (st : RState) (root : JValue) (ch : Int) :
    Int × RState × JValue :=
  match fuel with
  | 0 => (-2, st, root)
  | fuel + 1 =>
    if ch < 0 then (ch, st, root)
    else if ch = 123 || ch = 91 then (ch, st, root)
    else if ch = 47 then
      let (c, st) := skipComment fuel st
      let (st, root) := storeCommentRoot st root
      getStart fuel st root c
    else
      let (c, st) := readChar st
      getStart fuel st root c

/-- Observable outcome of `Parse`: the root value, the two diagnostic lists,
the maximum nesting depth, and the returned error count. -/
structure ParseResult where
  root : JValue
  errors : List String
  warnings : List String
  depth : Nat
  ret : Nat

/-- The reader state `Parse` resets before scanning
(src/jsonreader.cpp:320). `m_commentLine` is left uninitialised by the
constructor; it is modelled as 0, a value no source line ever has. -/
def initState (flags maxErrors : Nat) (input : List Nat) : RState :=
  { flags := flags, maxErrors := maxErrors, input := input, lineNo := 1, colNo := 1,
    level := 0, depth := 0, errors := [], warnings := [], comment := [],
    commentLine := 0 }

/-- Fuel that is sufficient for any parse of `input` (each dispatch step of the
engine consumes input or finishes a frame). -/
def parseFuel (input : List Nat) : Nat := 8 * input.length + 64

/-- Embeds `wxJSONReader::Parse( wxInputStream&, wxJSONValue* )`
(src/jsonreader.cpp:317): reset the counters and lists, substitute the
internal temporary (a default, invalid value) when the destination is null,
clear the root line number, scan for the start character, set the root type
from it and descend; without a start character report one error. The returned
`ret` is `m_errors.size()` in every path. -/
def parse (flags maxErrors : Nat) (input : List Nat) (dest : Option JValue) :
    ParseResult :=
  let st := initState flags maxErrors input
  let val := (dest.getD JValue.freshInvalid).setLineNo (-1)
  let fuel := parseFuel input
  let gs := getStart fuel st val 0
  let ch := gs.1
  let st := gs.2.1
  let val := gs.2.2
  if ch = 123 then
    let val := val.setType .jobject
    let out := doRead fuel st val
    ⟨out.parent, out.st.errors, out.st.warnings, out.st.depth, out.st.errors.length⟩
  else if ch = 91 then
    let val := val.setType .jarray
    let out := doRead fuel st val
    ⟨out.parent, out.st.errors, out.st.warnings, out.st.depth, out.st.errors.length⟩
  else
    let st := addError msgNoStart st
    ⟨val, st.errors, st.warnings, st.depth, st.errors.length⟩

end WxJSON

namespace WxJSON

/-- Runs `ReadValue` the way the default branch of `DoRead` reaches it: the
first token byte has already been consumed from the stream and is passed as
the seed character, the rest of the token is still in the stream; the pending
value is the fresh invalid local. Returns the stored payload. -/
def readNumToken (tok : List Nat) : JData :=
  match tok with
  | [] => .invalid
  | c :: rest =>
    (readValue (tok.length + 2) (initState 0 30 rest) ((c : Nat) : Int)
      JValue.freshInvalid).2.2.data

/-- One diagnostic call: either `AddError msg` or `AddWarning type msg`. -/
inductive DiagCall where
  | err : String → DiagCall
  | warn : Nat → String → DiagCall

/-- Run one diagnostic call on the state. -/
def diagStep (st : RState) (c : DiagCall) : RState :=
  match c with
  | .err m => addError m st
  | .warn t m => addWarning t m st

/-- The bound the diagnostic lists maintain: never longer than
`m_maxErrors + 1`, and exactly that long only with the overflow sentinel as
the last entry. -/
def DiagBound (st : RState) : Prop :=
  st.errors.length ≤ st.maxErrors + 1 ∧
  (st.errors.length = st.maxErrors + 1 → st.errors.getLast? = some errorSentinel) ∧
  st.warnings.length ≤ st.maxErrors + 1 ∧
  (st.warnings.length = st.maxErrors + 1 → st.warnings.getLast? = some warningSentinel)

/-- Scanner mode for the pre-start input class of claim C7: outside comments,
right after a `/`, inside a line comment, right after a CR inside a line
comment, inside a block comment, right after a `*` inside a block comment. -/
inductive PreMode where
  | top
  | slash
  | line
  | cr
  | block
  | blockStar
deriving Repr, DecidableEq

/-- Input class for the pre-start scan: byte lists that contain no `{`, `[`
and no stray `/` outside well-formed comments; line comments are terminated by
LF, CR+LF or EOF with bodies free of CR/LF; block comments have arbitrary
bodies and are closed by `*/` or by end of stream. The opening `*` of a block
comment is the loop character when the body scan starts, so the mode right
after `/*` is the after-star mode (a first body byte `/` closes the comment,
as in the source). -/
def preScan : PreMode → List Nat → Bool
  | .top, [] => true
  | .slash, [] => false
  | .line, [] => true
  | .cr, [] => false
  | .block, [] => true
  | .blockStar, [] => true
  | .top, b :: r =>
    if b = 123 || b = 91 then false
    else if b = 47 then preScan .slash r
    else preScan .top r
  | .slash, b :: r =>
    if b = 47 then preScan .line r
    else if b = 42 then preScan .blockStar r
    else false
  | .line, b :: r =>
    if b = 10 then preScan .top r
    else if b = 13 then preScan .cr r
    else preScan .line r
  | .cr, b :: r => if b = 10 then preScan .top r else false
  | .block, b :: r =>
    if b = 42 then preScan .blockStar r
    else preScan .block r
  | .blockStar, b :: r =>
    if b = 47 then preScan .top r
    else if b = 42 then preScan .blockStar r
    else preScan .block r

/-- Dereference of an `m_lastStored` target that points into the frame parent
(used to relate two runs of the engine in the claim C10 proof). -/
def lderef (p : JValue) : LRef → Option JValue
  | .pobj k => p.objChild k
  | .parr => p.arrLast
  | _ => none

/-- The relation between the parents of two engine runs that differ only in
the destination value handed to `Parse`: same kind, same line attribute, and
the same view through the active `m_lastStored` target. -/
def PRel (p q : JValue) (l : LRef) : Prop :=
  p.kind = q.kind ∧ p.lineNo = q.lineNo ∧ lderef p l = lderef q l

/-- Induction payload for claim C7: from a classed remaining input and a
neutral or comment-opening current character, `GetStart` reaches end of stream
without emitting a diagnostic and without touching the root payload. -/
def NoStartAt (st : RState) (root : JValue) (ch : Int) (fuel : Nat) : Prop :=
  1 &&& st.flags ≠ 0 →
  (st.flags &&& wxJSONREADER_STORE_COMMENTS = 0 ∨
    st.flags &&& wxJSONREADER_COMMENTS_AFTER = 0) →
  (∀ b ∈ st.input, b < 256) →
  0 ≤ ch → ch ≠ 123 → ch ≠ 91 →
  (if ch = 47 then preScan .top (47 :: st.input) = true
   else preScan .top st.input = true) →
  st.input.length + 4 ≤ fuel →
  (getStart fuel st root ch).1 < 0 ∧
  (getStart fuel st root ch).2.1.errors = st.errors ∧
  (getStart fuel st root ch).2.2.data = root.data

/-- Induction payload for the block-comment body loop on a classed input: the
loop reaches either end of stream or the character read after the closing
star-slash, which is again classed; the bytes, the error list and the flags
are untouched and the input never grows. -/
def BlockLoopOk (st : RState) (ch : Int) (buf : List Nat) (fuel : Nat) : Prop :=
  (∀ b ∈ st.input, b < 256) →
  0 ≤ ch →
  (if ch = 42 then preScan .blockStar st.input = true
   else preScan .block st.input = true) →
  st.input.length + 2 ≤ fuel →
  ((blockCommentLoop fuel st ch buf).1 < 0 ∨
   (0 ≤ (blockCommentLoop fuel st ch buf).1 ∧
    (blockCommentLoop fuel st ch buf).1 ≠ 123 ∧
    (blockCommentLoop fuel st ch buf).1 ≠ 91 ∧
    (if (blockCommentLoop fuel st ch buf).1 = 47 then
       preScan .top (47 :: (blockCommentLoop fuel st ch buf).2.1.input) = true
     else preScan .top (blockCommentLoop fuel st ch buf).2.1.input = true) ∧
    (blockCommentLoop fuel st ch buf).2.1.input.length + 1 ≤ st.input.length)) ∧
  (∀ b ∈ (blockCommentLoop fuel st ch buf).2.1.input, b < 256) ∧
  (blockCommentLoop fuel st ch buf).2.1.input.length ≤ st.input.length ∧
  (blockCommentLoop fuel st ch buf).2.1.errors = st.errors ∧
  (blockCommentLoop fuel st ch buf).2.1.flags = st.flags

end WxJSON

namespace WxJSON

/-- Claim C1: the numeric ladder of `ReadValue` behaves as specified on the
five in-range inputs (`-9223372036854775808` stores the signed minimum,
`9223372036854775807` the signed maximum, `9223372036854775808` the unsigned
value of the same magnitude, `+1` unsigned 1, `-1` signed -1), but the claim
that every literal beyond the sign-aware 64-bit caps is rejected fails at the
failing input `18446744073709551616` (that is `2^64`): the lexicographic
pre-check of `DoStrto_ll` compares all digits but the last one against
`18446744073709551615`, so `2^64` slips through, the accumulation wraps to 0,
and `ReadValue` stores signed 0 instead of falling through to the
floating-point rung. -/
theorem claim1_numeric_ladder_wraps_at_2_pow_64 :
    readNumToken (strBytes "-9223372036854775808") = .jint (-9223372036854775808) ∧
    readNumToken (strBytes "9223372036854775807") = .jint 9223372036854775807 ∧
    readNumToken (strBytes "9223372036854775808") = .juint 9223372036854775808 ∧
    readNumToken (strBytes "+1") = .juint 1 ∧
    readNumToken (strBytes "-1") = .jint (-1) ∧
    strtoll (strBytes "18446744073709551616") = some 0 ∧
    readNumToken (strBytes "18446744073709551616") = .jint 0 := by
  refine ⟨rfl, rfl, rfl, rfl, rfl, rfl, rfl⟩

end WxJSON

namespace WxJSON

/-- Facts about a byte that is a hexadecimal digit. -/
theorem hexVal_facts {b d : Nat} (h : hexVal b = some d) :
    48 ≤ b ∧ b ≤ 102 ∧ b ≠ 120 ∧ b ≠ 88 ∧ b ≠ 43 ∧ b ≠ 45 ∧ isScanWs b = false ∧
    (hexVal b).getD 0 = d := by
  have hr : (48 ≤ b ∧ b ≤ 57) ∨ (97 ≤ b ∧ b ≤ 102) ∨ (65 ≤ b ∧ b ≤ 70) := by
    unfold hexVal at h
    split_ifs at h with h1 h2 h3
    · simp only [Bool.and_eq_true, decide_eq_true_eq] at h1
      exact Or.inl h1
    · simp only [Bool.and_eq_true, decide_eq_true_eq] at h2
      exact Or.inr (Or.inl h2)
    · simp only [Bool.and_eq_true, decide_eq_true_eq] at h3
      exact Or.inr (Or.inr h3)
  have hw : isScanWs b = false := by
    simp only [isScanWs, Bool.or_eq_false_iff, Bool.and_eq_false_iff,
      decide_eq_false_iff_not, not_le]
    omega
  exact ⟨by omega, by omega, by omega, by omega, by omega, by omega, hw, by rw [h]; rfl⟩

end WxJSON

namespace WxJSON

/-- A hex digit value is at most 15. -/
theorem hexVal_le15 {b d : Nat} (h : hexVal b = some d) : d ≤ 15 := by
  unfold hexVal at h
  split_ifs at h with h1 h2 h3 <;>
    simp only [Bool.and_eq_true, decide_eq_true_eq, Option.some.injEq] at * <;> omega

/-- `takeHexRun` keeps a list of hex digits whole. -/
theorem takeHexRun_all {l : List Nat} (h : ∀ b ∈ l, (hexVal b).isSome) :
    takeHexRun l = l := by
  induction l with
  | nil => rfl
  | cons b r ih =>
    have hb := h b (by simp)
    unfold takeHexRun
    cases hv : hexVal b with
    | some v => simp [ih (fun x hx => h x (by simp [hx]))]
    | none => rw [hv] at hb; simp at hb

/-- `sscanf %lx` on a buffer of four hex digits yields the 16-bit value. -/
theorem sscanfLx_hex4 {b1 b2 b3 b4 v1 v2 v3 v4 : Nat}
    (h1 : hexVal b1 = some v1) (h2 : hexVal b2 = some v2)
    (h3 : hexVal b3 = some v3) (h4 : hexVal b4 = some v4) :
    sscanfLx [b1, b2, b3, b4] = some (((v1 * 16 + v2) * 16 + v3) * 16 + v4) := by
  obtain ⟨ha1, ha2, _, _, h43, h45, hws, hg1⟩ := hexVal_facts h1
  obtain ⟨_, _, hx120, hx88, _, _, _, hg2⟩ := hexVal_facts h2
  obtain ⟨_, _, _, _, _, _, _, hg3⟩ := hexVal_facts h3
  obtain ⟨_, _, _, _, _, _, _, hg4⟩ := hexVal_facts h4
  have hrun : takeHexRun [b1, b2, b3, b4] = [b1, b2, b3, b4] := by
    refine takeHexRun_all ?_
    intro x hx
    simp only [List.mem_cons, List.not_mem_nil, or_false] at hx
    rcases hx with rfl | rfl | rfl | rfl <;> simp [h1, h2, h3, h4]
  have hval : hexListVal [b1, b2, b3, b4] = ((v1 * 16 + v2) * 16 + v3) * 16 + v4 := by
    simp only [hexListVal, List.foldl]
    rw [hg1, hg2, hg3, hg4]
    ring
  have hle : ((v1 * 16 + v2) * 16 + v3) * 16 + v4 ≤ 65535 := by
    have := hexVal_le15 h1
    have := hexVal_le15 h2
    have := hexVal_le15 h3
    have := hexVal_le15 h4
    omega
  unfold sscanfLx
  rw [List.dropWhile_cons, hws]
  have d43 : decide (b1 = 43) = false := by simp; omega
  have d45 : decide (b1 = 45) = false := by simp; omega
  have d120 : decide (b2 = 120) = false := by simp; omega
  have d88 : decide (b2 = 88) = false := by simp; omega
  simp only [Bool.false_eq_true, if_false, d43, d45, Bool.or_self, List.head?_cons,
    List.tail_cons, Option.some.injEq, d120, d88, Bool.or_false, Bool.and_false]
  rw [hrun, hval]
  have hmod : (((v1 * 16 + v2) * 16 + v3) * 16 + v4) % 18446744073709551616 =
      ((v1 * 16 + v2) * 16 + v3) * 16 + v4 := Nat.mod_eq_of_lt (by omega)
  simp [hmod]

end WxJSON

namespace WxJSON

/-- `utf8Encode` succeeds on every 16-bit code unit. -/
theorem utf8Encode_isSome {n : Nat} (h : n < 65536) : (utf8Encode n).isSome := by
  unfold utf8Encode
  split_ifs <;> rfl

/-- Claim C5 counterexample: the four bytes after `\u` are `1G34` - the second
byte is no hexadecimal digit - yet `AppendUES` emits no error and does append
to the string: `sscanf %lx` converts the prefix `1` and the UTF-8 encoding of
U+0001 (one byte) is appended. The claim says this buffer produces the error
"Invalid Unicode Escaped Sequence" and appends nothing. -/
theorem claim5_counterexample :
    (appendUES [] (strBytes "1G34") (initState 0 30 [])).1 = [1] ∧
    (appendUES [] (strBytes "1G34") (initState 0 30 [])).2.errors = [] :=
  ⟨rfl, rfl⟩

/-- Claim C5 as amended: a `\uXXXX` escape reads exactly four bytes after the
`u`; when EOF hits before the fourth byte, `ReadString` aborts silently (no
error is emitted, nothing is stored); the four-byte buffer is converted with
`sscanf %lx`, so the error "Invalid Unicode Escaped Sequence" is emitted (and
nothing appended) exactly when the conversion finds no hexadecimal number;
when all four bytes are hex digits, the full 16-bit code unit is encoded to
UTF-8 and appended with no error. -/
theorem claim5_amended :
    (∀ buff b1 b2 b3 b4 v1 v2 v3 v4 st, hexVal b1 = some v1 → hexVal b2 = some v2 →
      hexVal b3 = some v3 → hexVal b4 = some v4 →
      appendUES buff [b1, b2, b3, b4] st =
        (buff ++ (utf8Encode (((v1 * 16 + v2) * 16 + v3) * 16 + v4)).getD [], st)) ∧
    (∀ buff ues st, sscanfLx ues = none →
      appendUES buff ues st = (buff, addError msgInvalidUES st)) ∧
    (∀ buff ues st, sscanfLx ues ≠ none → (appendUES buff ues st).2 = st) ∧
    ((readString 40 (initState 0 30 (strBytes "\\u12")) JValue.freshInvalid).2.1.errors
        = [] ∧
      (readString 40 (initState 0 30 (strBytes "\\u12")) JValue.freshInvalid).2.2
        = JValue.freshInvalid ∧
      (readString 40 (initState 0 30 (strBytes "\\u12")) JValue.freshInvalid).1 = -1) := by
  refine ⟨?_, ?_, ?_, rfl, rfl, rfl⟩
  · intro buff b1 b2 b3 b4 v1 v2 v3 v4 st e1 e2 e3 e4
    have hs := sscanfLx_hex4 e1 e2 e3 e4
    have hval : ((v1 * 16 + v2) * 16 + v3) * 16 + v4 < 65536 := by
      have := hexVal_le15 e1
      have := hexVal_le15 e2
      have := hexVal_le15 e3
      have := hexVal_le15 e4
      omega
    have hmod : (((v1 * 16 + v2) * 16 + v3) * 16 + v4) % 4294967296 =
        ((v1 * 16 + v2) * 16 + v3) * 16 + v4 := Nat.mod_eq_of_lt (by omega)
    obtain ⟨bs, hbs⟩ := Option.isSome_iff_exists.mp (utf8Encode_isSome hval)
    unfold appendUES
    rw [hs]
    simp [hmod, hbs]
  · intro buff ues st h
    unfold appendUES
    rw [h]
  · intro buff ues st h
    unfold appendUES
    obtain ⟨l, hl⟩ := Option.ne_none_iff_exists'.mp h
    rw [hl]
    cases h2 : utf8Encode (l % 4294967296) <;> simp [h2]

end WxJSON

namespace WxJSON

/-- Claim C9 counterexample: the bytes `:` (58) and `@` (64) are not in
`0-9A-F`, yet the pair `:@` decodes with no error to the byte `0x39`
(`:` maps to 3, `@` to 9 under the `- '0'`, `- 7` trick); the claim says
exactly `0-9` and upper-case `A-F` decode and any other byte counts as an
invalid digit. -/
theorem claim9_counterexample :
    (membuffLoop 40 (initState 0 30 (strBytes ":@\x27x")) [] 0).2.2.1 = [57] ∧
    (membuffLoop 40 (initState 0 30 (strBytes ":@\x27x")) [] 0).2.2.2 = 0 :=
  ⟨rfl, rfl⟩

/-- Claim C9 as amended: each pair byte is decoded by subtracting `'0'` (on
`unsigned char`, so wrapping) and a further 7 when the result exceeds 9; the
bytes that decode are exactly the ASCII range 48-70, that is `0-9` and
`:;<=>?@A-F` (lower-case hex counts as invalid); each invalid pair increments
an error counter that is reported once at the end; and the input
`{ "k": 'DEAD' }` under MEMORYBUFF stores the 2-byte blob `DE AD` under key
`k` with one warning and no errors. -/
theorem claim9_amended :
    (∀ b : Fin 256,
      ((if ucSub b.val 48 > 9 then ucSub b.val 48 - 7 else ucSub b.val 48) ≤ 15 ↔
        (48 ≤ b.val ∧ b.val ≤ 70))) ∧
    ((parse wxJSONREADER_MEMORYBUFF 30 (strBytes "\x7b \"k\": \x27DEAD\x27 \x7d")
        none).root.objChild (strBytes "k")).map JValue.data = some (.jmembuff [222, 173]) ∧
    (parse wxJSONREADER_MEMORYBUFF 30 (strBytes "\x7b \"k\": \x27DEAD\x27 \x7d")
        none).warnings.length = 1 ∧
    (parse wxJSONREADER_MEMORYBUFF 30 (strBytes "\x7b \"k\": \x27DEAD\x27 \x7d")
        none).errors = [] ∧
    (readMemoryBuff 40 (initState wxJSONREADER_MEMORYBUFF 30 (strBytes "GZGZ\x27 x"))
        JValue.freshInvalid).2.1.errors =
      [formatError 1 6 (msgMembuffDigits 2)] := by
  refine ⟨by set_option maxRecDepth 4000 in decide, rfl, rfl, rfl, rfl⟩

end WxJSON

namespace WxJSON

/-- Witness for claim C5: the amended theorem applied to the concrete escape
buffer `0041`, which appends the single byte `A` (U+0041). -/
theorem claim5_witness :
    appendUES [] [48, 48, 52, 49] (initState 0 30 []) = ([65], initState 0 30 []) := by
  have h := claim5_amended.1 [] 48 48 52 49 0 0 4 1 (initState 0 30 []) rfl rfl rfl rfl
  simpa using h

@[simp]
theorem JValue.data_setLineNo (v : JValue) (l : Int) : (v.setLineNo l).data = v.data := by
  cases v; rfl

@[simp]
theorem JValue.kind_setLineNo (v : JValue) (l : Int) : (v.setLineNo l).kind = v.kind := by
  cases v; rfl

@[simp]
theorem JValue.isValid_setLineNo (v : JValue) (l : Int) :
    (v.setLineNo l).isValid = v.isValid := by
  cases v; rfl

@[simp]
theorem JValue.lineNo_setLineNo (v : JValue) (l : Int) : (v.setLineNo l).lineNo = l := by
  cases v; rfl

/-- The pending value after a `StoreValue` reset is invalid with no comments. -/
theorem resetV_data (v : JValue) :
    ((JValue.setType v .invalid).clearComments).data = .invalid := by
  cases v with
  | mk d l c =>
    unfold JValue.setType
    split
    · rename_i h
      simp only [JValue.kind, JValue.data] at h ⊢
      cases d <;> simp_all [JData.kind] <;> rfl
    · rfl

end WxJSON

namespace WxJSON

/-- In every branch of `StoreValue` the pending value is reset the same way. -/
theorem storeValue_value (ch : Int) (key : List Nat) (value parent : JValue) (st : RState) :
    (storeValue ch key value parent st).value =
      ((JValue.setType (value.setLineNo (-1)) .invalid).clearComments) := by
  unfold storeValue
  dsimp only
  split_ifs <;> rfl

/-- Claim C3, confirmed: the storage rule of `StoreValue`. With an invalid
pending value, an empty key and a closing-bracket trigger nothing is stored
and no diagnostic is emitted (with any other trigger the shared key-or-value
error is emitted and nothing is stored); in an Object parent a non-empty key
and a valid value are both required (each absence is an error) and on success
`parent[key] = value` is inserted and stamped with the current line; in an
Array parent a valid value is required - an invalid value emits the array
value-missing error - and a non-empty key emits a further error, while the
append itself still proceeds in both cases (even the invalid value is
appended); and in every case the pending value is reset to Invalid. -/
theorem claim3_storage_rule :
    (∀ ch (value parent : JValue) st, (ch = 125 ∨ ch = 93) → value.isValid = false →
      (storeValue ch [] value parent st).parent = parent ∧
      (storeValue ch [] value parent st).st = st) ∧
    (∀ ch key (value parent : JValue) st, parent.isObject = true → value.isValid = true →
      key ≠ [] →
      (storeValue ch key value parent st).parent =
        (parent.insertKey key (value.setLineNo (-1))).updateChild key
          (fun c => c.setLineNo (st.lineNo : Int)) ∧
      (storeValue ch key value parent st).st = st ∧
      (storeValue ch key value parent st).last = .pobj key) ∧
    (∀ ch key (value parent : JValue) st, parent.isObject = true → value.isValid = false →
      key ≠ [] →
      (storeValue ch key value parent st).st = addError msgObjValueMissing st ∧
      (storeValue ch key value parent st).parent = parent) ∧
    (∀ ch (value parent : JValue) st, parent.isObject = true → value.isValid = true →
      (storeValue ch [] value parent st).st = addError msgObjKeyMissing st ∧
      (storeValue ch [] value parent st).parent = parent) ∧
    (∀ ch key (value parent : JValue) st, parent.isArray = true → value.isValid = true →
      key ≠ [] →
      (storeValue ch key value parent st).st = addError (msgArrKey key) st ∧
      (storeValue ch key value parent st).parent =
        (parent.appendItem (value.setLineNo (-1))).updateLast
          (fun c => c.setLineNo ((addError (msgArrKey key) st).lineNo : Int)) ∧
      (storeValue ch key value parent st).last = .parr) ∧
    (∀ ch (value parent : JValue) st, parent.isArray = true → value.isValid = true →
      (storeValue ch [] value parent st).st = st ∧
      (storeValue ch [] value parent st).parent =
        (parent.appendItem (value.setLineNo (-1))).updateLast
          (fun c => c.setLineNo (st.lineNo : Int))) ∧
    (∀ ch key (value parent : JValue) st, parent.isArray = true → value.isValid = false →
      key ≠ [] →
      (storeValue ch key value parent st).st =
        addError (msgArrKey key) (addError msgArrValueMissing st) ∧
      (storeValue ch key value parent st).parent =
        (parent.appendItem (value.setLineNo (-1))).updateLast
          (fun c => c.setLineNo
            (((addError (msgArrKey key) (addError msgArrValueMissing st)).lineNo : Int))) ∧
      (storeValue ch key value parent st).last = .parr) ∧
    (∀ ch (value parent : JValue) st, value.isValid = false →
      ch ≠ 125 → ch ≠ 93 →
      (storeValue ch [] value parent st).st = addError msgKeyOrValueMissing st ∧
      (storeValue ch [] value parent st).parent = parent) ∧
    (∀ ch key (value parent : JValue) st,
      (storeValue ch key value parent st).value.data = .invalid) := by
  refine ⟨?_, ?_, ?_, ?_, ?_, ?_, ?_, ?_, ?_⟩
  · intro ch value parent st hch hval
    unfold storeValue
    rcases hch with rfl | rfl <;> simp [hval]
  · intro ch key value parent st hobj hval hkey
    unfold storeValue
    simp [hval, hobj, hkey]
  · intro ch key value parent st hobj hval hkey
    unfold storeValue
    simp [hval, hobj, hkey]
  · intro ch value parent st hobj hval
    unfold storeValue
    simp [hval, hobj]
  · intro ch key value parent st harr hval hkey
    have hobj : parent.isObject = false := by
      unfold JValue.isObject
      unfold JValue.isArray at harr
      simp only [decide_eq_true_eq] at harr
      simp [harr]
    unfold storeValue
    simp [hval, harr, hobj, hkey]
  · intro ch value parent st harr hval
    have hobj : parent.isObject = false := by
      unfold JValue.isObject
      unfold JValue.isArray at harr
      simp only [decide_eq_true_eq] at harr
      simp [harr]
    unfold storeValue
    simp [hval, harr, hobj]
  · intro ch key value parent st harr hval hkey
    have hobj : parent.isObject = false := by
      unfold JValue.isObject
      unfold JValue.isArray at harr
      simp only [decide_eq_true_eq] at harr
      simp [harr]
    unfold storeValue
    simp [hval, harr, hobj, hkey]
  · intro ch value parent st hval h125 h93
    unfold storeValue
    simp [hval, h125, h93]
  · intro ch key value parent st
    rw [storeValue_value]
    exact resetV_data _

/-- Witness for claim C3: the storage rule applied to one concrete call of
each guarded conjunct, including the array store of an invalid pending value
(error emitted, append performed anyway). -/
theorem claim3_witness :
    (storeValue 125 [] JValue.freshInvalid (JValue.mk (.jobject []) 1 [])
        (initState 0 30 [])).st = initState 0 30 [] ∧
    (storeValue 44 [107] (JValue.mk (.jbool true) (-1) [])
        (JValue.mk (.jobject []) 1 []) (initState 0 30 [])).last = .pobj [107] ∧
    (storeValue 44 [107] (JValue.mk (.jbool true) (-1) [])
        (JValue.mk (.jarray []) 1 []) (initState 0 30 [])).st =
      addError (msgArrKey [107]) (initState 0 30 []) ∧
    (storeValue 44 [107] JValue.freshInvalid
        (JValue.mk (.jarray []) 1 []) (initState 0 30 [])).st =
      addError (msgArrKey [107]) (addError msgArrValueMissing (initState 0 30 [])) ∧
    (storeValue 44 [107] JValue.freshInvalid
        (JValue.mk (.jarray []) 1 []) (initState 0 30 [])).parent =
      ((JValue.mk (.jarray []) 1 []).appendItem
        (JValue.freshInvalid.setLineNo (-1))).updateLast
          (fun c => c.setLineNo
            (((addError (msgArrKey [107])
                (addError msgArrValueMissing (initState 0 30 []))).lineNo : Int))) ∧
    (storeValue 44 [] JValue.freshInvalid
        (JValue.mk (.jarray []) 1 []) (initState 0 30 [])).st =
      addError msgKeyOrValueMissing (initState 0 30 []) ∧
    (storeValue 44 [] (JValue.mk (.jbool true) (-1) [])
        (JValue.mk (.jarray []) 1 []) (initState 0 30 [])).value.data = .invalid := by
  refine ⟨?_, ?_, ?_, ?_, ?_, ?_, ?_⟩
  · exact (claim3_storage_rule.1 125 JValue.freshInvalid (JValue.mk (.jobject []) 1 [])
      (initState 0 30 []) (Or.inl rfl) rfl).2
  · exact (claim3_storage_rule.2.1 44 [107] (JValue.mk (.jbool true) (-1) [])
      (JValue.mk (.jobject []) 1 []) (initState 0 30 []) rfl rfl (by simp)).2.2
  · exact (claim3_storage_rule.2.2.2.2.1 44 [107] (JValue.mk (.jbool true) (-1) [])
      (JValue.mk (.jarray []) 1 []) (initState 0 30 []) rfl rfl (by simp)).1
  · exact (claim3_storage_rule.2.2.2.2.2.2.1 44 [107] JValue.freshInvalid
      (JValue.mk (.jarray []) 1 []) (initState 0 30 []) rfl rfl (by simp)).1
  · exact (claim3_storage_rule.2.2.2.2.2.2.1 44 [107] JValue.freshInvalid
      (JValue.mk (.jarray []) 1 []) (initState 0 30 []) rfl rfl (by simp)).2.1
  · exact (claim3_storage_rule.2.2.2.2.2.2.2.1 44 JValue.freshInvalid
      (JValue.mk (.jarray []) 1 []) (initState 0 30 []) rfl (by norm_num) (by norm_num)).1
  · exact claim3_storage_rule.2.2.2.2.2.2.2.2 44 [] (JValue.mk (.jbool true) (-1) [])
      (JValue.mk (.jarray []) 1 []) (initState 0 30 [])

end WxJSON

namespace WxJSON

/-- Claim C4 counterexample: STORE_COMMENTS and COMMENTS_AFTER set, no line
matches, `m_current` is the frame parent and `m_lastStored` is available; the
claim says the comment is then attached After to `last_stored`, but the code
emits the error instead - the `last_stored` fallback is only reached when
`m_current` is null. -/
theorem claim4_counterexample :
    storeCommentAction (wxJSONREADER_STORE_COMMENTS ||| wxJSONREADER_COMMENTS_AFTER) 5
      (some ⟨3, true, true⟩) none (some 4) = .errorAfter ∧
    storeCommentAction (wxJSONREADER_STORE_COMMENTS ||| wxJSONREADER_COMMENTS_AFTER) 5
      (some ⟨3, true, true⟩) none (some 4) ≠ .afterLast := by
  exact ⟨rfl, by decide⟩

/-- Claim C4 as amended: without STORE_COMMENTS the comment is discarded with
no diagnostic and no change to the values; otherwise the first of
current / next / last_stored whose line equals `comment_line` receives the
comment Inline; else with COMMENTS_AFTER set, a non-null current receives it
After unless current is the frame parent or invalid - in which case an error
is emitted (last_stored is not consulted); the After fallback to last_stored
happens only when current is null, and an error is emitted when current and
last_stored are both null; in the default case the comment goes Before next,
with an error when next is null. -/
theorem claim4_amended :
    (∀ st (parent value : JValue) fc, st.flags &&& wxJSONREADER_STORE_COMMENTS = 0 →
      storeCommentFrame st parent value fc = ({ st with comment := [] }, parent, value)) ∧
    (∀ flags cl c nv lv, flags &&& wxJSONREADER_STORE_COMMENTS ≠ 0 → c.line = cl →
      storeCommentAction flags cl (some c) nv lv = .inlineCurrent) ∧
    (∀ flags cl cv nv lv, flags &&& wxJSONREADER_STORE_COMMENTS ≠ 0 →
      cv.map CurView.line ≠ some cl → nv = some cl →
      storeCommentAction flags cl cv nv lv = .inlineNext) ∧
    (∀ flags cl cv nv lv, flags &&& wxJSONREADER_STORE_COMMENTS ≠ 0 →
      cv.map CurView.line ≠ some cl → nv ≠ some cl → lv = some cl →
      storeCommentAction flags cl cv nv lv = .inlineLast) ∧
    (∀ flags cl c nv lv, flags &&& wxJSONREADER_STORE_COMMENTS ≠ 0 →
      flags &&& wxJSONREADER_COMMENTS_AFTER ≠ 0 → c.line ≠ cl → nv ≠ some cl →
      lv ≠ some cl → (c.isParent = true ∨ c.valid = false) →
      storeCommentAction flags cl (some c) nv lv = .errorAfter) ∧
    (∀ flags cl c nv lv, flags &&& wxJSONREADER_STORE_COMMENTS ≠ 0 →
      flags &&& wxJSONREADER_COMMENTS_AFTER ≠ 0 → c.line ≠ cl → nv ≠ some cl →
      lv ≠ some cl → c.isParent = false → c.valid = true →
      storeCommentAction flags cl (some c) nv lv = .afterCurrent) ∧
    (∀ flags cl nv l, flags &&& wxJSONREADER_STORE_COMMENTS ≠ 0 →
      flags &&& wxJSONREADER_COMMENTS_AFTER ≠ 0 → nv ≠ some cl → l ≠ cl →
      storeCommentAction flags cl none nv (some l) = .afterLast) ∧
    (∀ flags cl nv, flags &&& wxJSONREADER_STORE_COMMENTS ≠ 0 →
      flags &&& wxJSONREADER_COMMENTS_AFTER ≠ 0 → nv ≠ some cl →
      storeCommentAction flags cl none nv none = .errorAfter) ∧
    (∀ flags cl cv n lv, flags &&& wxJSONREADER_STORE_COMMENTS ≠ 0 →
      flags &&& wxJSONREADER_COMMENTS_AFTER = 0 → cv.map CurView.line ≠ some cl →
      n ≠ cl → lv ≠ some cl →
      storeCommentAction flags cl cv (some n) lv = .beforeNext) ∧
    (∀ flags cl cv lv, flags &&& wxJSONREADER_STORE_COMMENTS ≠ 0 →
      flags &&& wxJSONREADER_COMMENTS_AFTER = 0 → cv.map CurView.line ≠ some cl →
      lv ≠ some cl →
      storeCommentAction flags cl cv none lv = .errorBefore) := by
  refine ⟨?_, ?_, ?_, ?_, ?_, ?_, ?_, ?_, ?_, ?_⟩
  · intro st parent value fc h
    unfold storeCommentFrame storeCommentAction
    simp [h]
  · intro flags cl c nv lv hs hl
    unfold storeCommentAction
    simp [hs, hl]
  · intro flags cl cv nv lv hs hc hn
    unfold storeCommentAction
    simp [hs, hc, hn]
  · intro flags cl cv nv lv hs hc hn hl
    unfold storeCommentAction
    simp [hs, hc, hn, hl]
  · intro flags cl c nv lv hs ha hc hn hl hpi
    unfold storeCommentAction
    rcases hpi with hp | hv
    · simp [hs, ha, hc, hn, hl, hp]
    · simp [hs, ha, hc, hn, hl, hv]
  · intro flags cl c nv lv hs ha hc hn hl hp hv
    unfold storeCommentAction
    simp [hs, ha, hc, hn, hl, hp, hv]
  · intro flags cl nv l hs ha hn hl
    unfold storeCommentAction
    simp [hs, ha, hn, hl]
  · intro flags cl nv hs ha hn
    unfold storeCommentAction
    simp [hs, ha, hn]
  · intro flags cl cv n lv hs ha hc hn hl
    unfold storeCommentAction
    simp [hs, ha, hc, hn, hl]
  · intro flags cl cv lv hs ha hc hl
    unfold storeCommentAction
    simp [hs, ha, hc, hl]

/-- Witness for claim C4: the amended decision logic at concrete inputs - one
Inline-to-current case, one After-to-last_stored case with null current, and
one discard without STORE_COMMENTS. -/
theorem claim4_witness :
    storeCommentAction wxJSONREADER_STORE_COMMENTS 7 (some ⟨7, true, true⟩) none none
        = .inlineCurrent ∧
    storeCommentAction (wxJSONREADER_STORE_COMMENTS ||| wxJSONREADER_COMMENTS_AFTER) 7
        none none (some 4) = .afterLast ∧
    storeCommentFrame (initState 0 30 []) JValue.freshInvalid JValue.freshInvalid
        ⟨.cnone, .nnone, .lnone⟩ =
      ({ initState 0 30 [] with comment := [] }, JValue.freshInvalid, JValue.freshInvalid) := by
  refine ⟨?_, ?_, ?_⟩
  · exact claim4_amended.2.1 wxJSONREADER_STORE_COMMENTS 7 ⟨7, true, true⟩ none none
      (by decide) rfl
  · exact claim4_amended.2.2.2.2.2.2.1 (wxJSONREADER_STORE_COMMENTS |||
      wxJSONREADER_COMMENTS_AFTER) 7 none 4 (by decide) (by decide) (by decide) (by decide)
  · exact claim4_amended.1 (initState 0 30 []) JValue.freshInvalid JValue.freshInvalid
      ⟨.cnone, .nnone, .lnone⟩ (by decide)

end WxJSON

namespace WxJSON

/-- Claim C8 counterexample: reading a lone CR (not followed by LF) leaves
`col_no = 2`, not 1: the source first sets `m_colNo = 1` and then falls into
the shared `++m_colNo` branch because the returned character is not LF. The
claim says reading a CR sets `col_no` to 1. -/
theorem claim8_counterexample :
    (readChar { initState 0 30 [13, 120] with colNo := 5 }).1 = 13 ∧
    (readChar { initState 0 30 [13, 120] with colNo := 5 }).2.colNo = 2 :=
  ⟨rfl, rfl⟩

/-- Claim C8 as amended: after every `ReadChar` call `line_no ≥ 1` and
`col_no ≥ 1` (given they were so before); CR directly followed by LF consumes
both bytes and counts as a single newline (`line_no + 1`, `col_no = 1`,
returning LF); a plain LF increments `line_no` and resets `col_no` to 1; a
lone CR is consumed, `col_no` is first set to 1 and then incremented by the
shared fall-through, leaving `col_no = 2` with `line_no` unchanged; any other
byte increments `col_no`; a CR that ends the stream returns EOF with
`col_no = 1`. -/
theorem claim8_amended :
    (∀ st : RState, 1 ≤ st.lineNo → 1 ≤ st.colNo →
      1 ≤ (readChar st).2.lineNo ∧ 1 ≤ (readChar st).2.colNo) ∧
    (∀ (st : RState) r, st.input = 13 :: 10 :: r →
      readChar st = (10, { st with input := r, lineNo := st.lineNo + 1, colNo := 1 })) ∧
    (∀ (st : RState) r, st.input = 10 :: r →
      readChar st = (10, { st with input := r, lineNo := st.lineNo + 1, colNo := 1 })) ∧
    (∀ (st : RState) b r, st.input = 13 :: b :: r → b ≠ 10 →
      readChar st = (13, { st with input := b :: r, colNo := 2 })) ∧
    (∀ (st : RState) b r, st.input = b :: r → b ≠ 10 → b ≠ 13 →
      readChar st = ((b : Int), { st with input := r, colNo := st.colNo + 1 })) ∧
    (∀ st : RState, st.input = [13] →
      readChar st = (-1, { st with input := [], colNo := 1 })) := by
  refine ⟨?_, ?_, ?_, ?_, ?_, ?_⟩
  · intro st h1 h2
    obtain ⟨fl, me, input, ln, cn, lv, dp, er, wa, cm, cl⟩ := st
    simp only at h1 h2
    cases input with
    | nil => exact ⟨h1, h2⟩
    | cons b r =>
      unfold readChar
      dsimp only
      split_ifs with hb
      · cases r with
        | nil => exact ⟨by dsimp only; omega, by dsimp only; omega⟩
        | cons b2 r2 =>
          dsimp only
          split_ifs with h10
          · exact ⟨by dsimp only; omega, by dsimp only; omega⟩
          · exact ⟨by dsimp only; omega, by dsimp only; omega⟩
      · exact ⟨by dsimp only; omega, by dsimp only; omega⟩
      · exact ⟨by dsimp only; omega, by dsimp only; omega⟩
  · intro st r h
    obtain ⟨fl, me, input, ln, cn, lv, dp, er, wa, cm, cl⟩ := st
    simp only at h
    subst h
    simp [readChar]
  · intro st r h
    obtain ⟨fl, me, input, ln, cn, lv, dp, er, wa, cm, cl⟩ := st
    simp only at h
    subst h
    simp [readChar]
  · intro st b r h hb
    obtain ⟨fl, me, input, ln, cn, lv, dp, er, wa, cm, cl⟩ := st
    simp only at h
    subst h
    simp [readChar, hb]
  · intro st b r h h10 h13
    obtain ⟨fl, me, input, ln, cn, lv, dp, er, wa, cm, cl⟩ := st
    simp only at h
    subst h
    simp [readChar, h10, h13]
  · intro st h
    obtain ⟨fl, me, input, ln, cn, lv, dp, er, wa, cm, cl⟩ := st
    simp only at h
    subst h
    simp [readChar]

/-- Witness for claim C8: the amended statement applied to concrete states -
a CR+LF pair from column 7, and the invariant at a one-byte stream. -/
theorem claim8_witness :
    readChar { initState 0 30 [13, 10, 97] with colNo := 7 } =
      (10, { initState 0 30 [97] with lineNo := 2, colNo := 1 }) ∧
    1 ≤ (readChar (initState 0 30 [120])).2.lineNo ∧
    1 ≤ (readChar (initState 0 30 [120])).2.colNo := by
  refine ⟨?_, ?_, ?_⟩
  · have h := claim8_amended.2.1 { initState 0 30 [13, 10, 97] with colNo := 7 } [97] rfl
    simpa using h
  · exact (claim8_amended.1 (initState 0 30 [120]) (by decide) (by decide)).1
  · exact (claim8_amended.1 (initState 0 30 [120]) (by decide) (by decide)).2

end WxJSON

namespace WxJSON

/-- Equation: `ReadChar` on a byte that is neither LF nor CR. -/
theorem readChar_other {st : RState} {b : Nat} {r : List Nat} (h : st.input = b :: r)
    (h10 : b ≠ 10) (h13 : b ≠ 13) :
    readChar st = ((b : Int), { st with input := r, colNo := st.colNo + 1 }) := by
  obtain ⟨fl, me, input, ln, cn, lv, dp, er, wa, cm, cl⟩ := st
  simp only at h
  subst h
  simp [readChar, h10, h13]

/-- Equation: `ReadChar` on LF. -/
theorem readChar_lf {st : RState} {r : List Nat} (h : st.input = 10 :: r) :
    readChar st = (10, { st with input := r, lineNo := st.lineNo + 1, colNo := 1 }) := by
  obtain ⟨fl, me, input, ln, cn, lv, dp, er, wa, cm, cl⟩ := st
  simp only at h
  subst h
  simp [readChar]

/-- Equation: `ReadChar` on CR+LF (one newline). -/
theorem readChar_crlf {st : RState} {r : List Nat} (h : st.input = 13 :: 10 :: r) :
    readChar st = (10, { st with input := r, lineNo := st.lineNo + 1, colNo := 1 }) := by
  obtain ⟨fl, me, input, ln, cn, lv, dp, er, wa, cm, cl⟩ := st
  simp only at h
  subst h
  simp [readChar]

/-- Equation: `ReadChar` at end of stream. -/
theorem readChar_nil {st : RState} (h : st.input = []) : readChar st = (-1, st) := by
  obtain ⟨fl, me, input, ln, cn, lv, dp, er, wa, cm, cl⟩ := st
  simp only at h
  subst h
  simp [readChar]

/-- `ReadChar` never touches the diagnostic lists, the configuration or the
comment fields. -/
theorem readChar_frame (st : RState) :
    (readChar st).2.errors = st.errors ∧ (readChar st).2.warnings = st.warnings ∧
    (readChar st).2.flags = st.flags ∧ (readChar st).2.maxErrors = st.maxErrors ∧
    (readChar st).2.comment = st.comment ∧ (readChar st).2.commentLine = st.commentLine ∧
    (readChar st).2.level = st.level ∧ (readChar st).2.depth = st.depth := by
  obtain ⟨fl, me, input, ln, cn, lv, dp, er, wa, cm, cl⟩ := st
  cases input with
  | nil => exact ⟨rfl, rfl, rfl, rfl, rfl, rfl, rfl, rfl⟩
  | cons b r =>
    unfold readChar
    dsimp only
    split_ifs with h13 h10
    · cases r with
      | nil => exact ⟨rfl, rfl, rfl, rfl, rfl, rfl, rfl, rfl⟩
      | cons b2 r2 =>
        dsimp only
        split_ifs with hb2 <;> exact ⟨rfl, rfl, rfl, rfl, rfl, rfl, rfl, rfl⟩
    · exact ⟨rfl, rfl, rfl, rfl, rfl, rfl, rfl, rfl⟩
    · exact ⟨rfl, rfl, rfl, rfl, rfl, rfl, rfl, rfl⟩

end WxJSON

namespace WxJSON

/-- The `(unsigned char)` cast is the identity on a byte. -/
theorem byteOf_byte {b : Nat} (h : b < 256) : byteOf (b : Int) = b := by
  unfold byteOf
  omega

/-- One-step equation of the line-comment loop. -/
theorem lineCommentLoop_succ (f : Nat) (st : RState) (ch : Int) (buf : List Nat) :
    lineCommentLoop (f + 1) st ch buf =
      if ch < 0 then (ch, st, buf)
      else if ch = 10 then (ch, st, buf)
      else if ch = 13 then
        (let p := peekChar st
         if p = 10 then
           (let r := readChar st
            (r.1, r.2, buf))
         else (p, st, buf))
      else
        (let r := readChar st
         lineCommentLoop f r.2 r.1 (buf ++ [byteOf ch])) := by
  conv_lhs => rw [lineCommentLoop]

/-- The line-comment loop consumes a CR/LF-free body up to its LF or CR+LF
terminator, appending the current character and the body to the buffer. -/
theorem lineCommentLoop_spec :
    ∀ (body : List Nat) (fuel : Nat) (st : RState) (ch : Int) (buf nl rest : List Nat),
      st.input = body ++ nl ++ rest →
      (nl = [10] ∨ nl = [13, 10]) →
      (∀ b ∈ body, b < 256 ∧ b ≠ 10 ∧ b ≠ 13) →
      0 ≤ ch → ch ≠ 10 → ch ≠ 13 →
      body.length + 2 ≤ fuel →
      lineCommentLoop fuel st ch buf =
        (10, { st with input := rest, lineNo := st.lineNo + 1, colNo := 1 },
          buf ++ byteOf ch :: body) := by
  intro body
  induction body with
  | nil =>
    intro fuel st ch buf nl rest hin hnl hb hch h10 h13 hf
    match fuel, hf with
    | f + 2, _ =>
      have hread : readChar st =
          (10, { st with input := rest, lineNo := st.lineNo + 1, colNo := 1 }) := by
        rcases hnl with rfl | rfl
        · exact readChar_lf (by simpa using hin)
        · exact readChar_crlf (by simpa using hin)
      rw [lineCommentLoop_succ, if_neg (by omega), if_neg h10, if_neg h13]
      dsimp only
      rw [hread]
      rw [lineCommentLoop_succ, if_neg (by omega), if_pos rfl]
  | cons b body ih =>
    intro fuel st ch buf nl rest hin hnl hb hch h10 h13 hf
    match fuel, hf with
    | f + 1, hf2 =>
      have hbb := hb b (by simp)
      have hread : readChar st =
          ((b : Int), { st with input := body ++ nl ++ rest, colNo := st.colNo + 1 }) :=
        readChar_other (by simpa using hin) hbb.2.1 hbb.2.2
      rw [lineCommentLoop_succ, if_neg (by omega), if_neg h10, if_neg h13]
      dsimp only
      rw [hread]
      have hstep := ih f { st with input := body ++ nl ++ rest, colNo := st.colNo + 1 }
        ((b : Int)) (buf ++ [byteOf ch]) nl rest rfl hnl
        (fun x hx => hb x (by simp [hx])) (Int.natCast_nonneg b)
        (by exact_mod_cast hbb.2.1) (by exact_mod_cast hbb.2.2)
        (by simp at hf2; omega)
      rw [hstep, byteOf_byte hbb.1]
      simp

end WxJSON

namespace WxJSON

/-- One-step equation of the block-comment loop. -/
theorem blockCommentLoop_succ (f : Nat) (st : RState) (ch : Int) (buf : List Nat) :
    blockCommentLoop (f + 1) st ch buf =
      if ch < 0 then (ch, st, buf)
      else if ch = 42 then
        (let p := peekChar st
         if p = 47 then
           (let r1 := readChar st
            let r2 := readChar r1.2
            (r2.1, r2.2, buf ++ [42, 47]))
         else
           (let r := readChar st
            blockCommentLoop f r.2 r.1 (buf ++ [byteOf p])))
      else
        (let r := readChar st
         blockCommentLoop f r.2 r.1 (buf ++ [byteOf ch])) := by
  conv_lhs => rw [blockCommentLoop]

/-- The block-comment loop, current character not a star: consumes the body
up to and including the closing star-slash, then reads one further character
which it returns. -/
theorem blockCommentLoop_plain :
    ∀ (body : List Nat) (fuel : Nat) (st : RState) (ch : Int) (buf rest : List Nat),
      st.input = body ++ 42 :: 47 :: rest →
      (∀ b ∈ body, b < 256 ∧ b ≠ 10 ∧ b ≠ 13 ∧ b ≠ 42 ∧ b ≠ 47) →
      0 ≤ ch → ch ≠ 42 →
      body.length + 3 ≤ fuel →
      blockCommentLoop fuel st ch buf =
        ((readChar { st with input := rest, colNo := st.colNo + body.length + 2 }).1,
         (readChar { st with input := rest, colNo := st.colNo + body.length + 2 }).2,
         buf ++ byteOf ch :: (body ++ [42, 47])) := by
  intro body
  induction body with
  | nil =>
    intro fuel st ch buf rest hin hb hch h42 hf
    match fuel, hf with
    | f + 2, _ =>
      have hr1 : readChar st =
          (42, { st with input := 47 :: rest, colNo := st.colNo + 1 }) :=
        readChar_other (b := 42) (r := 47 :: rest) (by simpa using hin) (by omega) (by omega)
      rw [blockCommentLoop_succ, if_neg (by omega), if_neg h42]
      dsimp only
      rw [hr1]
      rw [blockCommentLoop_succ, if_neg (by omega), if_pos rfl]
      dsimp only [peekChar]
      have hr2 : readChar { st with input := 47 :: rest, colNo := st.colNo + 1 } =
          (47, { st with input := rest, colNo := st.colNo + 2 }) := by
        have := @readChar_other
          { st with input := 47 :: rest, colNo := st.colNo + 1 }
          47 rest rfl (by omega) (by omega)
        simpa using this
      rw [if_pos (by norm_num), hr2]
      simp
  | cons b body ih =>
    intro fuel st ch buf rest hin hb hch h42 hf
    match fuel, hf with
    | f + 1, hf2 =>
      have hbb := hb b (by simp)
      have hread : readChar st =
          ((b : Int), { st with input := body ++ 42 :: 47 :: rest, colNo := st.colNo + 1 }) :=
        readChar_other (by simpa using hin) hbb.2.1 hbb.2.2.1
      rw [blockCommentLoop_succ, if_neg (by omega), if_neg h42]
      dsimp only
      rw [hread]
      have hstep := ih f { st with input := body ++ 42 :: 47 :: rest, colNo := st.colNo + 1 }
        ((b : Int)) (buf ++ [byteOf ch]) rest rfl
        (fun x hx => hb x (by simp [hx])) (Int.natCast_nonneg b)
        (by exact_mod_cast hbb.2.2.2.1) (by simp at hf2; omega)
      have hcol : st.colNo + 1 + body.length + 2 = st.colNo + (body.length + 1) + 2 := by
        omega
      rw [hstep, byteOf_byte hbb.1]
      simp only [List.length_cons]
      rw [hcol]
      simp

/-- The block-comment loop entered at the opening star (as `SkipComment` does):
the peeked first body byte is appended once before being read (and appended
again by the next iteration), so the head of the body is duplicated in the
buffer; consumption still ends right after the closing star-slash plus one
further read. -/
theorem blockCommentLoop_star (body : List Nat) (fuel : Nat) (st : RState)
    (buf rest : List Nat)
    (hin : st.input = body ++ 42 :: 47 :: rest)
    (hb : ∀ b ∈ body, b < 256 ∧ b ≠ 10 ∧ b ≠ 13 ∧ b ≠ 42 ∧ b ≠ 47)
    (hf : body.length + 4 ≤ fuel) :
    blockCommentLoop fuel st 42 buf =
      ((readChar { st with input := rest, colNo := st.colNo + body.length + 2 }).1,
       (readChar { st with input := rest, colNo := st.colNo + body.length + 2 }).2,
       buf ++ (body.headD 42) :: (body ++ [42, 47])) := by
  match fuel, hf with
  | f + 1, hf2 =>
    cases body with
    | nil =>
      have hr1 : readChar st =
          (42, { st with input := 47 :: rest, colNo := st.colNo + 1 }) :=
        readChar_other (b := 42) (r := 47 :: rest) (by simpa using hin) (by omega) (by omega)
      rw [blockCommentLoop_succ, if_neg (by omega), if_pos rfl]
      dsimp only [peekChar]
      rw [hin]
      simp only [List.nil_append]
      rw [if_neg (by decide), hr1]
      dsimp only
      match f, hf2 with
      | f2 + 1, _ =>
        rw [blockCommentLoop_succ, if_neg (by omega), if_pos rfl]
        dsimp only [peekChar]
        rw [if_pos (by decide)]
        have hr2 : readChar { st with input := 47 :: rest, colNo := st.colNo + 1 } =
            (47, { st with input := rest, colNo := st.colNo + 2 }) := by
          have := @readChar_other
            { st with input := 47 :: rest, colNo := st.colNo + 1 }
            47 rest rfl (by omega) (by omega)
          simpa using this
        rw [hr2]
        simp [byteOf]
    | cons b body2 =>
      have hbb := hb b (by simp)
      have hread : readChar st =
          ((b : Int), { st with input := body2 ++ 42 :: 47 :: rest, colNo := st.colNo + 1 }) :=
        readChar_other (by simpa using hin) hbb.2.1 hbb.2.2.1
      rw [blockCommentLoop_succ, if_neg (by omega), if_pos rfl]
      dsimp only [peekChar]
      rw [hin]
      simp only [List.cons_append]
      rw [if_neg (by exact_mod_cast hbb.2.2.2.2), hread]
      dsimp only
      have hstep := blockCommentLoop_plain body2 f
        { st with input := body2 ++ 42 :: 47 :: rest, colNo := st.colNo + 1 }
        ((b : Int)) (buf ++ [byteOf ((b : Nat) : Int)]) rest rfl
        (fun x hx => hb x (by simp [hx])) (Int.natCast_nonneg b)
        (by exact_mod_cast hbb.2.2.2.1) (by simp at hf2; omega)
      have hcol : st.colNo + 1 + body2.length + 2 = st.colNo + (body2.length + 1) + 2 := by
        omega
      rw [hstep, byteOf_byte hbb.1]
      simp only [List.length_cons]
      rw [hcol]
      simp

end WxJSON

namespace WxJSON

/-- `AddError` only touches the error list. -/
@[simp] theorem addError_input (m : String) (st : RState) :
    (addError m st).input = st.input := by
  unfold addError; dsimp only; split_ifs <;> rfl

@[simp] theorem addError_lineNo (m : String) (st : RState) :
    (addError m st).lineNo = st.lineNo := by
  unfold addError; dsimp only; split_ifs <;> rfl

@[simp] theorem addError_colNo (m : String) (st : RState) :
    (addError m st).colNo = st.colNo := by
  unfold addError; dsimp only; split_ifs <;> rfl

@[simp] theorem addError_flags (m : String) (st : RState) :
    (addError m st).flags = st.flags := by
  unfold addError; dsimp only; split_ifs <;> rfl

@[simp] theorem addError_maxErrors (m : String) (st : RState) :
    (addError m st).maxErrors = st.maxErrors := by
  unfold addError; dsimp only; split_ifs <;> rfl

@[simp] theorem addError_level (m : String) (st : RState) :
    (addError m st).level = st.level := by
  unfold addError; dsimp only; split_ifs <;> rfl

@[simp] theorem addError_depth (m : String) (st : RState) :
    (addError m st).depth = st.depth := by
  unfold addError; dsimp only; split_ifs <;> rfl

@[simp] theorem addError_comment (m : String) (st : RState) :
    (addError m st).comment = st.comment := by
  unfold addError; dsimp only; split_ifs <;> rfl

@[simp] theorem addError_commentLine (m : String) (st : RState) :
    (addError m st).commentLine = st.commentLine := by
  unfold addError; dsimp only; split_ifs <;> rfl

@[simp] theorem addError_warnings (m : String) (st : RState) :
    (addError m st).warnings = st.warnings := by
  unfold addError; dsimp only; split_ifs <;> rfl

/-- `AddWarning` only touches the diagnostic lists. -/
@[simp] theorem addWarning_input (k : Nat) (m : String) (st : RState) :
    (addWarning k m st).input = st.input := by
  unfold addWarning; dsimp only; split_ifs <;> simp

@[simp] theorem addWarning_lineNo (k : Nat) (m : String) (st : RState) :
    (addWarning k m st).lineNo = st.lineNo := by
  unfold addWarning; dsimp only; split_ifs <;> simp

@[simp] theorem addWarning_colNo (k : Nat) (m : String) (st : RState) :
    (addWarning k m st).colNo = st.colNo := by
  unfold addWarning; dsimp only; split_ifs <;> simp

@[simp] theorem addWarning_flags (k : Nat) (m : String) (st : RState) :
    (addWarning k m st).flags = st.flags := by
  unfold addWarning; dsimp only; split_ifs <;> simp

@[simp] theorem addWarning_maxErrors (k : Nat) (m : String) (st : RState) :
    (addWarning k m st).maxErrors = st.maxErrors := by
  unfold addWarning; dsimp only; split_ifs <;> simp

@[simp] theorem addWarning_level (k : Nat) (m : String) (st : RState) :
    (addWarning k m st).level = st.level := by
  unfold addWarning; dsimp only; split_ifs <;> simp

@[simp] theorem addWarning_depth (k : Nat) (m : String) (st : RState) :
    (addWarning k m st).depth = st.depth := by
  unfold addWarning; dsimp only; split_ifs <;> simp

@[simp] theorem addWarning_comment (k : Nat) (m : String) (st : RState) :
    (addWarning k m st).comment = st.comment := by
  unfold addWarning; dsimp only; split_ifs <;> simp

@[simp] theorem addWarning_commentLine (k : Nat) (m : String) (st : RState) :
    (addWarning k m st).commentLine = st.commentLine := by
  unfold addWarning; dsimp only; split_ifs <;> simp

end WxJSON

namespace WxJSON

/-- `SkipComment` on a C++-style comment: the byte after the first slash is the
second slash, which has already been read when the accumulation loop starts, so
it is appended to the initial two-byte `//` buffer and the accumulated text is
`///` followed by the body; the terminating LF (or CR+LF) is consumed, the
start line is recorded in `m_commentLine` and the ALLOW_COMMENTS warning is
emitted at the column after the second slash. -/
theorem skipComment_line (body nl rest : List Nat) (fuel : Nat) (st : RState)
    (hin : st.input = 47 :: (body ++ nl ++ rest))
    (hnl : nl = [10] ∨ nl = [13, 10])
    (hb : ∀ b ∈ body, b < 256 ∧ b ≠ 10 ∧ b ≠ 13)
    (hf : body.length + 2 ≤ fuel) :
    skipComment fuel st =
      (10, { st with input := rest
                   , lineNo := st.lineNo + 1
                   , colNo := 1
                   , commentLine := (st.lineNo : Int)
                   , comment := 47 :: 47 :: 47 :: body
                   , errors := (addWarning wxJSONREADER_ALLOW_COMMENTS commentWarnText
                       { st with input := body ++ nl ++ rest, colNo := st.colNo + 1 }).errors
                   , warnings := (addWarning wxJSONREADER_ALLOW_COMMENTS commentWarnText
                       { st with input := body ++ nl ++ rest, colNo := st.colNo + 1 }).warnings }) := by
  have hread : readChar st =
      ((47 : Int), { st with input := body ++ nl ++ rest, colNo := st.colNo + 1 }) := by
    have := readChar_other (b := 47) (r := body ++ nl ++ rest)
      (by simpa using hin) (by omega) (by omega)
    simpa using this
  unfold skipComment
  rw [hread]
  dsimp only
  rw [if_neg (by norm_num), if_pos rfl]
  have hspec := lineCommentLoop_spec body fuel
    { addWarning wxJSONREADER_ALLOW_COMMENTS commentWarnText
        { st with input := body ++ nl ++ rest, colNo := st.colNo + 1 } with
      commentLine := ((addWarning wxJSONREADER_ALLOW_COMMENTS commentWarnText
        { st with input := body ++ nl ++ rest, colNo := st.colNo + 1 }).lineNo : Int) }
    47 [47, 47] nl rest (by simp) hnl hb (by norm_num) (by norm_num) (by norm_num) hf
  rw [hspec]
  have h47 : byteOf 47 = 47 := by decide
  simp [Prod.mk.injEq, h47]

/-- `SkipComment` on a C-style comment: the opening star has already been read
when the accumulation loop starts; the loop peeks the first body byte, appends
it, then reads and appends it again, so the first body byte appears twice right
after the initial `/*`; the closing star-slash is appended and consumed, one
further character is read and returned, the start line is recorded and the
ALLOW_COMMENTS warning is emitted. -/
theorem skipComment_block (body : List Nat) (r0 : Nat) (rrest : List Nat)
    (fuel : Nat) (st : RState)
    (hin : st.input = 42 :: (body ++ 42 :: 47 :: r0 :: rrest))
    (hr0 : r0 < 256) (hr10 : r0 ≠ 10) (hr13 : r0 ≠ 13)
    (hb : ∀ b ∈ body, b < 256 ∧ b ≠ 10 ∧ b ≠ 13 ∧ b ≠ 42 ∧ b ≠ 47)
    (hf : body.length + 4 ≤ fuel) :
    skipComment fuel st =
      ((r0 : Int),
       { st with input := rrest
               , colNo := st.colNo + body.length + 4
               , commentLine := (st.lineNo : Int)
               , comment := 47 :: 42 :: (body.headD 42) :: (body ++ [42, 47])
               , errors := (addWarning wxJSONREADER_ALLOW_COMMENTS commentWarnText
                   { st with input := body ++ 42 :: 47 :: r0 :: rrest, colNo := st.colNo + 1 }).errors
               , warnings := (addWarning wxJSONREADER_ALLOW_COMMENTS commentWarnText
                   { st with input := body ++ 42 :: 47 :: r0 :: rrest, colNo := st.colNo + 1 }).warnings }) := by
  have hread : readChar st =
      ((42 : Int), { st with input := body ++ 42 :: 47 :: r0 :: rrest, colNo := st.colNo + 1 }) := by
    have := readChar_other (b := 42) (r := body ++ 42 :: 47 :: r0 :: rrest)
      (by simpa using hin) (by omega) (by omega)
    simpa using this
  unfold skipComment
  rw [hread]
  dsimp only
  rw [if_neg (by norm_num), if_neg (by norm_num), if_pos rfl]
  have hstar := blockCommentLoop_star body fuel
    { addWarning wxJSONREADER_ALLOW_COMMENTS commentWarnText
        { st with input := body ++ 42 :: 47 :: r0 :: rrest, colNo := st.colNo + 1 } with
      commentLine := ((addWarning wxJSONREADER_ALLOW_COMMENTS commentWarnText
        { st with input := body ++ 42 :: 47 :: r0 :: rrest, colNo := st.colNo + 1 }).lineNo : Int) }
    [47, 42] (r0 :: rrest) (by simp) hb hf
  rw [hstar]
  have hr2 := @readChar_other
    { addWarning wxJSONREADER_ALLOW_COMMENTS commentWarnText
        { st with input := body ++ 42 :: 47 :: r0 :: rrest, colNo := st.colNo + 1 } with
      commentLine := ((addWarning wxJSONREADER_ALLOW_COMMENTS commentWarnText
        { st with input := body ++ 42 :: 47 :: r0 :: rrest, colNo := st.colNo + 1 }).lineNo : Int)
      , input := r0 :: rrest
      , colNo := (addWarning wxJSONREADER_ALLOW_COMMENTS commentWarnText
          { st with input := body ++ 42 :: 47 :: r0 :: rrest, colNo := st.colNo + 1 }).colNo
          + body.length + 2 }
    r0 rrest rfl hr10 hr13
  rw [hr2]
  simp [Prod.mk.injEq]
  omega

end WxJSON

namespace WxJSON

/-- Claim C2 counterexample: for the C++-style comment `//abc` (the engine has
consumed the first slash before calling `SkipComment`, so the reader state
starts at the second slash) the accumulated comment text is `///abc` - the
initial two-byte `//` buffer plus the already-read second slash plus the body -
and not `//` followed by the body `abc` as the claim states. -/
theorem claim2_counterexample :
    (skipComment 20
      { flags := 15, maxErrors := 30, input := [47, 97, 98, 99, 10, 88], lineNo := 1
      , colNo := 2, level := 0, depth := 0, errors := [], warnings := []
      , comment := [], commentLine := 0 }).2.comment = [47, 47, 47, 97, 98, 99] ∧
    [47, 47, 47, 97, 98, 99] ≠ [47, 47] ++ [97, 98, 99] :=
  ⟨rfl, by decide⟩

/-- Claim C2 as amended. C++-style branch: the second slash has already been
read when the accumulation loop starts, so the text is `///` plus the body (not
`//` plus the body); the loop consumes through the LF or CR+LF, the start line
is recorded in `m_commentLine` and the ALLOW_COMMENTS warning is emitted.
C-style branch: the loop peeks the first body byte and appends it both before
and after reading it, so the text is `/*`, the first body byte twice, the rest
of the body, and `*/`; it does start with `/*` and end with `*/` as claimed;
one character past the closing slash is read and returned. Stray branch (shown
on the concrete input `/x\nJ`): any other byte after the initial slash emits
the stray-slash error, leaves the comment buffer untouched, and discards input
through the newline. -/
theorem claim2_amended :
    (∀ (body nl rest : List Nat) (fuel : Nat) (st : RState),
      st.input = 47 :: (body ++ nl ++ rest) →
      (nl = [10] ∨ nl = [13, 10]) →
      (∀ b ∈ body, b < 256 ∧ b ≠ 10 ∧ b ≠ 13) →
      body.length + 2 ≤ fuel →
      skipComment fuel st =
        (10, { st with input := rest
                     , lineNo := st.lineNo + 1
                     , colNo := 1
                     , commentLine := (st.lineNo : Int)
                     , comment := 47 :: 47 :: 47 :: body
                     , errors := (addWarning wxJSONREADER_ALLOW_COMMENTS commentWarnText
                         { st with input := body ++ nl ++ rest, colNo := st.colNo + 1 }).errors
                     , warnings := (addWarning wxJSONREADER_ALLOW_COMMENTS commentWarnText
                         { st with input := body ++ nl ++ rest, colNo := st.colNo + 1 }).warnings })) ∧
    (∀ (body : List Nat) (r0 : Nat) (rrest : List Nat) (fuel : Nat) (st : RState),
      st.input = 42 :: (body ++ 42 :: 47 :: r0 :: rrest) →
      r0 < 256 → r0 ≠ 10 → r0 ≠ 13 →
      (∀ b ∈ body, b < 256 ∧ b ≠ 10 ∧ b ≠ 13 ∧ b ≠ 42 ∧ b ≠ 47) →
      body.length + 4 ≤ fuel →
      skipComment fuel st =
        ((r0 : Int),
         { st with input := rrest
                 , colNo := st.colNo + body.length + 4
                 , commentLine := (st.lineNo : Int)
                 , comment := 47 :: 42 :: (body.headD 42) :: (body ++ [42, 47])
                 , errors := (addWarning wxJSONREADER_ALLOW_COMMENTS commentWarnText
                     { st with input := body ++ 42 :: 47 :: r0 :: rrest, colNo := st.colNo + 1 }).errors
                 , warnings := (addWarning wxJSONREADER_ALLOW_COMMENTS commentWarnText
                     { st with input := body ++ 42 :: 47 :: r0 :: rrest, colNo := st.colNo + 1 }).warnings })) ∧
    ((skipComment 20
        { flags := 15, maxErrors := 30, input := [120, 10, 74], lineNo := 1
        , colNo := 2, level := 0, depth := 0, errors := [], warnings := []
        , comment := [], commentLine := 0 }).1 = 74 ∧
     (skipComment 20
        { flags := 15, maxErrors := 30, input := [120, 10, 74], lineNo := 1
        , colNo := 2, level := 0, depth := 0, errors := [], warnings := []
        , comment := [], commentLine := 0 }).2.errors = [formatError 1 3 msgStraySlash] ∧
     (skipComment 20
        { flags := 15, maxErrors := 30, input := [120, 10, 74], lineNo := 1
        , colNo := 2, level := 0, depth := 0, errors := [], warnings := []
        , comment := [], commentLine := 0 }).2.comment = []) := by
  refine ⟨?_, ?_, rfl, rfl, rfl⟩
  · intro body nl rest fuel st hin hnl hb hf
    exact skipComment_line body nl rest fuel st hin hnl hb hf
  · intro body r0 rrest fuel st hin h256 h10 h13 hb hf
    exact skipComment_block body r0 rrest fuel st hin h256 h10 h13 hb hf

/-- Concrete run of the amended C2 statement: the C++-style comment `//ab`
terminated by a LF, starting from the byte after the first slash. -/
theorem claim2_witness :
    (skipComment 8
      { flags := 15, maxErrors := 30, input := [47, 97, 98, 10, 88], lineNo := 1
      , colNo := 2, level := 0, depth := 0, errors := [], warnings := []
      , comment := [], commentLine := 0 }).2.comment = [47, 47, 47, 97, 98] := by
  rw [claim2_amended.1 [97, 98] [10] [88] 8
    { flags := 15, maxErrors := 30, input := [47, 97, 98, 10, 88], lineNo := 1
    , colNo := 2, level := 0, depth := 0, errors := [], warnings := []
    , comment := [], commentLine := 0 } rfl (Or.inl rfl) (by decide) (by decide)]

end WxJSON

namespace WxJSON

/-- `AddError` preserves the diagnostic-list bound. -/
theorem addError_bound (m : String) (st : RState) (h : DiagBound st) :
    DiagBound (addError m st) := by
  obtain ⟨h1, h2, h3, h4⟩ := h
  unfold addError DiagBound
  dsimp only
  split_ifs with hc1 hc2
  · refine ⟨by simp; omega, ?_, by simpa using h3, by simpa using h4⟩
    intro hlen
    simp at hlen
    omega
  · refine ⟨by simp; omega, ?_, by simpa using h3, by simpa using h4⟩
    intro _
    simp
  · exact ⟨h1, h2, h3, h4⟩

/-- `AddWarning` preserves the diagnostic-list bound. -/
theorem addWarning_bound (k : Nat) (m : String) (st : RState) (h : DiagBound st) :
    DiagBound (addWarning k m st) := by
  unfold addWarning
  dsimp only
  split_ifs with hc1 hc2 hc3
  · exact addError_bound m st h
  · obtain ⟨h1, h2, h3, h4⟩ := h
    refine ⟨by simpa using h1, by simpa using h2, by simp; omega, ?_⟩
    intro hlen
    simp at hlen
    omega
  · obtain ⟨h1, h2, h3, h4⟩ := h
    refine ⟨by simpa using h1, by simpa using h2, by simp; omega, ?_⟩
    intro _
    simp
  · exact h

/-- Any sequence of diagnostic calls preserves the bound. -/
theorem diagSteps_bound : ∀ (cs : List DiagCall) (st : RState), DiagBound st →
    DiagBound (cs.foldl diagStep st)
  | [], _, h => h
  | c :: cs, st, h => by
    have hstep : DiagBound (diagStep st c) := by
      cases c with
      | err m => exact addError_bound m st h
      | warn k m => exact addWarning_bound k m st h
    simpa using diagSteps_bound cs (diagStep st c) hstep

end WxJSON

namespace WxJSON

/-- Claim C6 counterexample: the input `[}` under strict flags parses with
exactly one recorded error - neither empty nor at the `max_errors + 1` bound -
and its last entry is a close-mismatch message, not the overflow sentinel. -/
theorem claim6_counterexample :
    (parse 0 30 [91, 125] none).errors = [formatError 1 3 msgCloseArrayWithBrace] ∧
    (parse 0 30 [91, 125] none).errors.length = 1 ∧
    (parse 0 30 [91, 125] none).errors.getLast? ≠ some errorSentinel ∧
    (parse 0 30 [91, 125] none).errors ≠ [] ∧
    (parse 0 30 [91, 125] none).errors.length ≠ 30 + 1 :=
  ⟨rfl, rfl, by decide, by decide, by decide⟩

/-- Claim C6 as amended: the routing and bound parts of the claim hold - a
warning whose `kind` bit is absent from the flags is recorded through
`AddError`; otherwise it is formatted `Warning: line L, col C - <msg>` and
appended while the warning list is below `max_errors`, the sentinel is
appended exactly at the bound, and later messages are dropped (`AddError`
behaves the same on the error list); consequently every sequence of diagnostic
calls keeps both lists no longer than `max_errors + 1` with the sentinel last
exactly when that length is reached, and the freshly reset reader state
satisfies that bound. The claim\x27s final clause is replaced: after a parse the
error list need not be empty or sentinel-terminated (see the counterexample);
it only respects the bound. -/
theorem claim6_amended :
    (∀ (k : Nat) (m : String) (st : RState), k ≠ 0 → k &&& st.flags = 0 →
      addWarning k m st = addError m st) ∧
    (∀ (k : Nat) (m : String) (st : RState), k = 0 ∨ k &&& st.flags ≠ 0 →
      (addWarning k m st).errors = st.errors ∧
      (st.warnings.length < st.maxErrors →
        (addWarning k m st).warnings =
          st.warnings ++ [formatWarning st.lineNo st.colNo m]) ∧
      (st.warnings.length = st.maxErrors →
        (addWarning k m st).warnings = st.warnings ++ [warningSentinel]) ∧
      (st.maxErrors < st.warnings.length →
        (addWarning k m st).warnings = st.warnings)) ∧
    (∀ (m : String) (st : RState),
      (addError m st).warnings = st.warnings ∧
      (st.errors.length < st.maxErrors →
        (addError m st).errors = st.errors ++ [formatError st.lineNo st.colNo m]) ∧
      (st.errors.length = st.maxErrors →
        (addError m st).errors = st.errors ++ [errorSentinel]) ∧
      (st.maxErrors < st.errors.length →
        (addError m st).errors = st.errors)) ∧
    (∀ (cs : List DiagCall) (st : RState), DiagBound st →
      DiagBound (cs.foldl diagStep st)) ∧
    (∀ (flags maxErrors : Nat) (input : List Nat),
      DiagBound (initState flags maxErrors input)) := by
  refine ⟨?_, ?_, ?_, diagSteps_bound, ?_⟩
  · intro k m st hk hflag
    unfold addWarning
    rw [if_pos]
    simp [hk, hflag]
  · intro k m st hor
    have hcond : ¬(k ≠ 0 && k &&& st.flags = 0) = true := by
      rcases hor with h | h <;> simp [h]
    unfold addWarning
    dsimp only
    rw [if_neg hcond]
    refine ⟨?_, ?_, ?_, ?_⟩
    · split_ifs <;> rfl
    · intro hlt
      rw [if_pos hlt]
    · intro heq
      rw [if_neg (by omega), if_pos heq]
    · intro hgt
      rw [if_neg (by omega), if_neg (by omega)]
  · intro m st
    unfold addError
    dsimp only
    refine ⟨?_, ?_, ?_, ?_⟩
    · split_ifs <;> rfl
    · intro hlt
      rw [if_pos hlt]
    · intro heq
      rw [if_neg (by omega), if_pos heq]
    · intro hgt
      rw [if_neg (by omega), if_neg (by omega)]
  · intro flags maxErrors input
    refine ⟨by simp [initState], by simp [initState], by simp [initState],
      by simp [initState]⟩

/-- Concrete run of the amended C6 statement: a MISSING-kind warning under
strict flags is routed to the error list, and three error calls against
`max_errors = 2` append two formatted messages, then the sentinel, then drop. -/
theorem claim6_witness :
    addWarning 4 "m"
      { flags := 0, maxErrors := 2, input := [], lineNo := 1, colNo := 1, level := 0
      , depth := 0, errors := [], warnings := [], comment := [], commentLine := 0 } =
    addError "m"
      { flags := 0, maxErrors := 2, input := [], lineNo := 1, colNo := 1, level := 0
      , depth := 0, errors := [], warnings := [], comment := [], commentLine := 0 } ∧
    DiagBound ([DiagCall.err "a", DiagCall.err "b", DiagCall.err "c",
        DiagCall.err "d"].foldl diagStep
      { flags := 0, maxErrors := 2, input := [], lineNo := 1, colNo := 1, level := 0
      , depth := 0, errors := [], warnings := [], comment := [], commentLine := 0 }) := by
  constructor
  · exact claim6_amended.1 4 "m"
      { flags := 0, maxErrors := 2, input := [], lineNo := 1, colNo := 1, level := 0
      , depth := 0, errors := [], warnings := [], comment := [], commentLine := 0 }
      (by decide) (by decide)
  · exact claim6_amended.2.2.2.1
      [DiagCall.err "a", DiagCall.err "b", DiagCall.err "c", DiagCall.err "d"]
      { flags := 0, maxErrors := 2, input := [], lineNo := 1, colNo := 1, level := 0
      , depth := 0, errors := [], warnings := [], comment := [], commentLine := 0 }
      (claim6_amended.2.2.2.2 0 2 [])

end WxJSON

namespace WxJSON

/-- `AddComment` does not change the payload. -/
@[simp] theorem JValue.data_addComment (v : JValue) (t : List Nat) (p : CommentPos) :
    (v.addComment t p).data = v.data := by
  cases v
  rfl

/-- With the warning kind present in the flags, `AddWarning` leaves the error
list alone. -/
theorem addWarning_errors_keep (k : Nat) (m : String) (st : RState)
    (h : k &&& st.flags ≠ 0) :
    (addWarning k m st).errors = st.errors := by
  unfold addWarning
  rw [if_neg (by simp [h])]
  dsimp only
  split_ifs <;> rfl

/-- One-step equation of `GetStart`. -/
theorem getStart_succ (f : Nat) (st : RState) (root : JValue) (ch : Int) :
    getStart (f + 1) st root ch =
      if ch < 0 then (ch, st, root)
      else if ch = 123 || ch = 91 then (ch, st, root)
      else if ch = 47 then
        (let sc := skipComment f st
         let sr := storeCommentRoot sc.2 root
         getStart f sr.1 sr.2 sc.1)
      else
        (let r := readChar st
         getStart f r.2 root r.1) := by
  conv_lhs => rw [getStart]

/-- `GetStart` returns a negative character unchanged. -/
theorem getStart_neg (fuel : Nat) (st : RState) (root : JValue) (ch : Int)
    (hch : ch < 0) (hf : 1 ≤ fuel) :
    getStart fuel st root ch = (ch, st, root) := by
  match fuel, hf with
  | f + 1, _ =>
    rw [getStart_succ, if_pos hch]

/-- The line-comment loop on a stream that ends inside the comment: the whole
remaining body is consumed and appended, then EOF is returned. -/
theorem lineCommentLoop_eof :
    ∀ (body : List Nat) (fuel : Nat) (st : RState) (ch : Int) (buf : List Nat),
      st.input = body →
      (∀ b ∈ body, b < 256 ∧ b ≠ 10 ∧ b ≠ 13) →
      0 ≤ ch → ch ≠ 10 → ch ≠ 13 →
      body.length + 2 ≤ fuel →
      lineCommentLoop fuel st ch buf =
        (-1, { st with input := [], colNo := st.colNo + body.length },
         buf ++ byteOf ch :: body) := by
  intro body
  induction body with
  | nil =>
    intro fuel st ch buf hin hb hch h10 h13 hf
    match fuel, hf with
    | f + 2, _ =>
      rw [lineCommentLoop_succ, if_neg (by omega), if_neg h10, if_neg h13]
      dsimp only
      rw [readChar_nil hin]
      rw [lineCommentLoop_succ, if_pos (by norm_num)]
      obtain ⟨fl, me, inp, ln, cn, lv, dp, er, wa, cm, cl⟩ := st
      simp only at hin
      subst hin
      simp
  | cons b body ih =>
    intro fuel st ch buf hin hb hch h10 h13 hf
    match fuel, hf with
    | f + 1, hf2 =>
      have hbb := hb b (by simp)
      have hread : readChar st =
          ((b : Int), { st with input := body, colNo := st.colNo + 1 }) :=
        readChar_other (by simpa using hin) hbb.2.1 hbb.2.2
      rw [lineCommentLoop_succ, if_neg (by omega), if_neg h10, if_neg h13]
      dsimp only
      rw [hread]
      have hstep := ih f { st with input := body, colNo := st.colNo + 1 }
        ((b : Int)) (buf ++ [byteOf ch]) rfl
        (fun x hx => hb x (by simp [hx])) (Int.natCast_nonneg b)
        (by exact_mod_cast hbb.2.1) (by exact_mod_cast hbb.2.2)
        (by simp at hf2; omega)
      have hcol : st.colNo + 1 + body.length = st.colNo + (body.length + 1) := by
        omega
      rw [hstep, byteOf_byte hbb.1]
      simp only [List.length_cons]
      rw [hcol]
      simp

/-- `SkipComment` on a C++-style comment that runs to end of stream: the text
is `///` plus the body, the stream is exhausted and EOF is returned. -/
theorem skipComment_line_eof (body : List Nat) (fuel : Nat) (st : RState)
    (hin : st.input = 47 :: body)
    (hb : ∀ b ∈ body, b < 256 ∧ b ≠ 10 ∧ b ≠ 13)
    (hf : body.length + 2 ≤ fuel) :
    skipComment fuel st =
      (-1,
       { st with input := []
               , colNo := st.colNo + 1 + body.length
               , commentLine := (st.lineNo : Int)
               , comment := 47 :: 47 :: 47 :: body
               , errors := (addWarning wxJSONREADER_ALLOW_COMMENTS commentWarnText
                   { st with input := body, colNo := st.colNo + 1 }).errors
               , warnings := (addWarning wxJSONREADER_ALLOW_COMMENTS commentWarnText
                   { st with input := body, colNo := st.colNo + 1 }).warnings }) := by
  have hread : readChar st =
      ((47 : Int), { st with input := body, colNo := st.colNo + 1 }) := by
    have := readChar_other (b := 47) (r := body)
      (by simpa using hin) (by omega) (by omega)
    simpa using this
  unfold skipComment
  rw [hread]
  dsimp only
  rw [if_neg (by norm_num), if_pos rfl]
  have hspec := lineCommentLoop_eof body fuel
    { addWarning wxJSONREADER_ALLOW_COMMENTS commentWarnText
        { st with input := body, colNo := st.colNo + 1 } with
      commentLine := ((addWarning wxJSONREADER_ALLOW_COMMENTS commentWarnText
        { st with input := body, colNo := st.colNo + 1 }).lineNo : Int) }
    47 [47, 47] (by simp) hb (by norm_num) (by norm_num) (by norm_num) hf
  rw [hspec]
  have h47 : byteOf 47 = 47 := by decide
  simp [Prod.mk.injEq, h47]

/-- `SkipComment` on a C-style comment, with the character read after the
closing star-slash left symbolic: everything up to and including the `*/` is
consumed, the comment text is `/*`, the first body byte twice, the rest of the
body and `*/`, and the result is the read of the remaining stream. -/
theorem skipComment_block_gen (body rest : List Nat) (fuel : Nat) (st : RState)
    (hin : st.input = 42 :: (body ++ 42 :: 47 :: rest))
    (hb : ∀ b ∈ body, b < 256 ∧ b ≠ 10 ∧ b ≠ 13 ∧ b ≠ 42 ∧ b ≠ 47)
    (hf : body.length + 4 ≤ fuel) :
    skipComment fuel st =
      ((readChar
          { flags := st.flags, maxErrors := st.maxErrors, input := rest, lineNo := st.lineNo
          , colNo := st.colNo + 1 + body.length + 2, level := st.level, depth := st.depth
          , errors := (addWarning wxJSONREADER_ALLOW_COMMENTS commentWarnText
              { st with input := body ++ 42 :: 47 :: rest, colNo := st.colNo + 1 }).errors
          , warnings := (addWarning wxJSONREADER_ALLOW_COMMENTS commentWarnText
              { st with input := body ++ 42 :: 47 :: rest, colNo := st.colNo + 1 }).warnings
          , comment := st.comment, commentLine := (st.lineNo : Int) }).1,
       { (readChar
          { flags := st.flags, maxErrors := st.maxErrors, input := rest, lineNo := st.lineNo
          , colNo := st.colNo + 1 + body.length + 2, level := st.level, depth := st.depth
          , errors := (addWarning wxJSONREADER_ALLOW_COMMENTS commentWarnText
              { st with input := body ++ 42 :: 47 :: rest, colNo := st.colNo + 1 }).errors
          , warnings := (addWarning wxJSONREADER_ALLOW_COMMENTS commentWarnText
              { st with input := body ++ 42 :: 47 :: rest, colNo := st.colNo + 1 }).warnings
          , comment := st.comment, commentLine := (st.lineNo : Int) }).2 with
         comment := 47 :: 42 :: (body.headD 42) :: (body ++ [42, 47]) }) := by
  have hread : readChar st =
      ((42 : Int), { st with input := body ++ 42 :: 47 :: rest, colNo := st.colNo + 1 }) := by
    have := readChar_other (b := 42) (r := body ++ 42 :: 47 :: rest)
      (by simpa using hin) (by omega) (by omega)
    simpa using this
  unfold skipComment
  rw [hread]
  dsimp only
  rw [if_neg (by norm_num), if_neg (by norm_num), if_pos rfl]
  have hstar := blockCommentLoop_star body fuel
    { addWarning wxJSONREADER_ALLOW_COMMENTS commentWarnText
        { st with input := body ++ 42 :: 47 :: rest, colNo := st.colNo + 1 } with
      commentLine := ((addWarning wxJSONREADER_ALLOW_COMMENTS commentWarnText
        { st with input := body ++ 42 :: 47 :: rest, colNo := st.colNo + 1 }).lineNo : Int) }
    [47, 42] rest (by simp) hb hf
  rw [hstar]
  dsimp only
  simp only [addWarning_flags, addWarning_maxErrors, addWarning_input, addWarning_lineNo,
    addWarning_colNo, addWarning_level, addWarning_depth, addWarning_comment,
    addWarning_commentLine]
  simp

end WxJSON

namespace WxJSON

/-- Inversion of the line-comment input class: the tail after `//` is either a
plain body closed by LF or CR+LF followed by a classed remainder, or a plain
body running to end of stream. -/
theorem preScan_line_inv :
    ∀ (l : List Nat), preScan .line l = true → (∀ b ∈ l, b < 256) →
      (∃ body nl rest, l = body ++ nl ++ rest ∧ (nl = [10] ∨ nl = [13, 10]) ∧
        (∀ b ∈ body, b < 256 ∧ b ≠ 10 ∧ b ≠ 13) ∧ preScan .top rest = true) ∨
      (∀ b ∈ l, b < 256 ∧ b ≠ 10 ∧ b ≠ 13) := by
  intro l
  induction l with
  | nil =>
    intro _ _
    right
    simp
  | cons b r ih =>
    intro hsc hby
    rw [preScan] at hsc
    by_cases hb10 : b = 10
    · subst hb10
      rw [if_pos rfl] at hsc
      exact Or.inl ⟨[], [10], r, by simp, Or.inl rfl, by simp, hsc⟩
    · rw [if_neg hb10] at hsc
      by_cases hb13 : b = 13
      · subst hb13
        rw [if_pos rfl] at hsc
        cases r with
        | nil =>
          rw [preScan] at hsc
          exact absurd hsc (by simp)
        | cons b2 r2 =>
          rw [preScan] at hsc
          by_cases hb2 : b2 = 10
          · subst hb2
            rw [if_pos rfl] at hsc
            exact Or.inl ⟨[], [13, 10], r2, by simp, Or.inr rfl, by simp, hsc⟩
          · rw [if_neg hb2] at hsc
            exact absurd hsc (by simp)
      · rw [if_neg hb13] at hsc
        rcases ih hsc (fun x hx => hby x (by simp [hx])) with
          ⟨body, nl, rest, h1, h2, h3, h4⟩ | hplain
        · refine Or.inl ⟨b :: body, nl, rest, by simp [h1], h2, ?_, h4⟩
          intro x hx
          rcases List.mem_cons.mp hx with rfl | hx2
          · exact ⟨hby x (by simp), hb10, hb13⟩
          · exact h3 x hx2
        · refine Or.inr ?_
          intro x hx
          rcases List.mem_cons.mp hx with rfl | hx2
          · exact ⟨hby x (by simp), hb10, hb13⟩
          · exact hplain x hx2

end WxJSON

namespace WxJSON

/-- When STORE_COMMENTS is clear or COMMENTS_AFTER is clear, the root-level
`StoreComment` call made by `GetStart` never emits a diagnostic (its `next` is
the root, which is never null) and never changes the payloads; it only clears
the pending comment and possibly attaches it to the root. -/
theorem storeCommentRoot_safe (st : RState) (root : JValue)
    (h : st.flags &&& wxJSONREADER_STORE_COMMENTS = 0 ∨
      st.flags &&& wxJSONREADER_COMMENTS_AFTER = 0) :
    (storeCommentRoot st root).1.errors = st.errors ∧
    (storeCommentRoot st root).1.warnings = st.warnings ∧
    (storeCommentRoot st root).1.input = st.input ∧
    (storeCommentRoot st root).1.lineNo = st.lineNo ∧
    (storeCommentRoot st root).1.colNo = st.colNo ∧
    (storeCommentRoot st root).1.flags = st.flags ∧
    (storeCommentRoot st root).1.maxErrors = st.maxErrors ∧
    (storeCommentRoot st root).2.data = root.data := by
  unfold storeCommentRoot storeCommentAction
  dsimp only
  by_cases h1 : st.flags &&& wxJSONREADER_STORE_COMMENTS = 0
  · rw [if_pos h1]
    simp
  · rw [if_neg h1, if_neg (by simp)]
    by_cases h3 : (some root.lineNo : Option Int) = some st.commentLine
    · rw [if_pos h3]
      simp
    · rw [if_neg h3, if_neg (by simp)]
      have h2 : st.flags &&& wxJSONREADER_COMMENTS_AFTER = 0 := by
        rcases h with h | h
        · exact absurd h h1
        · exact h
      rw [if_neg (by simp [h2])]
      simp

end WxJSON

namespace WxJSON

/-- `ReadChar` on a CR followed by a non-LF byte: the CR branch resets the
column, then the shared increment leaves column 2. -/
theorem readChar_cr {st : RState} {b : Nat} {r : List Nat} (h : st.input = 13 :: b :: r)
    (hb : b ≠ 10) :
    readChar st = (13, { st with input := b :: r, colNo := 2 }) := by
  obtain ⟨fl, me, input, ln, cn, lv, dp, er, wa, cm, cl⟩ := st
  simp only at h
  subst h
  simp [readChar, hb]

/-- `ReadChar` on a CR that ends the stream returns EOF. -/
theorem readChar_cr_eof {st : RState} (h : st.input = [13]) :
    readChar st = (-1, { st with input := [], colNo := 1 }) := by
  obtain ⟨fl, me, input, ln, cn, lv, dp, er, wa, cm, cl⟩ := st
  simp only at h
  subst h
  simp [readChar]

/-- One `ReadChar` on a classed input: the result is EOF, or a byte that is
not a start character, with the class and the byte bound maintained and the
input strictly shorter. -/
theorem readClassStep (Y : RState) (hclass : preScan .top Y.input = true)
    (hby : ∀ b ∈ Y.input, b < 256) :
    ((readChar Y).1 < 0 ∨
     (0 ≤ (readChar Y).1 ∧ (readChar Y).1 ≠ 123 ∧ (readChar Y).1 ≠ 91 ∧
      (if (readChar Y).1 = 47 then preScan .top (47 :: (readChar Y).2.input) = true
       else preScan .top (readChar Y).2.input = true) ∧
      (readChar Y).2.input.length + 1 ≤ Y.input.length)) ∧
    (∀ b ∈ (readChar Y).2.input, b < 256) ∧
    (readChar Y).2.input.length ≤ Y.input.length ∧
    (readChar Y).2.errors = Y.errors ∧
    (readChar Y).2.flags = Y.flags := by
  cases hin : Y.input with
  | nil =>
    rw [readChar_nil hin]
    exact ⟨Or.inl (by norm_num), by simp [hin], by simp [hin], rfl, rfl⟩
  | cons b r =>
    by_cases hb13 : b = 13
    · subst hb13
      cases hr : r with
      | nil =>
        rw [hr] at hin
        rw [readChar_cr_eof hin]
        exact ⟨Or.inl (by norm_num), by simp, by simp [hin], rfl, rfl⟩
      | cons b2 r2 =>
        rw [hr] at hin
        rw [hin] at hclass
        rw [preScan] at hclass
        norm_num at hclass
        by_cases hb2 : b2 = 10
        · subst hb2
          rw [readChar_crlf hin]
          rw [preScan] at hclass
          norm_num at hclass
          refine ⟨Or.inr ⟨by norm_num, by norm_num, by norm_num, ?_, ?_⟩, ?_, ?_, rfl, rfl⟩
          · rw [if_neg (by norm_num)]
            exact hclass
          · simp [hin]
          · intro x hx
            exact hby x (by rw [hin]; simp [hx])
          · simp [hin]
            omega
        · rw [readChar_cr hin hb2]
          rw [preScan] at hclass
          refine ⟨Or.inr ⟨by norm_num, by norm_num, by norm_num, ?_, ?_⟩, ?_, ?_, rfl, rfl⟩
          · rw [if_neg (by norm_num)]
            dsimp only
            rw [preScan]
            exact hclass
          · simp [hin]
          · intro x hx
            exact hby x (by rw [hin]; simp at hx ⊢; tauto)
          · simp [hin]
    · by_cases hb10 : b = 10
      · subst hb10
        rw [readChar_lf hin]
        rw [hin] at hclass
        rw [preScan] at hclass
        norm_num at hclass
        refine ⟨Or.inr ⟨by norm_num, by norm_num, by norm_num, ?_, ?_⟩, ?_, ?_, rfl, rfl⟩
        · rw [if_neg (by norm_num)]
          exact hclass
        · simp [hin]
        · intro x hx
          exact hby x (by rw [hin]; simp [hx])
        · simp [hin]
      · rw [readChar_other hin hb10 hb13]
        dsimp only
        rw [hin] at hclass
        rw [preScan] at hclass
        have hno : ¬(b = 123 || b = 91) = true := by
          intro hcontra
          rw [if_pos hcontra] at hclass
          exact Bool.false_ne_true hclass
        rw [if_neg hno] at hclass
        simp only [Bool.or_eq_true, decide_eq_true_eq, not_or] at hno
        refine ⟨Or.inr ⟨Int.natCast_nonneg b, by exact_mod_cast hno.1,
          by exact_mod_cast hno.2, ?_, ?_⟩, ?_, ?_, rfl, rfl⟩
        · by_cases hb47 : b = 47
          · subst hb47
            rw [if_pos (by norm_num)]
            rw [preScan]
            norm_num
            rw [if_pos rfl] at hclass
            exact hclass
          · rw [if_neg (by exact_mod_cast hb47)]
            rw [if_neg hb47] at hclass
            exact hclass
        · simp [hin]
        · intro x hx
          exact hby x (by rw [hin]; simp [hx])
        · simp [hin]

end WxJSON

namespace WxJSON

/-- The block-comment loop on a negative (end-of-stream) character stops at
once. -/
theorem blockCommentLoop_neg (f : Nat) (st : RState) (ch : Int) (buf : List Nat)
    (hch : ch < 0) (hf : 1 ≤ f) :
    blockCommentLoop f st ch buf = (ch, st, buf) := by
  match f, hf with
  | f + 1, _ =>
    rw [blockCommentLoop_succ, if_pos hch]

/-- The block-comment loop at end of stream: the pending character is appended
(after a peek in the star case), the read returns EOF and the loop stops with
the state unchanged - an unclosed block comment is silently terminated by the
end of the stream. -/
theorem blockCommentLoop_eofInput (f : Nat) (st : RState) (ch : Int) (buf : List Nat)
    (hinp : st.input = []) (hch : 0 ≤ ch) (hf : 2 ≤ f) :
    (blockCommentLoop f st ch buf).1 = -1 ∧
    (blockCommentLoop f st ch buf).2.1 = st := by
  match f, hf with
  | f + 2, _ =>
    have hpeek : peekChar st = -1 := by simp [peekChar, hinp]
    rw [blockCommentLoop_succ, if_neg (by omega)]
    by_cases h42 : ch = 42
    · rw [if_pos h42]
      dsimp only
      rw [hpeek]
      rw [if_neg (by norm_num)]
      rw [readChar_nil hinp]
      dsimp only
      rw [blockCommentLoop_succ, if_pos (by norm_num)]
      exact ⟨rfl, rfl⟩
    · rw [if_neg h42]
      dsimp only
      rw [readChar_nil hinp]
      dsimp only
      rw [blockCommentLoop_succ, if_pos (by norm_num)]
      exact ⟨rfl, rfl⟩

/-- One `ReadChar` inside a block-comment body: the result is EOF, or a byte
after which the body class continues (after-star mode on a star, plain mode
otherwise), with the byte bound maintained, the input strictly shorter and the
diagnostics and flags untouched. -/
theorem readBlockStep (Y : RState) (hclass : preScan .block Y.input = true)
    (hby : ∀ b ∈ Y.input, b < 256) :
    ((readChar Y).1 < 0 ∨
     (0 ≤ (readChar Y).1 ∧
      (if (readChar Y).1 = 42 then preScan .blockStar (readChar Y).2.input = true
       else preScan .block (readChar Y).2.input = true) ∧
      (readChar Y).2.input.length + 1 ≤ Y.input.length)) ∧
    (∀ b ∈ (readChar Y).2.input, b < 256) ∧
    (readChar Y).2.input.length ≤ Y.input.length ∧
    (readChar Y).2.errors = Y.errors ∧
    (readChar Y).2.flags = Y.flags := by
  cases hin : Y.input with
  | nil =>
    rw [readChar_nil hin]
    exact ⟨Or.inl (by norm_num), by simp [hin], by simp [hin], rfl, rfl⟩
  | cons b r =>
    by_cases hb13 : b = 13
    · subst hb13
      cases hr : r with
      | nil =>
        rw [hr] at hin
        rw [readChar_cr_eof hin]
        exact ⟨Or.inl (by norm_num), by simp, by simp [hin], rfl, rfl⟩
      | cons b2 r2 =>
        rw [hr] at hin
        rw [hin] at hclass
        rw [preScan] at hclass
        rw [if_neg (by norm_num)] at hclass
        by_cases hb2 : b2 = 10
        · subst hb2
          rw [readChar_crlf hin]
          rw [preScan] at hclass
          rw [if_neg (by norm_num)] at hclass
          refine ⟨Or.inr ⟨by norm_num, ?_, ?_⟩, ?_, ?_, rfl, rfl⟩
          · rw [if_neg (by norm_num)]
            exact hclass
          · simp [hin]
          · intro x hx
            exact hby x (by rw [hin]; simp [hx])
          · simp [hin]
            omega
        · rw [readChar_cr hin hb2]
          refine ⟨Or.inr ⟨by norm_num, ?_, ?_⟩, ?_, ?_, rfl, rfl⟩
          · rw [if_neg (by norm_num)]
            exact hclass
          · simp [hin]
          · intro x hx
            exact hby x (by rw [hin]; simp at hx ⊢; tauto)
          · simp [hin]
    · by_cases hb10 : b = 10
      · subst hb10
        rw [readChar_lf hin]
        rw [hin] at hclass
        rw [preScan] at hclass
        rw [if_neg (by norm_num)] at hclass
        refine ⟨Or.inr ⟨by norm_num, ?_, ?_⟩, ?_, ?_, rfl, rfl⟩
        · rw [if_neg (by norm_num)]
          exact hclass
        · simp [hin]
        · intro x hx
          exact hby x (by rw [hin]; simp [hx])
        · simp [hin]
      · rw [readChar_other hin hb10 hb13]
        dsimp only
        rw [hin] at hclass
        rw [preScan] at hclass
        by_cases hb42 : b = 42
        · rw [if_pos hb42] at hclass
          refine ⟨Or.inr ⟨Int.natCast_nonneg b, ?_, ?_⟩, ?_, ?_, rfl, rfl⟩
          · rw [if_pos (by exact_mod_cast hb42)]
            exact hclass
          · simp [hin]
          · intro x hx
            exact hby x (by rw [hin]; simp [hx])
          · simp [hin]
        · rw [if_neg hb42] at hclass
          refine ⟨Or.inr ⟨Int.natCast_nonneg b, ?_, ?_⟩, ?_, ?_, rfl, rfl⟩
          · rw [if_neg (by exact_mod_cast hb42)]
            exact hclass
          · simp [hin]
          · intro x hx
            exact hby x (by rw [hin]; simp [hx])
          · simp [hin]

/-- Resume the block-comment body loop after one consumed character: EOF stops
the loop, any other classed body character continues it through the induction
hypothesis. -/
theorem blockLoopResume (n : Nat)
    (ih : ∀ (st : RState) (ch : Int) (buf : List Nat) (fuel : Nat),
      st.input.length ≤ n → BlockLoopOk st ch buf fuel)
    (st : RState) (buf2 : List Nat) (f : Nat)
    (hby : ∀ b ∈ st.input, b < 256)
    (hclass : preScan .block st.input = true)
    (hlen : st.input.length ≤ n + 1)
    (hfl : st.input.length + 1 ≤ f) :
    ((blockCommentLoop f (readChar st).2 (readChar st).1 buf2).1 < 0 ∨
     (0 ≤ (blockCommentLoop f (readChar st).2 (readChar st).1 buf2).1 ∧
      (blockCommentLoop f (readChar st).2 (readChar st).1 buf2).1 ≠ 123 ∧
      (blockCommentLoop f (readChar st).2 (readChar st).1 buf2).1 ≠ 91 ∧
      (if (blockCommentLoop f (readChar st).2 (readChar st).1 buf2).1 = 47 then
         preScan .top
           (47 :: (blockCommentLoop f (readChar st).2 (readChar st).1 buf2).2.1.input) = true
       else
         preScan .top
           (blockCommentLoop f (readChar st).2 (readChar st).1 buf2).2.1.input = true) ∧
      (blockCommentLoop f (readChar st).2 (readChar st).1 buf2).2.1.input.length + 1 ≤
        st.input.length)) ∧
    (∀ b ∈ (blockCommentLoop f (readChar st).2 (readChar st).1 buf2).2.1.input, b < 256) ∧
    (blockCommentLoop f (readChar st).2 (readChar st).1 buf2).2.1.input.length ≤
      st.input.length ∧
    (blockCommentLoop f (readChar st).2 (readChar st).1 buf2).2.1.errors = st.errors ∧
    (blockCommentLoop f (readChar st).2 (readChar st).1 buf2).2.1.flags = st.flags := by
  obtain ⟨hrcw, hrby, hrlen, hrE, hrF⟩ := readBlockStep st hclass hby
  rcases hrcw with hneg | ⟨ha, hif, hlen1⟩
  · rw [blockCommentLoop_neg f (readChar st).2 (readChar st).1 buf2 hneg (by omega)]
    exact ⟨Or.inl hneg, hrby, hrlen, hrE, hrF⟩
  · obtain ⟨hg1, hg2, hg3, hg4, hg5⟩ :=
      ih (readChar st).2 (readChar st).1 buf2 f (by omega) hrby ha hif (by omega)
    refine ⟨?_, hg2, by omega, hg4.trans hrE, hg5.trans hrF⟩
    rcases hg1 with hneg2 | ⟨ha2, hb2, hc2, hd2, he2⟩
    · exact Or.inl hneg2
    · exact Or.inr ⟨ha2, hb2, hc2, hd2, by omega⟩

/-- On any classed block-comment suffix, the body loop reaches end of stream
or the classed character after the closing star-slash, preserving the error
list and the flags. -/
theorem blockCommentLoop_class :
    ∀ (n : Nat) (st : RState) (ch : Int) (buf : List Nat) (fuel : Nat),
      st.input.length ≤ n → BlockLoopOk st ch buf fuel := by
  intro n
  induction n with
  | zero =>
    intro st ch buf fuel hlen hby hch hclass hf
    have hinp : st.input = [] := List.length_eq_zero.mp (Nat.le_zero.mp hlen)
    obtain ⟨he1, he2⟩ := blockCommentLoop_eofInput fuel st ch buf hinp hch
      (by rw [hinp] at hf; simpa using hf)
    refine ⟨Or.inl (by rw [he1]; norm_num), ?_, ?_, ?_, ?_⟩
    · rw [he2]
      exact hby
    · rw [he2]
    · rw [he2]
    · rw [he2]
  | succ n ih =>
    intro st ch buf fuel hlen hby hch hclass hf
    match fuel, hf with
    | f + 1, hf2 =>
      by_cases h42 : ch = 42
      · subst h42
        rw [if_pos rfl] at hclass
        cases hinp : st.input with
        | nil =>
          obtain ⟨he1, he2⟩ := blockCommentLoop_eofInput (f + 1) st 42 buf hinp
            (by norm_num) (by rw [hinp] at hf2; simp at hf2; omega)
          refine ⟨Or.inl (by rw [he1]; norm_num), ?_, ?_, ?_, ?_⟩
          · rw [he2]
            exact hby
          · rw [he2, hinp]
          · rw [he2]
          · rw [he2]
        | cons b r =>
          have hpeek : peekChar st = (b : Int) := by simp [peekChar, hinp]
          rw [blockCommentLoop_succ, if_neg (by norm_num), if_pos rfl]
          dsimp only
          rw [hpeek]
          by_cases hb47 : b = 47
          · subst hb47
            rw [if_pos (by norm_num)]
            dsimp only
            have hr1 : readChar st =
                ((47 : Int), { st with input := r, colNo := st.colNo + 1 }) := by
              have := readChar_other hinp (by omega) (by omega)
              simpa using this
            rw [hr1]
            dsimp only
            rw [hinp] at hclass
            rw [preScan] at hclass
            rw [if_pos rfl] at hclass
            obtain ⟨hrcw, hrby, hrlen, hrE, hrF⟩ :=
              readClassStep { st with input := r, colNo := st.colNo + 1 } hclass
                (fun x hx => hby x (by rw [hinp]; exact List.mem_cons_of_mem _ hx))
            refine ⟨?_, hrby, ?_, hrE, hrF⟩
            · rcases hrcw with hneg | ⟨ha, hg123, hg91, hgif, hlen1⟩
              · exact Or.inl hneg
              · refine Or.inr ⟨ha, hg123, hg91, hgif, ?_⟩
                dsimp only at hlen1
                simp only [List.length_cons]
                omega
            · dsimp only at hrlen
              simp only [List.length_cons]
              omega
          · rw [if_neg (by exact_mod_cast hb47)]
            have hclassB : preScan .block st.input = true := by
              rw [hinp] at hclass ⊢
              rw [preScan] at hclass
              rw [if_neg hb47] at hclass
              rw [preScan]
              by_cases hb42 : b = 42
              · rw [if_pos hb42] at hclass ⊢
                exact hclass
              · rw [if_neg hb42] at hclass ⊢
                exact hclass
            have hres := blockLoopResume n ih st (buf ++ [byteOf (b : Int)]) f hby hclassB
              hlen (by omega)
            rw [hinp] at hres
            exact hres
      · rw [if_neg h42] at hclass
        rw [blockCommentLoop_succ, if_neg (by omega), if_neg h42]
        dsimp only
        exact blockLoopResume n ih st _ f hby hclass hlen (by omega)

end WxJSON

namespace WxJSON

/-- Resume the no-start scan after one consumed character: EOF stops the scan,
any other classed character continues it through the induction hypothesis. -/
theorem getStartResume (n : Nat)
    (ih : ∀ (st : RState) (root : JValue) (ch : Int) (fuel : Nat),
      st.input.length ≤ n → NoStartAt st root ch fuel)
    (W : RState) (root : JValue) (c : Int) (fuel : Nat)
    (hbit : 1 &&& W.flags ≠ 0)
    (hflag : W.flags &&& wxJSONREADER_STORE_COMMENTS = 0 ∨
      W.flags &&& wxJSONREADER_COMMENTS_AFTER = 0)
    (hby : ∀ b ∈ W.input, b < 256)
    (hf1 : 1 ≤ fuel)
    (hcw : c < 0 ∨
      (0 ≤ c ∧ c ≠ 123 ∧ c ≠ 91 ∧
       (if c = 47 then preScan .top (47 :: W.input) = true
        else preScan .top W.input = true) ∧
       W.input.length ≤ n ∧ W.input.length + 4 ≤ fuel)) :
    (getStart fuel W root c).1 < 0 ∧
    (getStart fuel W root c).2.1.errors = W.errors ∧
    (getStart fuel W root c).2.2.data = root.data := by
  rcases hcw with hneg | ⟨h0, h123, h91, hcl, hlen, hfu⟩
  · rw [getStart_neg fuel W root c hneg hf1]
    exact ⟨hneg, rfl, rfl⟩
  · exact ih W root c fuel hlen hbit hflag hby h0 h123 h91 hcl hfu

end WxJSON

namespace WxJSON

/-- On any classed input (no start character outside comments), `GetStart`
reaches end of stream, emits no error and leaves the root payload alone. -/
theorem getStart_noStart :
    ∀ (n : Nat) (st : RState) (root : JValue) (ch : Int) (fuel : Nat),
      st.input.length ≤ n → NoStartAt st root ch fuel := by
  intro n
  induction n with
  | zero =>
    intro st root ch fuel hlen hbit hflag hby hch h123 h91 hclass hf
    have hinp : st.input = [] := List.length_eq_zero.mp (Nat.le_zero.mp hlen)
    by_cases h47 : ch = 47
    · rw [if_pos h47, hinp] at hclass
      simp [preScan] at hclass
    · match fuel, hf with
      | f + 1, hf2 =>
        rw [getStart_succ, if_neg (by omega), if_neg (by simp [h123, h91]), if_neg h47]
        dsimp only
        rw [readChar_nil hinp]
        dsimp only
        rw [getStart_neg f st root (-1) (by norm_num)
          (by rw [hinp] at hf2; simp at hf2; omega)]
        exact ⟨by norm_num, rfl, rfl⟩
  | succ n ih =>
    intro st root ch fuel hlen hbit hflag hby hch h123 h91 hclass hf
    match fuel, hf with
    | f + 1, hf2 =>
      by_cases h47 : ch = 47
      · rw [if_pos h47] at hclass
        rw [getStart_succ, if_neg (by omega), if_neg (by simp [h123, h91]), if_pos h47]
        dsimp only
        rw [preScan] at hclass
        norm_num at hclass
        cases hinp : st.input with
        | nil =>
          rw [hinp] at hclass
          simp [preScan] at hclass
        | cons b2 r2 =>
          rw [hinp] at hclass
          rw [preScan] at hclass
          have hbys : ∀ x ∈ r2, x < 256 := fun x hx =>
            hby x (by rw [hinp]; exact List.mem_cons_of_mem _ hx)
          by_cases hb2 : b2 = 47
          · subst hb2
            rw [if_pos rfl] at hclass
            rcases preScan_line_inv r2 hclass hbys with
              ⟨body, nl, rest, hr2, hnl, hbody, hrest⟩ | hplain
            · have hnll : nl.length = 1 ∨ nl.length = 2 := by
                rcases hnl with rfl | rfl <;> simp
              have hstlen : st.input.length = body.length + nl.length + rest.length + 1 := by
                rw [hinp, hr2]
                simp
                omega
              have hsc := skipComment_line body nl rest f st (by rw [hinp, hr2]) hnl hbody
                (by omega)
              have hsc1 : (skipComment f st).1 = 10 := by rw [hsc]
              have hscE : (skipComment f st).2.errors = st.errors := by
                rw [hsc]
                exact addWarning_errors_keep _ _ _ hbit
              have hscI : (skipComment f st).2.input = rest := by rw [hsc]
              have hscF : (skipComment f st).2.flags = st.flags := by rw [hsc]
              obtain ⟨hSE, hSW, hSI, hSLn, hSCn, hSF, hSM, hSD⟩ :=
                storeCommentRoot_safe (skipComment f st).2 root (by rw [hscF]; exact hflag)
              rw [hsc1]
              obtain ⟨hg1, hg2, hg3⟩ := getStartResume n ih
                (storeCommentRoot (skipComment f st).2 root).1
                (storeCommentRoot (skipComment f st).2 root).2 10 f
                (by rw [hSF, hscF]; exact hbit)
                (by rw [hSF, hscF]; exact hflag)
                (by rw [hSI, hscI]
                    intro x hx
                    exact hby x (by
                      rw [hinp, hr2]
                      exact List.mem_cons_of_mem _ (List.mem_append_right _ hx)))
                (by omega)
                (Or.inr ⟨by norm_num, by norm_num, by norm_num,
                  by rw [if_neg (by norm_num), hSI, hscI]; exact hrest,
                  by rw [hSI, hscI]; omega,
                  by rw [hSI, hscI]; omega⟩)
              exact ⟨hg1, hg2.trans (hSE.trans hscE), hg3.trans hSD⟩
            · have hstlen : st.input.length = r2.length + 1 := by
                rw [hinp]
                simp
              have hsc := skipComment_line_eof r2 f st hinp hplain (by omega)
              have hsc1 : (skipComment f st).1 = -1 := by rw [hsc]
              have hscE : (skipComment f st).2.errors = st.errors := by
                rw [hsc]
                exact addWarning_errors_keep _ _ _ hbit
              have hscF : (skipComment f st).2.flags = st.flags := by rw [hsc]
              obtain ⟨hSE, hSW, hSI, hSLn, hSCn, hSF, hSM, hSD⟩ :=
                storeCommentRoot_safe (skipComment f st).2 root (by rw [hscF]; exact hflag)
              rw [hsc1]
              obtain ⟨hg1, hg2, hg3⟩ := getStartResume n ih
                (storeCommentRoot (skipComment f st).2 root).1
                (storeCommentRoot (skipComment f st).2 root).2 (-1) f
                (by rw [hSF, hscF]; exact hbit)
                (by rw [hSF, hscF]; exact hflag)
                (by intro x hx; exact absurd hx (by rw [hSI]; rw [hsc]; simp))
                (by omega)
                (Or.inl (by norm_num))
              exact ⟨hg1, hg2.trans (hSE.trans hscE), hg3.trans hSD⟩
          · rw [if_neg hb2] at hclass
            by_cases hb42 : b2 = 42
            · subst hb42
              rw [if_pos rfl] at hclass
              have hstlen : st.input.length = r2.length + 1 := by
                rw [hinp]
                simp
              have hread : readChar st =
                  ((42 : Int), { st with input := r2, colNo := st.colNo + 1 }) := by
                have := readChar_other hinp (by omega) (by omega)
                simpa using this
              rcases hbl : blockCommentLoop f
                { addWarning wxJSONREADER_ALLOW_COMMENTS commentWarnText
                    { st with input := r2, colNo := st.colNo + 1 } with
                  commentLine := ((addWarning wxJSONREADER_ALLOW_COMMENTS commentWarnText
                    { st with input := r2, colNo := st.colNo + 1 }).lineNo : Int) }
                42 [47, 42] with ⟨c2, stL, bufL⟩
              have hsk : skipComment f st = (c2, { stL with comment := bufL }) := by
                unfold skipComment
                rw [hread]
                dsimp only
                rw [if_neg (by norm_num), if_neg (by norm_num), if_pos rfl]
                rw [hbl]
              have hcl := blockCommentLoop_class r2.length
                { addWarning wxJSONREADER_ALLOW_COMMENTS commentWarnText
                    { st with input := r2, colNo := st.colNo + 1 } with
                  commentLine := ((addWarning wxJSONREADER_ALLOW_COMMENTS commentWarnText
                    { st with input := r2, colNo := st.colNo + 1 }).lineNo : Int) }
                42 [47, 42] f
                (by simp)
                (by simp only [addWarning_input]
                    exact hbys)
                (by norm_num)
                (by rw [if_pos rfl]
                    simp only [addWarning_input]
                    exact hclass)
                (by simp only [addWarning_input]
                    omega)
              rw [hbl] at hcl
              simp only [addWarning_input] at hcl
              obtain ⟨hw, hLby, hLlen, hLE, hLF⟩ := hcl
              have hE2 : stL.errors = st.errors :=
                hLE.trans (addWarning_errors_keep _ _ _ hbit)
              have hF2 : stL.flags = st.flags :=
                hLF.trans (addWarning_flags _ _ _)
              have hsc1 : (skipComment f st).1 = c2 := by rw [hsk]
              have hscE : (skipComment f st).2.errors = st.errors := by
                rw [hsk]
                exact hE2
              have hscF : (skipComment f st).2.flags = st.flags := by
                rw [hsk]
                exact hF2
              have hscI : (skipComment f st).2.input = stL.input := by rw [hsk]
              obtain ⟨hSE, hSW, hSI, hSLn, hSCn, hSF, hSM, hSD⟩ :=
                storeCommentRoot_safe (skipComment f st).2 root (by rw [hscF]; exact hflag)
              rw [hsc1]
              obtain ⟨hg1, hg2, hg3⟩ := getStartResume n ih
                (storeCommentRoot (skipComment f st).2 root).1
                (storeCommentRoot (skipComment f st).2 root).2 c2 f
                (by rw [hSF, hscF]; exact hbit)
                (by rw [hSF, hscF]; exact hflag)
                (by rw [hSI, hscI]; exact hLby)
                (by omega)
                (by rcases hw with hneg | ⟨ha, hb', hc', hd', he'⟩
                    · exact Or.inl hneg
                    · refine Or.inr ⟨ha, hb', hc', ?_, ?_, ?_⟩
                      · rw [hSI, hscI]
                        exact hd'
                      · rw [hSI, hscI]
                        omega
                      · rw [hSI, hscI]
                        omega)
              exact ⟨hg1, hg2.trans (hSE.trans hscE), hg3.trans hSD⟩
            · rw [if_neg hb42] at hclass
              exact absurd hclass (by simp)
      · rw [if_neg h47] at hclass
        rw [getStart_succ, if_neg (by omega), if_neg (by simp [h123, h91]), if_neg h47]
        dsimp only
        obtain ⟨hrcw, hrby, hrlen, hrE, hrF⟩ := readClassStep st hclass hby
        obtain ⟨hg1, hg2, hg3⟩ := getStartResume n ih (readChar st).2 root (readChar st).1 f
          (by rw [hrF]; exact hbit)
          (by rw [hrF]; exact hflag)
          hrby
          (by omega)
          (by rcases hrcw with hneg | ⟨ha, hb', hc', hd', he'⟩
              · exact Or.inl hneg
              · exact Or.inr ⟨ha, hb', hc', hd', by omega, by omega⟩)
        exact ⟨hg1, hg2.trans hrE, hg3⟩

end WxJSON

namespace WxJSON

/-- A single error call on an empty error list always stores exactly one
entry (the formatted message, or the sentinel when `max_errors` is zero). -/
theorem addError_length_nil (m : String) (st : RState) (h : st.errors = []) :
    (addError m st).errors.length = 1 := by
  unfold addError
  dsimp only
  split_ifs with h1 h2
  · simp [h]
  · simp [h]
  · exfalso
    rw [h] at h1 h2
    simp at h1 h2
    omega

/-- Claim C7 counterexample: the input `/x` contains no start character at
all, yet `Parse` reports two errors - the stray-slash diagnostic from
`SkipComment` and the no-start diagnostic - not exactly one. -/
theorem claim7_counterexample :
    (∀ b ∈ [47, 120], b ≠ 123 ∧ b ≠ 91) ∧
    (parse 15 30 [47, 120] none).errors =
      [formatError 1 3 msgStraySlash, formatError 1 3 msgNoStart] ∧
    (parse 15 30 [47, 120] none).errors.length = 2 ∧
    (parse 15 30 [47, 120] none).root.data = .invalid :=
  ⟨by decide, rfl, rfl, rfl⟩

/-- Claim C7 as amended: restricted to inputs in which every slash opens a
well-formed comment (the `preScan` class: no `{` or `[` outside comments, line
comments closed by LF, CR+LF or end of stream, block comments with arbitrary
bodies - newlines and stars included - closed by `*/` or running to end of
stream), and to configurations that neither route the comment warning to the
error list (ALLOW_COMMENTS set) nor try to attach a pre-start comment After a
value (STORE_COMMENTS or COMMENTS_AFTER clear), a null-destination `Parse`
leaves the root payload Invalid and reports exactly one error, the no-start
diagnostic. Stray slashes and routed comment warnings each add a further
error (see the counterexample). -/
theorem claim7_amended (flags maxErrors : Nat) (input : List Nat)
    (hbit : 1 &&& flags ≠ 0)
    (hflag : flags &&& wxJSONREADER_STORE_COMMENTS = 0 ∨
      flags &&& wxJSONREADER_COMMENTS_AFTER = 0)
    (hby : ∀ b ∈ input, b < 256)
    (hclass : preScan .top input = true) :
    (parse flags maxErrors input none).root.data = .invalid ∧
    (parse flags maxErrors input none).errors.length = 1 := by
  have hg := getStart_noStart input.length (initState flags maxErrors input)
    ((Option.getD none JValue.freshInvalid).setLineNo (-1)) 0 (parseFuel input)
    (le_refl _) hbit hflag hby (by norm_num) (by norm_num) (by norm_num)
    (by rw [if_neg (by norm_num)]; exact hclass)
    (by unfold parseFuel initState; dsimp only; omega)
  obtain ⟨hg1, hg2, hg3⟩ := hg
  unfold parse
  dsimp only
  rw [if_neg (by omega), if_neg (by omega)]
  dsimp only
  constructor
  · exact hg3
  · exact addError_length_nil msgNoStart _ hg2

/-- Concrete runs of the amended C7 statement under ALLOW_COMMENTS: the
whitespace-and-comment input ` //c<LF> `, the multi-line block comment
`/* x<LF>y */ `, the starred block comment `/* a*b */` and the block comment
`/* abc` left unclosed at end of stream all parse to an Invalid root with
exactly one error. -/
theorem claim7_witness :
    ((parse 1 30 [32, 47, 47, 99, 10, 32] none).root.data = .invalid ∧
     (parse 1 30 [32, 47, 47, 99, 10, 32] none).errors.length = 1) ∧
    ((parse 1 30 [47, 42, 32, 120, 10, 121, 32, 42, 47, 32] none).root.data = .invalid ∧
     (parse 1 30 [47, 42, 32, 120, 10, 121, 32, 42, 47, 32] none).errors.length = 1) ∧
    ((parse 1 30 [47, 42, 32, 97, 42, 98, 32, 42, 47] none).root.data = .invalid ∧
     (parse 1 30 [47, 42, 32, 97, 42, 98, 32, 42, 47] none).errors.length = 1) ∧
    ((parse 1 30 [47, 42, 32, 97, 98, 99] none).root.data = .invalid ∧
     (parse 1 30 [47, 42, 32, 97, 98, 99] none).errors.length = 1) :=
  ⟨claim7_amended 1 30 [32, 47, 47, 99, 10, 32] (by decide) (Or.inl (by decide))
    (by decide) (by decide),
   claim7_amended 1 30 [47, 42, 32, 120, 10, 121, 32, 42, 47, 32] (by decide)
    (Or.inl (by decide)) (by decide) (by decide),
   claim7_amended 1 30 [47, 42, 32, 97, 42, 98, 32, 42, 47] (by decide)
    (Or.inl (by decide)) (by decide) (by decide),
   claim7_amended 1 30 [47, 42, 32, 97, 98, 99] (by decide)
    (Or.inl (by decide)) (by decide) (by decide)⟩

end WxJSON

namespace WxJSON

@[simp] theorem JValue.lineNo_addComment (v : JValue) (t : List Nat) (p : CommentPos) :
    (v.addComment t p).lineNo = v.lineNo := by
  cases v
  rfl

@[simp] theorem JValue.kind_addComment (v : JValue) (t : List Nat) (p : CommentPos) :
    (v.addComment t p).kind = v.kind := by
  cases v
  rfl

@[simp] theorem JKind.kind_defaultData (k : JKind) : k.defaultData.kind = k := by
  cases k <;> rfl

@[simp] theorem JValue.kind_setType (v : JValue) (k : JKind) : (v.setType k).kind = k := by
  unfold JValue.setType
  split_ifs with h
  · exact h
  · cases v
    simp [JValue.kind, JValue.data]

@[simp] theorem JValue.lineNo_setType (v : JValue) (k : JKind) :
    (v.setType k).lineNo = v.lineNo := by
  unfold JValue.setType
  split_ifs with h
  · rfl
  · cases v
    rfl

@[simp] theorem JValue.kind_insertKey (v : JValue) (k : List Nat) (c : JValue) :
    (v.insertKey k c).kind = v.kind := by
  unfold JValue.insertKey
  cases v with
  | mk d l cs => cases d <;> rfl

@[simp] theorem JValue.lineNo_insertKey (v : JValue) (k : List Nat) (c : JValue) :
    (v.insertKey k c).lineNo = v.lineNo := by
  unfold JValue.insertKey
  cases v with
  | mk d l cs => cases d <;> rfl

@[simp] theorem JValue.kind_appendItem (v : JValue) (c : JValue) :
    (v.appendItem c).kind = v.kind := by
  unfold JValue.appendItem
  cases v with
  | mk d l cs => cases d <;> rfl

@[simp] theorem JValue.lineNo_appendItem (v : JValue) (c : JValue) :
    (v.appendItem c).lineNo = v.lineNo := by
  unfold JValue.appendItem
  cases v with
  | mk d l cs => cases d <;> rfl

@[simp] theorem JValue.kind_updateChild (v : JValue) (k : List Nat) (f : JValue → JValue) :
    (v.updateChild k f).kind = v.kind := by
  unfold JValue.updateChild
  cases v with
  | mk d l cs => cases d <;> rfl

@[simp] theorem JValue.lineNo_updateChild (v : JValue) (k : List Nat) (f : JValue → JValue) :
    (v.updateChild k f).lineNo = v.lineNo := by
  unfold JValue.updateChild
  cases v with
  | mk d l cs => cases d <;> rfl

@[simp] theorem JValue.kind_updateLast (v : JValue) (f : JValue → JValue) :
    (v.updateLast f).kind = v.kind := by
  unfold JValue.updateLast
  cases v with
  | mk d l cs => cases d <;> rfl

@[simp] theorem JValue.lineNo_updateLast (v : JValue) (f : JValue → JValue) :
    (v.updateLast f).lineNo = v.lineNo := by
  unfold JValue.updateLast
  cases v with
  | mk d l cs => cases d <;> rfl

/-- Attaching a comment does not change what the cursors dereference. -/
theorem lderef_addComment (v : JValue) (t : List Nat) (p : CommentPos) (r : LRef) :
    lderef (v.addComment t p) r = lderef v r := by
  cases v
  cases r <;> rfl

/-- Stamping the line number does not change what the cursors dereference. -/
theorem lderef_setLineNo (v : JValue) (l : Int) (r : LRef) :
    lderef (v.setLineNo l) r = lderef v r := by
  cases v
  cases r <;> rfl

/-- Pointers into a dead inner frame dereference to null for every parent. -/
theorem lderef_liftCur (v : JValue) (fc : FCur) :
    lderef v (liftCur fc).last = none := by
  unfold liftCur
  cases fc with
  | mk c nx l => cases l <;> rfl

/-- Lookup after an in-place update of the same key. -/
theorem objLookup_objUpdate (e : List (List Nat × JValue)) (k : List Nat)
    (f : JValue → JValue) :
    objLookup (objUpdate e k f) k = (objLookup e k).map f := by
  induction e with
  | nil => rfl
  | cons kv rest ih =>
    obtain ⟨k0, v0⟩ := kv
    unfold objUpdate objLookup
    by_cases hk : k0 = k
    · rw [if_pos hk]
      dsimp only
      rw [if_pos hk, if_pos hk]
      rfl
    · rw [if_neg hk]
      dsimp only
      rw [if_neg hk, if_neg hk]
      exact ih

/-- Lookup after inserting and updating the same key. -/
theorem objLookup_objUpdate_objInsert (e : List (List Nat × JValue)) (k : List Nat)
    (c : JValue) (f : JValue → JValue) :
    objLookup (objUpdate (objInsert e k c) k f) k = some (f c) := by
  induction e with
  | nil =>
    unfold objInsert objUpdate objLookup
    rw [if_pos rfl]
    dsimp only
    rw [if_pos rfl]
  | cons kv rest ih =>
    obtain ⟨k0, v0⟩ := kv
    unfold objInsert
    by_cases hk : k0 = k
    · rw [if_pos hk]
      unfold objUpdate objLookup
      rw [if_pos hk]
      dsimp only
      rw [if_pos hk]
    · rw [if_neg hk]
      unfold objUpdate objLookup
      rw [if_neg hk]
      dsimp only
      rw [if_neg hk]
      exact ih

/-- Updating the last element of a list, seen through `getLast?`. -/
theorem getLast_listUpdateLast :
    ∀ (items : List JValue) (f : JValue → JValue),
      (listUpdateLast items f).getLast? = items.getLast?.map f
  | [], _ => rfl
  | [_], _ => rfl
  | v :: r :: rs, f => by
    have ih := getLast_listUpdateLast (r :: rs) f
    show (v :: listUpdateLast (r :: rs) f).getLast? = ((v :: r :: rs).getLast?).map f
    rw [List.getLast?_cons_cons, ← ih]
    cases rs with
    | nil => rfl
    | cons r2 rs2 =>
      show (v :: r :: listUpdateLast (r2 :: rs2) f).getLast? =
        (r :: listUpdateLast (r2 :: rs2) f).getLast?
      rw [List.getLast?_cons_cons]

/-- Updating the last element after appending it. -/
theorem getLast_listUpdateLast_concat (items : List JValue) (c : JValue)
    (f : JValue → JValue) :
    (listUpdateLast (items ++ [c]) f).getLast? = some (f c) := by
  rw [getLast_listUpdateLast]
  simp

end WxJSON

namespace WxJSON

/-- After `parent[key] = value` and the line stamp, the key dereferences to the
stamped stored child. -/
theorem objChild_insert_update (v : JValue) (hv : v.isObject = true) (k : List Nat)
    (c : JValue) (f : JValue → JValue) :
    ((v.insertKey k c).updateChild k f).objChild k = some (f c) := by
  obtain ⟨d, l, cs⟩ := v
  cases d <;> simp [JValue.isObject, JValue.kind, JValue.data, JData.kind] at hv
  simp [JValue.insertKey, JValue.updateChild, JValue.objChild, JValue.data]
  exact objLookup_objUpdate_objInsert _ k c f

/-- The same operation on a non-object leaves nothing to dereference. -/
theorem objChild_insert_update_notObj (v : JValue) (hv : v.isObject = false)
    (k : List Nat) (c : JValue) (f : JValue → JValue) :
    ((v.insertKey k c).updateChild k f).objChild k = none := by
  obtain ⟨d, l, cs⟩ := v
  cases d <;>
    simp [JValue.isObject, JValue.kind, JValue.data, JData.kind] at hv ⊢ <;>
    simp [JValue.insertKey, JValue.updateChild, JValue.objChild, JValue.data]

/-- The stored-key dereference agrees for two parents of the same kind. -/
theorem objChild_insert_update_rel (p q : JValue) (hk : p.kind = q.kind)
    (k : List Nat) (c : JValue) (f : JValue → JValue) :
    ((p.insertKey k c).updateChild k f).objChild k =
      ((q.insertKey k c).updateChild k f).objChild k := by
  have hO : p.isObject = q.isObject := by simp [JValue.isObject, hk]
  by_cases h : p.isObject = true
  · rw [objChild_insert_update p h, objChild_insert_update q (hO.symm.trans h)]
  · have hp : p.isObject = false := by
      cases hb : p.isObject
      · rfl
      · exact absurd hb h
    rw [objChild_insert_update_notObj p hp, objChild_insert_update_notObj q
      (hO.symm.trans hp)]

/-- After `parent.Append(value)` and the line stamp, the last array element is
the stamped stored child. -/
theorem arrLast_append_update (v : JValue) (hv : v.isArray = true) (c : JValue)
    (f : JValue → JValue) :
    ((v.appendItem c).updateLast f).arrLast = some (f c) := by
  obtain ⟨d, l, cs⟩ := v
  cases d <;> simp [JValue.isArray, JValue.kind, JValue.data, JData.kind] at hv
  simp [JValue.appendItem, JValue.updateLast, JValue.arrLast, JValue.data]
  exact getLast_listUpdateLast_concat _ c f

/-- The same operation on a non-array leaves nothing to dereference. -/
theorem arrLast_append_update_notArr (v : JValue) (hv : v.isArray = false)
    (c : JValue) (f : JValue → JValue) :
    ((v.appendItem c).updateLast f).arrLast = none := by
  obtain ⟨d, l, cs⟩ := v
  cases d <;>
    simp [JValue.isArray, JValue.kind, JValue.data, JData.kind] at hv ⊢ <;>
    simp [JValue.appendItem, JValue.updateLast, JValue.arrLast, JValue.data]

/-- The appended-item dereference agrees for two parents of the same kind. -/
theorem arrLast_append_update_rel (p q : JValue) (hk : p.kind = q.kind)
    (c : JValue) (f : JValue → JValue) :
    ((p.appendItem c).updateLast f).arrLast = ((q.appendItem c).updateLast f).arrLast := by
  have hA : p.isArray = q.isArray := by simp [JValue.isArray, hk]
  by_cases h : p.isArray = true
  · rw [arrLast_append_update p h, arrLast_append_update q (hA.symm.trans h)]
  · have hp : p.isArray = false := by
      cases hb : p.isArray
      · rfl
      · exact absurd hb h
    rw [arrLast_append_update_notArr p hp, arrLast_append_update_notArr q
      (hA.symm.trans hp)]

/-- `StoreValue` on two parents of the same kind and line: identical
diagnostics, reset value and cursor target, and related output parents. -/
theorem storeValue_rel (ch : Int) (key : List Nat) (value p q : JValue) (st : RState)
    (hk : p.kind = q.kind) (hl : p.lineNo = q.lineNo) :
    (storeValue ch key value p st).st = (storeValue ch key value q st).st ∧
    (storeValue ch key value p st).value = (storeValue ch key value q st).value ∧
    (storeValue ch key value p st).last = (storeValue ch key value q st).last ∧
    (storeValue ch key value p st).parent.kind = (storeValue ch key value q st).parent.kind ∧
    (storeValue ch key value p st).parent.lineNo =
      (storeValue ch key value q st).parent.lineNo ∧
    lderef (storeValue ch key value p st).parent (storeValue ch key value p st).last =
      lderef (storeValue ch key value q st).parent (storeValue ch key value q st).last := by
  have hO : p.isObject = q.isObject := by simp [JValue.isObject, hk]
  have hA : p.isArray = q.isArray := by simp [JValue.isArray, hk]
  unfold storeValue
  dsimp only
  simp only [hO, hA]
  split_ifs
  all_goals refine ⟨rfl, rfl, rfl, by simp [hk], by simp [hl], ?_⟩
  all_goals dsimp only [lderef]
  all_goals
    first
    | rfl
    | exact objChild_insert_update_rel p q hk key _ _
    | exact arrLast_append_update_rel p q hk _ _

end WxJSON

namespace WxJSON

/-- Attaching a comment does not change the object children. -/
@[simp] theorem objChild_addComment (v : JValue) (t : List Nat) (c : CommentPos)
    (k : List Nat) :
    (v.addComment t c).objChild k = v.objChild k := by
  cases v
  rfl

/-- Attaching a comment does not change the last array element. -/
@[simp] theorem arrLast_addComment (v : JValue) (t : List Nat) (c : CommentPos) :
    (v.addComment t c).arrLast = v.arrLast := by
  cases v
  rfl

/-- Updating an object child, seen through the same key. -/
theorem objChild_updateChild (v : JValue) (k : List Nat) (f : JValue → JValue) :
    (v.updateChild k f).objChild k = (v.objChild k).map f := by
  obtain ⟨d, l, cs⟩ := v
  cases d <;> simp [JValue.updateChild, JValue.objChild, JValue.data]
  exact objLookup_objUpdate _ k f

/-- Updating the last array element, seen through `Last()`. -/
theorem arrLast_updateLast (v : JValue) (f : JValue → JValue) :
    (v.updateLast f).arrLast = v.arrLast.map f := by
  obtain ⟨d, l, cs⟩ := v
  cases d <;> simp [JValue.updateLast, JValue.arrLast, JValue.data]
  exact getLast_listUpdateLast _ f

/-- `StoreComment` from a frame, on two parents of the same kind and line with
the same cursor view: identical diagnostics and pending value, and related
output parents. -/
theorem storeCommentFrame_rel (st : RState) (p q value : JValue) (fc : FCur)
    (hk : p.kind = q.kind) (hl : p.lineNo = q.lineNo)
    (hd : lderef p fc.last = lderef q fc.last) :
    (storeCommentFrame st p value fc).1 = (storeCommentFrame st q value fc).1 ∧
    (storeCommentFrame st p value fc).2.2 = (storeCommentFrame st q value fc).2.2 ∧
    (storeCommentFrame st p value fc).2.1.kind = (storeCommentFrame st q value fc).2.1.kind ∧
    (storeCommentFrame st p value fc).2.1.lineNo =
      (storeCommentFrame st q value fc).2.1.lineNo ∧
    lderef (storeCommentFrame st p value fc).2.1 fc.last =
      lderef (storeCommentFrame st q value fc).2.1 fc.last := by
  obtain ⟨fcur, fnxt, flast⟩ := fc
  have hv : p.isValid = q.isValid := by simp [JValue.isValid, hk]
  unfold storeCommentFrame
  dsimp only
  cases fcur <;> cases flast <;>
    simp only [lderef] at hd <;>
    simp only [hl, hv, hd] <;>
    split <;>
    rename_i heq <;>
    simp only [heq] <;>
    and_intros <;>
    simp [lderef, lderef_addComment, hk, hl, hd, objChild_updateChild, arrLast_updateLast,
      objChild_addComment, arrLast_addComment]

end WxJSON

namespace WxJSON

/-- The root-level `StoreComment` call of `GetStart`, on two roots with the
same line attribute: identical diagnostics and preserved line attribute. -/
theorem storeCommentRoot_rel (st : RState) (r1 r2 : JValue)
    (hl : r1.lineNo = r2.lineNo) :
    (storeCommentRoot st r1).1 = (storeCommentRoot st r2).1 ∧
    (storeCommentRoot st r1).2.lineNo = (storeCommentRoot st r2).2.lineNo := by
  unfold storeCommentRoot
  dsimp only
  rw [hl]
  split <;>
    rename_i heq <;>
    simp only [heq] <;>
    and_intros <;>
    simp [hl]

/-- `GetStart` on two roots with the same line attribute: same returned
character and reader state, and the line attributes stay equal. -/
theorem getStart_rel :
    ∀ (fuel : Nat) (st : RState) (r1 r2 : JValue) (ch : Int),
      r1.lineNo = r2.lineNo →
      (getStart fuel st r1 ch).1 = (getStart fuel st r2 ch).1 ∧
      (getStart fuel st r1 ch).2.1 = (getStart fuel st r2 ch).2.1 ∧
      (getStart fuel st r1 ch).2.2.lineNo = (getStart fuel st r2 ch).2.2.lineNo := by
  intro fuel
  induction fuel with
  | zero =>
    intro st r1 r2 ch hl
    exact ⟨rfl, rfl, hl⟩
  | succ f ih =>
    intro st r1 r2 ch hl
    rw [getStart_succ, getStart_succ]
    by_cases h1 : ch < 0
    · simp only [if_pos h1]
      simp [hl]
    · simp only [if_neg h1]
      by_cases h2 : (ch = 123 || ch = 91) = true
      · simp only [if_pos h2]
        simp [hl]
      · simp only [if_neg h2]
        by_cases h3 : ch = 47
        · simp only [if_pos h3]
          obtain ⟨hcr1, hcr2⟩ :=
            storeCommentRoot_rel (skipComment f st).2 r1 r2 hl
          rw [hcr1]
          exact ih (storeCommentRoot (skipComment f st).2 r2).1
            (storeCommentRoot (skipComment f st).2 r1).2
            (storeCommentRoot (skipComment f st).2 r2).2
            (skipComment f st).1 hcr2
        · simp only [if_neg h3]
          exact ih (readChar st).2 r1 r2 (readChar st).1 hl

end WxJSON

namespace WxJSON

/-- The `DoRead` dispatch loop on two parents of the same kind and line whose
active `m_lastStored` targets dereference equally: the returned character,
reader state (hence all diagnostics) and cursors coincide, and the output
parents remain related. The pending value, key and stream are shared, and
inner frames - whose parent is the shared pending value - are literally equal,
so only the top frame needs the relation. -/
theorem doReadLoop_rel :
    ∀ (fuel : Nat) (st : RState) (p q value : JValue) (key : List Nat) (fc : FCur) (ch : Int),
      p.kind = q.kind → p.lineNo = q.lineNo → lderef p fc.last = lderef q fc.last →
      (doReadLoop fuel st p value key fc ch).ch = (doReadLoop fuel st q value key fc ch).ch ∧
      (doReadLoop fuel st p value key fc ch).st = (doReadLoop fuel st q value key fc ch).st ∧
      (doReadLoop fuel st p value key fc ch).fc = (doReadLoop fuel st q value key fc ch).fc ∧
      (doReadLoop fuel st p value key fc ch).parent.kind =
        (doReadLoop fuel st q value key fc ch).parent.kind ∧
      (doReadLoop fuel st p value key fc ch).parent.lineNo =
        (doReadLoop fuel st q value key fc ch).parent.lineNo ∧
      lderef (doReadLoop fuel st p value key fc ch).parent
          (doReadLoop fuel st p value key fc ch).fc.last =
        lderef (doReadLoop fuel st q value key fc ch).parent
          (doReadLoop fuel st q value key fc ch).fc.last := by
  intro fuel
  induction fuel with
  | zero =>
    intro st p q value key fc ch hk hl hd
    exact ⟨rfl, rfl, rfl, hk, hl, hd⟩
  | succ f ih =>
    intro st p q value key fc ch hk hl hd
    have hO : p.isObject = q.isObject := by simp [JValue.isObject, hk]
    have hA : p.isArray = q.isArray := by simp [JValue.isArray, hk]
    rw [doReadLoop, doReadLoop]
    by_cases hc1 : ch < -1
    · simp only [if_pos hc1]
      exact ⟨trivial, trivial, trivial, hk, hl, hd⟩
    simp only [if_neg hc1]
    by_cases hc2 : ch < 0
    · simp only [if_pos hc2, hO, hA]
      refine ⟨trivial,
        congrArg (fun x => { x with level := x.level - 1 })
          (storeValue_rel _ _ _ _ _ _ hk hl).1,
        congrArg (fun l => (⟨CTag.cnone, NTag.nvalue, l⟩ : FCur))
          (storeValue_rel _ _ _ _ _ _ hk hl).2.2.1,
        (storeValue_rel _ _ _ _ _ _ hk hl).2.2.2.1,
        (storeValue_rel _ _ _ _ _ _ hk hl).2.2.2.2.1,
        ?_⟩
      show lderef (storeValue _ _ _ p _).parent (storeValue _ _ _ p _).last =
        lderef (storeValue _ _ _ q _).parent (storeValue _ _ _ q _).last
      exact (storeValue_rel _ _ _ _ _ _ hk hl).2.2.2.2.2
    simp only [if_neg hc2]
    by_cases hc3 : ch = 0
    · simp only [if_pos hc3]
      rcases hrc : readChar st with ⟨c, st2⟩
      dsimp only
      exact ih st2 p q value key fc c hk hl hd
    simp only [if_neg hc3]
    by_cases hc4 : (ch = 32 || ch = 9 || ch = 10 || ch = 13) = true
    · simp only [if_pos hc4]
      rcases hws : skipWhiteSpace f st with ⟨c, st2⟩
      dsimp only
      exact ih st2 p q value key fc c hk hl hd
    simp only [if_neg hc4]
    by_cases hc5 : ch = 47
    · simp only [if_pos hc5]
      rcases hsc : skipComment f st with ⟨c, st2⟩
      dsimp only
      obtain ⟨hf1, hf2, hf3, hf4, hf5⟩ := storeCommentFrame_rel st2 p q value fc hk hl hd
      rw [hf1, hf2]
      exact ih (storeCommentFrame st2 q value fc).1 (storeCommentFrame st2 p value fc).2.1
        (storeCommentFrame st2 q value fc).2.1 (storeCommentFrame st2 q value fc).2.2
        key fc c hf3 hf4 hf5
    simp only [if_neg hc5]
    by_cases hc6 : ch = 123
    · simp only [if_pos hc6, hO, hA]
      refine ih _ p q _ _ _ _ hk hl ?_
      rw [lderef_liftCur, lderef_liftCur]
    simp only [if_neg hc6]
    by_cases hc7 : ch = 125
    · simp only [if_pos hc7, hO]
      refine ⟨congrArg (fun s => (readChar s).1) (storeValue_rel _ _ _ _ _ _ hk hl).1,
        congrArg (fun s => (readChar s).2) (storeValue_rel _ _ _ _ _ _ hk hl).1,
        congrArg (fun l => (⟨CTag.cparent, NTag.nnone, l⟩ : FCur))
          (storeValue_rel _ _ _ _ _ _ hk hl).2.2.1,
        ?_, ?_, ?_⟩
      · show ((storeValue _ _ _ p _).parent.setLineNo _).kind =
          ((storeValue _ _ _ q _).parent.setLineNo _).kind
        rw [JValue.kind_setLineNo, JValue.kind_setLineNo]
        exact (storeValue_rel _ _ _ _ _ _ hk hl).2.2.2.1
      · show ((storeValue _ _ _ p _).parent.setLineNo
            ((storeValue _ _ _ p _).st.lineNo : Int)).lineNo =
          ((storeValue _ _ _ q _).parent.setLineNo
            ((storeValue _ _ _ q _).st.lineNo : Int)).lineNo
        rw [JValue.lineNo_setLineNo, JValue.lineNo_setLineNo]
        exact congrArg (fun s => ((s.lineNo : Nat) : Int)) (storeValue_rel _ _ _ _ _ _ hk hl).1
      · show lderef ((storeValue _ _ _ p _).parent.setLineNo _) (storeValue _ _ _ p _).last =
          lderef ((storeValue _ _ _ q _).parent.setLineNo _) (storeValue _ _ _ q _).last
        rw [lderef_setLineNo, lderef_setLineNo]
        exact (storeValue_rel _ _ _ _ _ _ hk hl).2.2.2.2.2
    simp only [if_neg hc7]
    by_cases hc8 : ch = 91
    · simp only [if_pos hc8, hO, hA]
      refine ih _ p q _ _ _ _ hk hl ?_
      rw [lderef_liftCur, lderef_liftCur]
    simp only [if_neg hc8]
    by_cases hc9 : ch = 93
    · simp only [if_pos hc9, hA]
      refine ⟨trivial,
        (storeValue_rel _ _ _ _ _ _ hk hl).1,
        congrArg (fun l => (⟨CTag.cparent, NTag.nnone, l⟩ : FCur))
          (storeValue_rel _ _ _ _ _ _ hk hl).2.2.1,
        ?_, ?_, ?_⟩
      · show ((storeValue _ _ _ p _).parent.setLineNo _).kind =
          ((storeValue _ _ _ q _).parent.setLineNo _).kind
        rw [JValue.kind_setLineNo, JValue.kind_setLineNo]
        exact (storeValue_rel _ _ _ _ _ _ hk hl).2.2.2.1
      · show ((storeValue _ _ _ p _).parent.setLineNo
            ((storeValue _ _ _ p _).st.lineNo : Int)).lineNo =
          ((storeValue _ _ _ q _).parent.setLineNo
            ((storeValue _ _ _ q _).st.lineNo : Int)).lineNo
        rw [JValue.lineNo_setLineNo, JValue.lineNo_setLineNo]
        exact congrArg (fun s => ((s.lineNo : Nat) : Int)) (storeValue_rel _ _ _ _ _ _ hk hl).1
      · show lderef ((storeValue _ _ _ p _).parent.setLineNo _) (storeValue _ _ _ p _).last =
          lderef ((storeValue _ _ _ q _).parent.setLineNo _) (storeValue _ _ _ q _).last
        rw [lderef_setLineNo, lderef_setLineNo]
        exact (storeValue_rel _ _ _ _ _ _ hk hl).2.2.2.2.2
    simp only [if_neg hc9]
    by_cases hc10 : ch = 44
    · simp only [if_pos hc10]
      obtain ⟨hs1, hs2, hs3, hs4, hs5, hs6⟩ := storeValue_rel 44 key value p q st hk hl
      rw [hs1, hs2]
      rcases hrc : readChar (storeValue 44 key value q st).st with ⟨c, st2⟩
      dsimp only
      rw [hs3] at hs6 ⊢
      exact ih st2 (storeValue 44 key value p st).parent (storeValue 44 key value q st).parent
        (storeValue 44 key value q st).value [] ⟨CTag.cnone, NTag.nvalue,
          (storeValue 44 key value q st).last⟩ c hs4 hs5 hs6
    simp only [if_neg hc10]
    by_cases hc11 : ch = 34
    · simp only [if_pos hc11]
      rcases hrs : readString f st value with ⟨c, st2, v2⟩
      dsimp only
      exact ih st2 p q v2 key ⟨CTag.cvalue, NTag.nnone, fc.last⟩ c hk hl hd
    simp only [if_neg hc11]
    by_cases hc12 : ch = 39
    · simp only [if_pos hc12]
      rcases hrm : readMemoryBuff f st value with ⟨c, st2, v2⟩
      dsimp only
      exact ih st2 p q v2 key ⟨CTag.cvalue, NTag.nnone, fc.last⟩ c hk hl hd
    simp only [if_neg hc12]
    by_cases hc13 : ch = 58
    · simp only [if_pos hc13, hO]
      rcases hrc : readChar _ with ⟨c, st2⟩
      dsimp only
      exact ih st2 p q _ _ ⟨CTag.cvalue, NTag.nnone, fc.last⟩ c hk hl hd
    simp only [if_neg hc13]
    rcases hrv : readValue f st ch (value.setLineNo (st.lineNo : Int)) with ⟨c, st2, v2⟩
    dsimp only
    exact ih st2 p q v2 key ⟨CTag.cvalue, NTag.nnone, fc.last⟩ c hk hl hd

end WxJSON

namespace WxJSON

/-- A whole `DoRead` frame on two parents of the same kind and line: same
returned character and same reader state, hence identical diagnostics. -/
theorem doRead_rel (fuel : Nat) (st : RState) (p q : JValue)
    (hk : p.kind = q.kind) (hl : p.lineNo = q.lineNo) :
    (doRead fuel st p).ch = (doRead fuel st q).ch ∧
    (doRead fuel st p).st = (doRead fuel st q).st := by
  cases fuel with
  | zero => exact ⟨rfl, rfl⟩
  | succ f =>
    rw [doRead, doRead]
    dsimp only
    have h := doReadLoop_rel f
      { st with level := st.level + 1, depth := max st.depth (st.level + 1) }
      (p.setLineNo (st.lineNo : Int)) (q.setLineNo (st.lineNo : Int))
      JValue.freshInvalid [] ⟨CTag.cparent, NTag.nvalue, LRef.lnone⟩ 0
      (by simp [hk]) (by simp) rfl
    exact ⟨h.1, h.2.1⟩

/-- Claim C10, confirmed: `Parse` with a null destination runs the full parse
against the internal temporary (an invalid fresh value substituted for the
null pointer), produces exactly the error and warning lists of a parse with
any destination value, and in every path returns the size of the error
list. -/
theorem claim10 (flags maxErrors : Nat) (input : List Nat) (d : JValue) :
    (parse flags maxErrors input (some d)).errors =
      (parse flags maxErrors input none).errors ∧
    (parse flags maxErrors input (some d)).warnings =
      (parse flags maxErrors input none).warnings ∧
    (parse flags maxErrors input (some d)).ret = (parse flags maxErrors input none).ret ∧
    (∀ dest : Option JValue, (parse flags maxErrors input dest).ret =
      (parse flags maxErrors input dest).errors.length) := by
  have hret : ∀ dest : Option JValue, (parse flags maxErrors input dest).ret =
      (parse flags maxErrors input dest).errors.length := by
    intro dest
    unfold parse
    dsimp only
    split_ifs <;> rfl
  have hall : (parse flags maxErrors input (some d)).errors =
      (parse flags maxErrors input none).errors ∧
    (parse flags maxErrors input (some d)).warnings =
      (parse flags maxErrors input none).warnings ∧
    (parse flags maxErrors input (some d)).ret = (parse flags maxErrors input none).ret := by
    unfold parse
    dsimp only [Option.getD]
    obtain ⟨hg1, hg2, hg3⟩ := getStart_rel (parseFuel input)
      (initState flags maxErrors input)
      (d.setLineNo (-1)) (JValue.freshInvalid.setLineNo (-1)) 0 (by simp)
    rw [hg1, hg2]
    by_cases h123 : (getStart (parseFuel input) (initState flags maxErrors input)
        (JValue.freshInvalid.setLineNo (-1)) 0).1 = 123
    · simp only [if_pos h123]
      obtain ⟨hd1, hd2⟩ := doRead_rel (parseFuel input)
        (getStart (parseFuel input) (initState flags maxErrors input)
          (JValue.freshInvalid.setLineNo (-1)) 0).2.1
        ((getStart (parseFuel input) (initState flags maxErrors input)
          (d.setLineNo (-1)) 0).2.2.setType .jobject)
        ((getStart (parseFuel input) (initState flags maxErrors input)
          (JValue.freshInvalid.setLineNo (-1)) 0).2.2.setType .jobject)
        (by simp) (by simp [hg3])
      exact ⟨congrArg (fun s => s.errors) hd2, congrArg (fun s => s.warnings) hd2,
        congrArg (fun s => s.errors.length) hd2⟩
    · simp only [if_neg h123]
      by_cases h91 : (getStart (parseFuel input) (initState flags maxErrors input)
          (JValue.freshInvalid.setLineNo (-1)) 0).1 = 91
      · simp only [if_pos h91]
        obtain ⟨hd1, hd2⟩ := doRead_rel (parseFuel input)
          (getStart (parseFuel input) (initState flags maxErrors input)
            (JValue.freshInvalid.setLineNo (-1)) 0).2.1
          ((getStart (parseFuel input) (initState flags maxErrors input)
            (d.setLineNo (-1)) 0).2.2.setType .jarray)
          ((getStart (parseFuel input) (initState flags maxErrors input)
            (JValue.freshInvalid.setLineNo (-1)) 0).2.2.setType .jarray)
          (by simp) (by simp [hg3])
        exact ⟨congrArg (fun s => s.errors) hd2, congrArg (fun s => s.warnings) hd2,
          congrArg (fun s => s.errors.length) hd2⟩
      · simp only [if_neg h91]
        exact ⟨trivial, trivial, trivial⟩
  exact ⟨hall.1, hall.2.1, hall.2.2, hret⟩

end WxJSON
